import Mathlib

/-!
Shallow embedding of the two container classes of this repository
(ListContainer.h and ArrayContainer.h) and proofs about them.

The doubly linked list is modelled with an explicit heap: node addresses are
natural numbers, the heap is a list of optional nodes (a freed cell holds
none), and every pointer dereference of the C++ code becomes an explicit
lookup.  Dereferencing a null pointer or a freed cell — undefined behaviour
in the C++ source — is modelled as an error value.  C++ loops become fueled
recursions; the fuel supplied by the public wrappers exceeds the length of
any acyclic chain of live nodes, so fuel exhaustion can only happen on heaps
the source code would loop forever on.
-/

namespace CppContainers

/-- Error channel: C++ exceptions (logic_error / range_error sites of the
source) together with the undefined-behaviour events of the model. -/
inductive CErr where
  | nullDeref
  | danglingRef
  | noFuel
  | emptyList
  | invalidIterator
  | notSuccessive
  | undefinedNode
  | invalidSize
  | invalidSource
  | invalidState
  | outOfRange (size index : Nat)
  deriving DecidableEq, Repr

/-- One node of the doubly linked list (class ListNode of ListContainer.h):
a data member and the two neighbour pointers. -/
structure ListNode (T : Type) where
  data    : T
  prevPtr : Option Nat
  nextPtr : Option Nat
  deriving DecidableEq, Repr

/-- The heap: cell number a holds the node at address a, or none once the
node has been deleted (or never allocated). -/
abbrev HeapT (T : Type) := List (Option (ListNode T))

/-- Header of a List object: the three data members of class List. -/
structure ListHdr where
  firstPtr      : Option Nat
  lastPtr       : Option Nat
  numberOfNodes : Nat
  deriving DecidableEq, Repr

/-- State of a single list: the shared heap together with its header. -/
abbrev LState (T : Type) := HeapT T × ListHdr

/-- Heap lookup at an address. -/
def hget (h : HeapT T) (a : Nat) : Option (ListNode T) :=
  h.getD a none

/-- Heap update at an address (writing past the end is a no-op, but all
writes of the model target live cells or are themselves errors). -/
def hset (h : HeapT T) (a : Nat) (nd : Option (ListNode T)) : HeapT T :=
  h.set a nd

/-- Allocation: a fresh cell at the end of the heap. -/
def halloc (h : HeapT T) (nd : ListNode T) : HeapT T × Nat :=
  (h ++ [some nd], h.length)

/-- Dereference a pointer: null and dangling pointers are errors. -/
def readPtr (h : HeapT T) (p : Option Nat) : Except CErr (Nat × ListNode T) :=
  match p with
  | none => .error .nullDeref
  | some a =>
    match hget h a with
    | none => .error .danglingRef
    | some nd => .ok (a, nd)

/-- Write the nextPtr field of the node a pointer refers to. -/
def writeNext (h : HeapT T) (p : Option Nat) (q : Option Nat) :
    Except CErr (HeapT T) := do
  let r ← readPtr h p
  .ok (hset h r.1 (some { r.2 with nextPtr := q }))

/-- Write the prevPtr field of the node a pointer refers to. -/
def writePrev (h : HeapT T) (p : Option Nat) (q : Option Nat) :
    Except CErr (HeapT T) := do
  let r ← readPtr h p
  .ok (hset h r.1 (some { r.2 with prevPtr := q }))

/-- List::isEmpty — numberOfNodes == 0. -/
def isEmptyHdr (hdr : ListHdr) : Bool :=
  hdr.numberOfNodes == 0

/-- List::operator== — compares the firstPtr members only (shallow identity
equality, ListContainer.h lines 105-106). -/
def listEq (hdrA hdrB : ListHdr) : Bool :=
  hdrA.firstPtr == hdrB.firstPtr

/-- List move constructor (ListContainer.h lines 301-312): the new header
steals the three members, the source is zeroed. -/
def listMoveCtor (hdr : ListHdr) : ListHdr × ListHdr :=
  (⟨hdr.firstPtr, hdr.lastPtr, hdr.numberOfNodes⟩, ⟨none, none, 0⟩)

/-- List::Append(const T&) (lines 344-362). -/
def Append (s : LState T) (data : T) : Except CErr (LState T) :=
  let h := s.1
  let hdr := s.2
  if isEmptyHdr hdr then
    let al := halloc h ⟨data, none, none⟩
    .ok (al.1, ⟨some al.2, some al.2, hdr.numberOfNodes + 1⟩)
  else do
    let al := halloc h ⟨data, none, none⟩
    let a := al.2
    let h ← writeNext al.1 hdr.lastPtr (some a)    -- lastPtr->nextPtr = new node
    let h ← writePrev h (some a) hdr.lastPtr       -- lastPtr->nextPtr->prevPtr = lastPtr
    .ok (h, { hdr with lastPtr := some a, numberOfNodes := hdr.numberOfNodes + 1 })

/-- List::Prepend(const T&) (lines 370-388). -/
def PrependV (s : LState T) (data : T) : Except CErr (LState T) :=
  let h := s.1
  let hdr := s.2
  if isEmptyHdr hdr then
    let al := halloc h ⟨data, none, none⟩
    .ok (al.1, ⟨some al.2, some al.2, hdr.numberOfNodes + 1⟩)
  else do
    let al := halloc h ⟨data, none, none⟩
    let a := al.2
    let h ← writePrev al.1 hdr.firstPtr (some a)   -- firstPtr->prevPtr = new node
    let h ← writeNext h (some a) hdr.firstPtr      -- firstPtr->prevPtr->nextPtr = firstPtr
    .ok (h, { hdr with firstPtr := some a, numberOfNodes := hdr.numberOfNodes + 1 })

/-- List::RemoveFirst (lines 532-547).  Note: lastPtr is never touched. -/
def RemoveFirst (s : LState T) : Except CErr (LState T) :=
  let h := s.1
  let hdr := s.2
  if isEmptyHdr hdr then .ok s
  else do
    let rf ← readPtr h hdr.firstPtr                -- firstPtr->nextPtr
    let newFirst := rf.2.nextPtr
    let h := hset h rf.1 none                      -- delete tempPtr
    let hdr := { hdr with firstPtr := newFirst,
                          numberOfNodes := hdr.numberOfNodes - 1 }
    match newFirst with
    | none => .ok (h, hdr)
    | some _ => do
      let h ← writePrev h newFirst none            -- firstPtr->prevPtr = nullptr
      .ok (h, hdr)

/-- List::RemoveLast (lines 553-568).  Note: firstPtr is never touched. -/
def RemoveLast (s : LState T) : Except CErr (LState T) :=
  let h := s.1
  let hdr := s.2
  if isEmptyHdr hdr then .ok s
  else do
    let rl ← readPtr h hdr.lastPtr                 -- lastPtr->prevPtr
    let newLast := rl.2.prevPtr
    let h := hset h rl.1 none                      -- delete tempPtr
    let hdr := { hdr with lastPtr := newLast,
                          numberOfNodes := hdr.numberOfNodes - 1 }
    match newLast with
    | none => .ok (h, hdr)
    | some _ => do
      let h ← writeNext h newLast none             -- lastPtr->nextPtr = nullptr
      .ok (h, hdr)

/-- List::Find(const T&, ListNode*) (lines 921-938), with fuel. -/
def Find [DecidableEq T] (h : HeapT T) (data : T) :
    Nat → Option Nat → Except CErr (Option Nat)
  | 0, _ => .error .noFuel
  | _, none => .ok none
  | fuel + 1, some a => do
    let r ← readPtr h (some a)
    if r.2.data = data then .ok (some a)
    else Find h data fuel r.2.nextPtr

/-- List::RemoveNode (lines 1084-1102). -/
def RemoveNode (s : LState T) (p : Option Nat) : Except CErr (LState T) :=
  let h := s.1
  let hdr := s.2
  match p with
  | none => .ok s
  | some a =>
    if hdr.firstPtr = some a then RemoveFirst s
    else if hdr.lastPtr = some a then RemoveLast s
    else do
      let r ← readPtr h (some a)
      let h ← writePrev h r.2.nextPtr r.2.prevPtr  -- removingNode->nextPtr->prevPtr = prev
      let r ← readPtr h (some a)
      let h ← writeNext h r.2.prevPtr r.2.nextPtr  -- removingNode->prevPtr->nextPtr = next
      let h := hset h a none                       -- delete removingNode
      .ok (h, { hdr with numberOfNodes := hdr.numberOfNodes - 1 })

/-- Private List::RemoveIf(const T&, ListNode*) (lines 1110-1127), with fuel
bounding the number of removals. -/
def RemoveIfFrom [DecidableEq T] (s : LState T) (data : T) :
    Nat → Option Nat → Except CErr (LState T)
  | 0, _ => .error .noFuel
  | fuel + 1, beginBy => do
    let removing ← Find s.1 data (s.1.length + 1) beginBy
    match removing with
    | none => .ok s
    | some a => do
      let r ← readPtr s.1 (some a)
      let s ← RemoveNode s (some a)
      RemoveIfFrom s data fuel r.2.nextPtr

/-- List::Unique (lines 772-785) loop, with fuel. -/
def UniqueLoop [DecidableEq T] (s : LState T) :
    Nat → Option Nat → Except CErr (LState T)
  | 0, _ => .error .noFuel
  | _, none => .ok s
  | fuel + 1, some a => do
    let r ← readPtr s.1 (some a)
    let s ← RemoveIfFrom s r.2.data (s.1.length + 1) r.2.nextPtr
    let r ← readPtr s.1 (some a)                   -- currentNode = currentNode->nextPtr
    UniqueLoop s fuel r.2.nextPtr

/-- List::Unique (lines 772-785). -/
def Unique [DecidableEq T] (s : LState T) : Except CErr (LState T) :=
  UniqueLoop s (s.1.length + 1) s.2.firstPtr

/-- List::FindMinimum loop (lines 1037-1045), with fuel. -/
def FindMinLoop [LinearOrder T] (h : HeapT T) :
    Nat → Option Nat → Nat → Except CErr Nat
  | 0, _, _ => .error .noFuel
  | _, none, minA => .ok minA
  | fuel + 1, some a, minA => do
    let r ← readPtr h (some a)
    let rm ← readPtr h (some minA)
    if r.2.data < rm.2.data then FindMinLoop h fuel r.2.nextPtr a
    else FindMinLoop h fuel r.2.nextPtr minA

/-- List::FindMinimum(ListNode*) (lines 1027-1048). -/
def FindMinimum [LinearOrder T] (h : HeapT T) (hdr : ListHdr)
    (beginBy : Option Nat) : Except CErr Nat := do
  match beginBy with
  | none => .error .undefinedNode
  | some a =>
    if isEmptyHdr hdr then .error .emptyList
    else do
      let r ← readPtr h (some a)
      FindMinLoop h (h.length + 1) r.2.nextPtr a

/-- List::SwapSuccessiveNodes (lines 1160-1185). -/
def SwapSuccessiveNodes (s : LState T) (fa sa : Nat) : Except CErr (LState T) := do
  let h := s.1
  let hdr := s.2
  let rf ← readPtr h (some fa)
  let rs ← readPtr h (some sa)
  if ¬(rf.2.nextPtr = some sa ∧ rs.2.prevPtr = some fa) then .error .notSuccessive
  else do
    let rf ← readPtr h (some fa)
    let h ← writePrev h (some sa) rf.2.prevPtr     -- secondNode->prevPtr = firstNode->prevPtr
    let rs ← readPtr h (some sa)
    let h ← writeNext h (some fa) rs.2.nextPtr     -- firstNode->nextPtr = secondNode->nextPtr
    let hs ←
      if hdr.firstPtr ≠ some fa then do
        let rf ← readPtr h (some fa)
        let h ← writeNext h rf.2.prevPtr (some sa) -- firstNode->prevPtr->nextPtr = secondNode
        pure (h, hdr)
      else
        pure (h, { hdr with firstPtr := some sa }) -- firstPtr = secondNode
    let h := hs.1
    let hdr := hs.2
    let hs2 ←
      if hdr.lastPtr ≠ some sa then do
        let rs ← readPtr h (some sa)
        let h ← writePrev h rs.2.nextPtr (some fa) -- secondNode->nextPtr->prevPtr = firstNode
        pure (h, hdr)
      else
        pure (h, { hdr with lastPtr := some fa })  -- lastPtr = firstNode
    let h := hs2.1
    let hdr := hs2.2
    let h ← writePrev h (some fa) (some sa)        -- firstNode->prevPtr = secondNode
    let h ← writeNext h (some sa) (some fa)        -- secondNode->nextPtr = firstNode
    .ok (h, hdr)

/-- List::SwapNonSuccessiveNodes (lines 1194-1263). -/
def SwapNonSuccessiveNodes (s : LState T) (fa sa : Nat) :
    Except CErr (LState T) := do
  let h := s.1
  let hdr := s.2
  if fa = sa then .error .undefinedNode            -- Nodes must be different!
  else do
    let rf0 ← readPtr h (some fa)
    if rf0.2.nextPtr = some sa then SwapSuccessiveNodes s fa sa
    else if rf0.2.prevPtr = some sa then SwapSuccessiveNodes s sa fa
    else do
      -- Update previous pointers
      let hs ←
        if hdr.firstPtr = some fa then do          -- first one is the firstPtr
          let rs ← readPtr h (some sa)
          let h ← writeNext h rs.2.prevPtr (some fa)
          let rs ← readPtr h (some sa)
          let h ← writePrev h (some fa) rs.2.prevPtr
          let h ← writePrev h (some sa) none
          pure (h, { hdr with firstPtr := some sa })
        else if hdr.firstPtr = some sa then do     -- second one is the firstPtr
          let rf ← readPtr h (some fa)
          let h ← writeNext h rf.2.prevPtr (some sa)
          let rf ← readPtr h (some fa)
          let h ← writePrev h (some sa) rf.2.prevPtr
          let h ← writePrev h (some fa) none
          pure (h, { hdr with firstPtr := some fa })
        else do                                    -- neither is an edge
          let rf ← readPtr h (some fa)
          let h ← writeNext h rf.2.prevPtr (some sa)
          let rs ← readPtr h (some sa)
          let h ← writeNext h rs.2.prevPtr (some fa)
          let rs2 ← readPtr h (some sa)
          let tempPtr := rs2.2.prevPtr
          let rf ← readPtr h (some fa)
          let h ← writePrev h (some sa) rf.2.prevPtr
          let h ← writePrev h (some fa) tempPtr
          pure (h, hdr)
      let h := hs.1
      let hdr := hs.2
      -- Update next pointers
      let hs2 ←
        if hdr.lastPtr = some fa then do           -- first one is the lastPtr
          let rs ← readPtr h (some sa)
          let h ← writeNext h (some fa) rs.2.nextPtr
          let rs ← readPtr h (some sa)
          let h ← writePrev h rs.2.nextPtr (some fa)
          let h ← writeNext h (some sa) none
          pure (h, { hdr with lastPtr := some sa })
        else if hdr.lastPtr = some sa then do      -- second one is the lastPtr
          let rf ← readPtr h (some fa)
          let h ← writeNext h (some sa) rf.2.nextPtr
          let rf ← readPtr h (some fa)
          let h ← writePrev h rf.2.nextPtr (some sa)
          let h ← writeNext h (some fa) none
          pure (h, { hdr with lastPtr := some fa })
        else do                                    -- neither is an edge
          let rf ← readPtr h (some fa)
          let h ← writePrev h rf.2.nextPtr (some sa)
          let rs ← readPtr h (some sa)
          let h ← writePrev h rs.2.nextPtr (some fa)
          let rf2 ← readPtr h (some fa)
          let tempPtr := rf2.2.nextPtr
          let rs ← readPtr h (some sa)
          let h ← writeNext h (some fa) rs.2.nextPtr
          let h ← writeNext h (some sa) tempPtr
          pure (h, hdr)
      .ok hs2

/-- List::SwapNodes (lines 1135-1152). -/
def SwapNodes (s : LState T) (fa sa : Nat) : Except CErr (LState T) := do
  if fa = sa then .ok s                            -- no need to swap
  else do
    let rf ← readPtr s.1 (some fa)
    if rf.2.nextPtr = some sa then SwapSuccessiveNodes s fa sa
    else if rf.2.prevPtr = some sa then SwapSuccessiveNodes s sa fa
    else SwapNonSuccessiveNodes s fa sa

/-- List::Sort loop (lines 797-803), with fuel. -/
def SortLoop [LinearOrder T] (s : LState T) :
    Nat → Option Nat → Except CErr (LState T)
  | 0, _ => .error .noFuel
  | _, none => .ok s
  | fuel + 1, some sw => do
    let mn ← FindMinimum s.1 s.2 (some sw)
    let s ← SwapNodes s mn sw
    let rm ← readPtr s.1 (some mn)                 -- swapNode = minNode->nextPtr
    SortLoop s fuel rm.2.nextPtr

/-- List::Sort (lines 790-804). -/
def SortL [LinearOrder T] (s : LState T) : Except CErr (LState T) :=
  if isEmptyHdr s.2 || (s.2.firstPtr == s.2.lastPtr) then .ok s
  else SortLoop s (s.1.length + 1) s.2.firstPtr

/-- ListNode::isSorted (lines 193-202), with fuel. -/
def nodeIsSorted [LinearOrder T] (h : HeapT T) :
    Nat → Nat → Except CErr Bool
  | 0, _ => .error .noFuel
  | fuel + 1, a => do
    let r ← readPtr h (some a)
    match r.2.nextPtr with
    | none => .ok true
    | some b => do
      let rb ← readPtr h (some b)
      if rb.2.data < r.2.data then .ok false
      else nodeIsSorted h fuel b

/-- List::isSorted (line 102): !isEmpty() && firstPtr->isSorted(). -/
def isSortedL [LinearOrder T] (s : LState T) : Except CErr Bool :=
  if isEmptyHdr s.2 then .ok false
  else do
    let r ← readPtr s.1 s.2.firstPtr
    nodeIsSorted s.1 (s.1.length + 1) r.1

/-- List::DetachNode (lines 1055-1078): unlink without destroying. -/
def DetachNode (h : HeapT T) (hdr : ListHdr) (p : Option Nat) :
    Except CErr (HeapT T × ListHdr) := do
  if isEmptyHdr hdr then .error .emptyList
  else do
    let r ← readPtr h p
    let a := r.1
    let hs ←
      if hdr.firstPtr = some a then
        pure (h, { hdr with firstPtr := r.2.nextPtr })
      else do
        let h ← writeNext h r.2.prevPtr r.2.nextPtr
        pure (h, hdr)
    let h := hs.1
    let hdr := hs.2
    let r2 ← readPtr h (some a)
    let hs2 ←
      if hdr.lastPtr = some a then
        pure (h, { hdr with lastPtr := r2.2.prevPtr })
      else do
        let h ← writePrev h r2.2.nextPtr r2.2.prevPtr
        pure (h, hdr)
    let h := hs2.1
    let hdr := hs2.2
    let h ← writeNext h (some a) none
    let h ← writePrev h (some a) none
    .ok (h, { hdr with numberOfNodes := hdr.numberOfNodes - 1 })

/-- Private List::Prepend(ListNode*, ListNode*) (lines 1296-1313). -/
def PrependNode (h : HeapT T) (hdr : ListHdr) (baseP newP : Option Nat) :
    Except CErr (HeapT T × ListHdr) := do
  match baseP, newP with
  | none, _ => .error .undefinedNode
  | _, none => .error .undefinedNode
  | some ba, some na => do
    let hs ←
      if hdr.firstPtr = some ba then
        pure (h, { hdr with firstPtr := some na })
      else do
        let rb ← readPtr h (some ba)
        let h ← writeNext h rb.2.prevPtr (some na)
        pure (h, hdr)
    let h := hs.1
    let hdr := hs.2
    let h ← writeNext h (some na) (some ba)        -- newNode->nextPtr = baseNode
    let rb ← readPtr h (some ba)
    let h ← writePrev h (some na) rb.2.prevPtr     -- newNode->prevPtr = baseNode->prevPtr
    let h ← writePrev h (some ba) (some na)        -- baseNode->prevPtr = newNode
    .ok (h, { hdr with numberOfNodes := hdr.numberOfNodes + 1 })

/-- List::Concatenate (lines 857-880).  When this list is empty its lastPtr
is null and the write lastPtr->nextPtr dereferences a null pointer. -/
def ConcatenateL (h : HeapT T) (hdrA hdrB : ListHdr) :
    Except CErr (HeapT T × ListHdr × ListHdr) := do
  if isEmptyHdr hdrB then .ok (h, hdrA, hdrB)
  else do
    let hdrA :=
      if isEmptyHdr hdrA then { hdrA with firstPtr := hdrB.firstPtr } else hdrA
    let h ← writePrev h hdrB.firstPtr hdrA.lastPtr -- anotherList.firstPtr->prevPtr = lastPtr
    let h ← writeNext h hdrA.lastPtr hdrB.firstPtr -- lastPtr->nextPtr = anotherList.firstPtr
    let hdrA := { hdrA with lastPtr := hdrB.lastPtr,
                            numberOfNodes := hdrA.numberOfNodes + hdrB.numberOfNodes }
    .ok (h, hdrA, ⟨none, none, 0⟩)

/-- List::Merge loop (lines 836-846), with fuel.  currentNodeL2 is re-read
from anotherList.firstPtr on every iteration and dereferenced without a
null check. -/
def MergeLoop [LinearOrder T] (h : HeapT T) (hdrA hdrB : ListHdr) :
    Nat → Option Nat → Except CErr (HeapT T × ListHdr × ListHdr)
  | 0, _ => .error .noFuel
  | _, none => .ok (h, hdrA, hdrB)
  | fuel + 1, some c1 => do
    let r2 ← readPtr h hdrB.firstPtr               -- currentNodeL2->data
    let r1 ← readPtr h (some c1)
    if r2.2.data < r1.2.data then do               -- currentNodeL1->data > currentNodeL2->data
      let db ← DetachNode h hdrB (some r2.1)
      let pa ← PrependNode db.1 hdrA (some c1) (some r2.1)
      MergeLoop pa.1 pa.2 db.2 fuel (some c1)
    else
      MergeLoop h hdrA hdrB fuel r1.2.nextPtr

/-- List::Merge (lines 824-851). -/
def MergeL [LinearOrder T] (h : HeapT T) (hdrA hdrB : ListHdr) :
    Except CErr (HeapT T × ListHdr × ListHdr) := do
  let sortedA ← isSortedL (h, hdrA)
  let sA ← if sortedA then pure (h, hdrA) else SortL (h, hdrA)
  let h := sA.1
  let hdrA := sA.2
  let sortedB ← isSortedL (h, hdrB)
  let sB ← if sortedB then pure (h, hdrB) else SortL (h, hdrB)
  let h := sB.1
  let hdrB := sB.2
  let r ← MergeLoop h hdrA hdrB (2 * h.length + 2) hdrA.firstPtr
  if isEmptyHdr r.2.2 then .ok r
  else ConcatenateL r.1 r.2.1 r.2.2

/-- Iterator constructor (lines 121-122): throws on a null node. -/
def mkIterator (p : Option Nat) : Except CErr Nat :=
  match p with
  | none => .error .invalidIterator
  | some a => .ok a

/-- Iterator operator++ (lines 124-125): advance unless nextPtr is null. -/
def itNext (h : HeapT T) (a : Nat) : Except CErr Nat := do
  let r ← readPtr h (some a)
  match r.2.nextPtr with
  | some b => .ok b
  | none => .ok a

/-- Iterator operator-- (lines 126-127): retreat unless prevPtr is null. -/
def itPrev (h : HeapT T) (a : Nat) : Except CErr Nat := do
  let r ← readPtr h (some a)
  match r.2.prevPtr with
  | some b => .ok b
  | none => .ok a

/-! ### Representation predicate relating the heap model to an abstract list -/

/-- Head of an address segment as a pointer, with a fallback for the empty
segment. -/
def headO (ys : List Nat) (q : Option Nat) : Option Nat :=
  match ys with
  | [] => q
  | b :: _ => some b

/-- Last element of an address segment as a pointer, with a fallback. -/
def lastO (xs : List Nat) (p : Option Nat) : Option Nat :=
  match xs.getLast? with
  | none => p
  | some l => some l

/-- The addresses addrs form a doubly linked segment in heap h: the first
node's prevPtr is p, each node's nextPtr is the next address (the last one
points to q), and each node's prevPtr is the previous address. -/
def chainSeg (h : HeapT T) : Option Nat → List Nat → Option Nat → Bool
  | _, [], _ => true
  | p, a :: rest, q =>
    match hget h a with
    | none => false
    | some nd =>
      decide (nd.prevPtr = p) && decide (nd.nextPtr = headO rest q) &&
        chainSeg h (some a) rest q

/-- Well-formedness of a list object: its nodes are exactly the addresses
addrs, chained in order, with header fields consistent. -/
structure Rep (h : HeapT T) (hdr : ListHdr) (addrs : List Nat) : Prop where
  chain : chainSeg h none addrs none = true
  first : hdr.firstPtr = addrs.head?
  last : hdr.lastPtr = addrs.getLast?
  count : hdr.numberOfNodes = addrs.length
  nodup : addrs.Nodup

/-- Abstract element sequence carried by a list of addresses. -/
def valsOf (h : HeapT T) (addrs : List Nat) : List T :=
  addrs.filterMap (fun a => (hget h a).map ListNode.data)

/-- Data stored at an address, if the cell is live. -/
def dataAt (h : HeapT T) (a : Nat) : Option T :=
  (hget h a).map ListNode.data

/-- Heaps agreeing on every data value (pointer fields may differ). -/
def dataEq (h h' : HeapT T) : Prop :=
  ∀ a, dataAt h' a = dataAt h a

/-- Whether the node at address a currently stores the value d. -/
def matchesB [DecidableEq T] (h : HeapT T) (d : T) (a : Nat) : Bool :=
  dataAt h a == some d

/-- Duplicate removal keeping the first occurrence of each value, with fuel
(the list length always suffices). -/
def dedupFirstF [DecidableEq T] : Nat → List T → List T
  | 0, _ => []
  | _, [] => []
  | f + 1, x :: xs => x :: dedupFirstF f (xs.filter (fun y => decide (y ≠ x)))

/-- Duplicate removal keeping the first occurrence of each value. -/
def dedupFirst [DecidableEq T] (l : List T) : List T :=
  dedupFirstF l.length l

/-! ### The array container (ArrayContainer.h) -/

/-- A heap of array buffers: buffer number p is the list of its elements. -/
abbrev BufHeap (T : Type) := List (List T)

/-- The two data members of class Array: the size member and the container
pointer (none models a null container, as after a move). -/
structure ArrayS where
  size : Nat
  container : Option Nat
  deriving DecidableEq, Repr

/-- Array::getSize (lines 52-53): null container reports size 0. -/
def getSizeA (a : ArrayS) : Nat :=
  if a.container = none then 0 else a.size

/-- Array::Array(const size_t) (lines 66-74): zero size is an error,
otherwise a buffer of default-initialised elements is allocated. -/
def arrayCtorSize (T : Type) [Inhabited T] (bh : BufHeap T) (n : Nat) :
    Except CErr (BufHeap T × ArrayS) :=
  if n = 0 then .error .invalidSize
  else .ok (bh ++ [List.replicate n default], ⟨n, some bh.length⟩)

/-- Array move constructor (lines 100-112): steals the container pointer
and nulls it in the source; the source keeps its size member. -/
def arrayMoveCtor (src : ArrayS) : Except CErr (ArrayS × ArrayS) :=
  if getSizeA src = 0 then .error .invalidSize
  else .ok (⟨getSizeA src, src.container⟩, ⟨src.size, none⟩)

/-- Array::operator[] (lines 197-212): in-range access reads the buffer;
out-of-range access on a live container raises the range error carrying the
size and the index; the null-container check only runs when out of range. -/
def aGet (bh : BufHeap T) (a : ArrayS) (index : Nat) : Except CErr T :=
  if index < a.size then
    match a.container with
    | none => .error .nullDeref
    | some p =>
      match bh[p]? with
      | none => .error .danglingRef
      | some buf =>
        match buf[index]? with
        | none => .error .danglingRef
        | some v => .ok v
  else if a.container = none then .error .invalidState
  else .error (.outOfRange a.size index)

/-- Element-wise comparison loop of Array::operator== (lines 232-234),
recursing on the number of remaining indices. -/
def arrEqLoop [DecidableEq T] (bh : BufHeap T) (x y : ArrayS) :
    Nat → Nat → Except CErr Bool
  | 0, _ => .ok true
  | k + 1, index => do
    let vx ← aGet bh x index
    let vy ← aGet bh y index
    if vx ≠ vy then .ok false
    else arrEqLoop bh x y k (index + 1)

/-- Array::operator== (lines 220-237): size check, then the null check on
the right operand, then the container-identity short-circuit, then the
element-wise loop. -/
def arrEq [DecidableEq T] (bh : BufHeap T) (x y : ArrayS) : Except CErr Bool :=
  if y.size ≠ x.size then .ok false
  else if y.container = none then .ok false
  else if y.container = x.container then .ok true
  else arrEqLoop bh x y x.size 0

/-- Well-formedness of an array object: a live container of matching length
and positive size (the state every successful constructor establishes). -/
def WFArr (bh : BufHeap T) (a : ArrayS) : Prop :=
  0 < a.size ∧ ∃ p buf, a.container = some p ∧ bh[p]? = some buf ∧
    buf.length = a.size

/-! ### Concrete states used by the counterexample and bug theorems -/

/-- A well-formed one-element list holding 7, at address 0. -/
def c1State : LState Int :=
  ([some ⟨7, none, none⟩], ⟨some 0, some 0, 1⟩)

/-- Heap holding the chain 1,3,5 (addresses 0,1,2) and the chain 2,4
(addresses 3,4). -/
def c2Heap : HeapT Int :=
  [some ⟨1, none, some 1⟩, some ⟨3, some 0, some 2⟩, some ⟨5, some 1, none⟩,
   some ⟨2, none, some 4⟩, some ⟨4, some 3, none⟩]

/-- Header of the list holding 1,3,5 in c2Heap. -/
def c2A : ListHdr := ⟨some 0, some 2, 3⟩

/-- Header of the list holding 2,4 in c2Heap. -/
def c2B : ListHdr := ⟨some 3, some 4, 2⟩

/-- Heap holding the single-node chain 1 (address 0). -/
def c3Heap : HeapT Int := [some ⟨1, none, none⟩]

/-- Header of an empty list. -/
def emptyHdr : ListHdr := ⟨none, none, 0⟩

/-- Header of the list holding 1 in c3Heap. -/
def c3B : ListHdr := ⟨some 0, some 0, 1⟩

/-! ## Basic lemmas: heap cells -/

theorem hget_lt_length {T : Type} {h : HeapT T} {a : Nat} {nd : ListNode T}
    (hg : hget h a = some nd) : a < h.length := by
  by_contra hlt
  push_neg at hlt
  rw [hget, List.getD_eq_getElem?_getD, List.getElem?_eq_none hlt] at hg
  simp at hg

theorem hget_none_of_ge {T : Type} {h : HeapT T} {a : Nat}
    (ha : h.length ≤ a) : hget h a = none := by
  rw [hget, List.getD_eq_getElem?_getD, List.getElem?_eq_none ha]
  rfl

theorem length_hset {T : Type} (h : HeapT T) (a : Nat)
    (x : Option (ListNode T)) : (hset h a x).length = h.length := by
  simp [hset]

theorem hget_hset_self {T : Type} {h : HeapT T} {a : Nat} (ha : a < h.length)
    (x : Option (ListNode T)) : hget (hset h a x) a = x := by
  rw [hget, hset, List.getD_eq_getElem?_getD, List.getElem?_set_self]
  · rfl
  · exact ha

theorem hget_hset_ne {T : Type} (h : HeapT T) {a b : Nat} (hne : b ≠ a)
    (x : Option (ListNode T)) : hget (hset h a x) b = hget h b := by
  rw [hget, hget, hset, List.getD_eq_getElem?_getD, List.getD_eq_getElem?_getD,
    List.getElem?_set_ne (fun hc => hne hc.symm)]

theorem hget_alloc_old {T : Type} {h : HeapT T} {a : Nat} (ha : a < h.length)
    (x : Option (ListNode T)) : hget (h ++ [x]) a = hget h a := by
  rw [hget, hget, List.getD_eq_getElem?_getD, List.getD_eq_getElem?_getD,
    List.getElem?_append_left ha]

theorem hget_alloc_new {T : Type} (h : HeapT T) (x : Option (ListNode T)) :
    hget (h ++ [x]) h.length = x := by
  rw [hget, List.getD_eq_getElem?_getD, List.getElem?_append_right (le_refl _)]
  simp

/-! ## Basic lemmas: the Except monad plumbing -/

theorem ebind_ok {α β : Type} (a : α) (f : α → Except CErr β) :
    (Except.ok a >>= f) = f a := rfl

theorem ebind_err {α β : Type} (e : CErr) (f : α → Except CErr β) :
    ((Except.error e : Except CErr α) >>= f) = .error e := rfl

theorem epure_ok {α : Type} (a : α) : (pure a : Except CErr α) = .ok a := rfl

theorem readPtr_some {T : Type} {h : HeapT T} {a : Nat} {nd : ListNode T}
    (hg : hget h a = some nd) : readPtr h (some a) = .ok (a, nd) := by
  simp [readPtr, hg]

theorem readPtr_null {T : Type} (h : HeapT T) :
    readPtr h (none : Option Nat) = .error .nullDeref := rfl

theorem writeNext_some {T : Type} {h : HeapT T} {a : Nat} {nd : ListNode T}
    (hg : hget h a = some nd) (q : Option Nat) :
    writeNext h (some a) q = .ok (hset h a (some { nd with nextPtr := q })) := by
  simp [writeNext, readPtr_some hg, ebind_ok]

theorem writePrev_some {T : Type} {h : HeapT T} {a : Nat} {nd : ListNode T}
    (hg : hget h a = some nd) (q : Option Nat) :
    writePrev h (some a) q = .ok (hset h a (some { nd with prevPtr := q })) := by
  simp [writePrev, readPtr_some hg, ebind_ok]

/-! ## Basic lemmas: chain segments -/

theorem headO_append (xs ys : List Nat) (q : Option Nat) :
    headO (xs ++ ys) q = headO xs (headO ys q) := by
  cases xs <;> simp [headO]

theorem lastO_cons (a : Nat) (xs : List Nat) (p : Option Nat) :
    lastO (a :: xs) p = lastO xs (some a) := by
  cases xs with
  | nil => simp [lastO]
  | cons b xs =>
    rw [lastO, lastO, List.getLast?_cons_cons]
    cases hbl : (b :: xs).getLast? with
    | none => simp at hbl
    | some l => rfl

theorem chainSeg_nil {T : Type} (h : HeapT T) (p q : Option Nat) :
    chainSeg h p [] q = true := rfl

theorem chainSeg_cons {T : Type} {h : HeapT T} {p q : Option Nat} {a : Nat}
    {rest : List Nat} :
    chainSeg h p (a :: rest) q = true ↔
      ∃ nd, hget h a = some nd ∧ nd.prevPtr = p ∧ nd.nextPtr = headO rest q ∧
        chainSeg h (some a) rest q = true := by
  cases hg : hget h a <;> simp [chainSeg, hg, and_assoc]

theorem chainSeg_single {T : Type} {h : HeapT T} {a : Nat} {p q : Option Nat} :
    chainSeg h p [a] q = true ↔
      ∃ nd, hget h a = some nd ∧ nd.prevPtr = p ∧ nd.nextPtr = q := by
  rw [chainSeg_cons]
  simp [chainSeg_nil, headO]

theorem chainSeg_append {T : Type} {h : HeapT T} (p q : Option Nat)
    (xs ys : List Nat) :
    chainSeg h p (xs ++ ys) q =
      (chainSeg h p xs (headO ys q) && chainSeg h (lastO xs p) ys q) := by
  induction xs generalizing p with
  | nil => simp [chainSeg, lastO]
  | cons a xs ih =>
    simp only [List.cons_append, chainSeg, headO_append, lastO_cons]
    cases hg : hget h a with
    | none => simp
    | some nd => simp [ih (some a), Bool.and_assoc, headO_append]

theorem chainSeg_congr {T : Type} {h h' : HeapT T} {addrs : List Nat}
    (hag : ∀ a ∈ addrs, hget h' a = hget h a) (p q : Option Nat) :
    chainSeg h' p addrs q = chainSeg h p addrs q := by
  induction addrs generalizing p with
  | nil => rfl
  | cons a rest ih =>
    simp only [chainSeg, hag a (by simp)]
    cases hget h a with
    | none => rfl
    | some nd => rw [ih (fun b hb => hag b (by simp [hb]))]

theorem chainSeg_mem {T : Type} {h : HeapT T} {addrs : List Nat}
    {p q : Option Nat} (hc : chainSeg h p addrs q = true) {a : Nat}
    (ha : a ∈ addrs) : ∃ nd, hget h a = some nd := by
  induction addrs generalizing p with
  | nil => simp at ha
  | cons b rest ih =>
    obtain ⟨nd, hg, _, _, hc'⟩ := chainSeg_cons.mp hc
    rcases List.mem_cons.mp ha with rfl | ha'
    · exact ⟨nd, hg⟩
    · exact ih hc' ha'

/-! ## Basic lemmas: representation and values -/

theorem Rep.live {T : Type} {h : HeapT T} {hdr : ListHdr} {addrs : List Nat}
    (hrep : Rep h hdr addrs) {a : Nat} (ha : a ∈ addrs) :
    ∃ nd, hget h a = some nd :=
  chainSeg_mem hrep.chain ha

theorem Rep.addr_lt {T : Type} {h : HeapT T} {hdr : ListHdr}
    {addrs : List Nat} (hrep : Rep h hdr addrs) {a : Nat} (ha : a ∈ addrs) :
    a < h.length := by
  obtain ⟨nd, hg⟩ := hrep.live ha
  exact hget_lt_length hg

theorem Rep.length_le {T : Type} {h : HeapT T} {hdr : ListHdr}
    {addrs : List Nat} (hrep : Rep h hdr addrs) : addrs.length ≤ h.length := by
  classical
  have hcard : addrs.toFinset.card = addrs.length :=
    List.toFinset_card_of_nodup hrep.nodup
  have hsub : addrs.toFinset ⊆ Finset.range h.length := by
    intro a ha
    rw [List.mem_toFinset] at ha
    exact Finset.mem_range.mpr (hrep.addr_lt ha)
  calc addrs.length = addrs.toFinset.card := hcard.symm
    _ ≤ (Finset.range h.length).card := Finset.card_le_card hsub
    _ = h.length := Finset.card_range _

theorem valsOf_nil {T : Type} (h : HeapT T) : valsOf h [] = [] := rfl

theorem valsOf_append {T : Type} (h : HeapT T) (xs ys : List Nat) :
    valsOf h (xs ++ ys) = valsOf h xs ++ valsOf h ys :=
  List.filterMap_append _ _ _

theorem valsOf_cons_live {T : Type} {h : HeapT T} {a : Nat} {nd : ListNode T}
    (hg : hget h a = some nd) (rest : List Nat) :
    valsOf h (a :: rest) = nd.data :: valsOf h rest := by
  simp [valsOf, hg]

theorem valsOf_congr {T : Type} {h h' : HeapT T} {addrs : List Nat}
    (hag : ∀ a ∈ addrs, dataAt h' a = dataAt h a) :
    valsOf h' addrs = valsOf h addrs := by
  unfold valsOf
  apply List.filterMap_congr
  intro a ha
  have := hag a ha
  simpa [dataAt] using this

theorem valsOf_congr_dataEq {T : Type} {h h' : HeapT T} (hde : dataEq h h')
    (addrs : List Nat) : valsOf h' addrs = valsOf h addrs :=
  valsOf_congr (fun a _ => hde a)

theorem dataAt_hset_ne {T : Type} (h : HeapT T) {a b : Nat} (hne : b ≠ a)
    (x : Option (ListNode T)) : dataAt (hset h a x) b = dataAt h b := by
  simp [dataAt, hget_hset_ne h hne]

theorem length_pos_of_mem_chain {T : Type} {h : HeapT T} {hdr : ListHdr}
    {addrs : List Nat} (hrep : Rep h hdr addrs) (hne : addrs ≠ []) :
    hdr.numberOfNodes ≠ 0 := by
  rw [hrep.count]
  exact fun hc => hne (List.length_eq_zero.mp hc)

/-! ## Specification of isSorted -/

theorem nodeIsSorted_spec [LinearOrder T] {h : HeapT T} (suffix : List Nat) :
    ∀ (a : Nat) (p : Option Nat) (fuel : Nat),
      chainSeg h p (a :: suffix) none = true → suffix.length < fuel →
      nodeIsSorted h fuel a =
        .ok (decide (List.Chain' (· ≤ ·) (valsOf h (a :: suffix)))) := by
  induction suffix with
  | nil =>
    intro a p fuel hc hf
    obtain ⟨nd, hg, _, hnext, _⟩ := chainSeg_cons.mp hc
    obtain ⟨fuel, rfl⟩ := Nat.exists_eq_succ_of_ne_zero (Nat.pos_iff_ne_zero.mp hf)
    simp only [headO] at hnext
    simp only [nodeIsSorted, readPtr_some hg, ebind_ok, hnext]
    simp [valsOf_cons_live hg, valsOf_nil]
  | cons b rest ih =>
    intro a p fuel hc hf
    obtain ⟨nd, hg, _, hnext, hc'⟩ := chainSeg_cons.mp hc
    obtain ⟨bnd, hgb, _, _, _⟩ := chainSeg_cons.mp hc'
    obtain ⟨fuel, rfl⟩ := Nat.exists_eq_succ_of_ne_zero
      (Nat.pos_iff_ne_zero.mp (Nat.lt_of_le_of_lt (Nat.zero_le _) hf))
    simp only [headO] at hnext
    simp only [nodeIsSorted, readPtr_some hg, ebind_ok, hnext, readPtr_some hgb]
    rw [valsOf_cons_live hg, valsOf_cons_live hgb]
    by_cases hlt : bnd.data < nd.data
    · rw [if_pos hlt]
      have hnc : ¬ List.Chain' (· ≤ ·) (nd.data :: bnd.data :: valsOf h rest) := by
        rw [List.chain'_cons]
        exact fun hcc => absurd hcc.1 (not_le.mpr hlt)
      simp [hnc]
    · have hle : nd.data ≤ bnd.data := not_lt.mp hlt
      rw [if_neg hlt]
      rw [ih b (some a) fuel hc' (by simpa using Nat.lt_of_succ_lt_succ hf)]
      rw [valsOf_cons_live hgb]
      have hiff : List.Chain' (· ≤ ·) (bnd.data :: valsOf h rest) ↔
          List.Chain' (· ≤ ·) (nd.data :: bnd.data :: valsOf h rest) := by
        rw [List.chain'_cons]
        exact (and_iff_right hle).symm
      rw [decide_eq_decide.mpr hiff]

theorem isSortedL_spec [LinearOrder T] {h : HeapT T} {hdr : ListHdr}
    {addrs : List Nat} (hrep : Rep h hdr addrs) :
    isSortedL (h, hdr) =
      .ok (decide (addrs ≠ [] ∧ List.Chain' (· ≤ ·) (valsOf h addrs))) := by
  cases addrs with
  | nil =>
    have hcnt : hdr.numberOfNodes = 0 := by simpa using hrep.count
    simp [isSortedL, isEmptyHdr, hcnt]
  | cons a rest =>
    have hcnt : hdr.numberOfNodes = rest.length + 1 := by simpa using hrep.count
    have hfp : hdr.firstPtr = some a := by simpa using hrep.first
    obtain ⟨nd, hg⟩ := hrep.live (List.mem_cons_self a rest)
    have hlen : rest.length < h.length + 1 := by
      have := hrep.length_le
      simp only [List.length_cons] at this
      omega
    rw [isSortedL]
    have hemp : isEmptyHdr hdr = false := by
      simp [isEmptyHdr, hcnt]
    rw [hemp]
    simp only [Bool.false_eq_true, if_false, hfp]
    rw [readPtr_some hg, ebind_ok, nodeIsSorted_spec rest a none _ hrep.chain hlen]
    simp

/-! ## Claim C1: header invariant after removal (code bug) -/

/-- C1: the code violates the claimed header invariant.  Starting from a
well-formed one-element list, RemoveFirst leaves numberOfNodes == 0 and
firstPtr null but lastPtr still holding the address of the freed node, and
RemoveLast symmetrically leaves firstPtr dangling. -/
theorem c1_remove_on_singleton_leaves_dangling_pointer :
    Rep c1State.1 c1State.2 [0] ∧
    RemoveFirst c1State = .ok ([none], ⟨none, some 0, 0⟩) ∧
    RemoveLast c1State = .ok ([none], ⟨some 0, none, 0⟩) ∧
    (⟨none, some 0, 0⟩ : ListHdr).numberOfNodes = 0 ∧
    (⟨none, some 0, 0⟩ : ListHdr).lastPtr ≠ none := by
  refine ⟨⟨by decide, rfl, rfl, rfl, by decide⟩, rfl, rfl, rfl, by decide⟩

/-! ## Claim C2: Merge on [1,3,5] and [2,4] (code bug) -/

/-- C2: Merge dereferences anotherList.firstPtr without a null check after
the second list has been drained, so merging the well-formed lists [1,3,5]
and [2,4] hits a null dereference instead of completing. -/
theorem c2_merge_1_3_5_with_2_4_crashes :
    Rep c2Heap c2A [0, 1, 2] ∧ Rep c2Heap c2B [3, 4] ∧
    valsOf c2Heap [0, 1, 2] = [1, 3, 5] ∧ valsOf c2Heap [3, 4] = [2, 4] ∧
    MergeL c2Heap c2A c2B = .error .nullDeref := by
  exact ⟨⟨by decide, rfl, rfl, rfl, by decide⟩,
    ⟨by decide, rfl, rfl, rfl, by decide⟩, by decide, by decide, rfl⟩

/-! ## Claim C3: Concatenate onto an empty list (code bug) -/

/-- C3: Concatenate writes through lastPtr unconditionally; when this list
is empty its lastPtr is null, so concatenating a non-empty list onto an
empty one dereferences a null pointer instead of completing. -/
theorem c3_concatenate_onto_empty_crashes :
    Rep c3Heap emptyHdr [] ∧ Rep c3Heap c3B [0] ∧
    valsOf c3Heap [0] = [1] ∧
    ConcatenateL c3Heap emptyHdr c3B = .error .nullDeref := by
  exact ⟨⟨by decide, rfl, rfl, rfl, by decide⟩,
    ⟨by decide, rfl, rfl, rfl, by decide⟩, by decide, rfl⟩

/-! ## Claim C4: isSorted (corrected: false on the empty list) -/

/-- C4 counterexample: on the empty list every element is vacuously ≤ its
successor, yet isSorted() returns false, because the code conjoins
!isEmpty(). -/
theorem c4_empty_list_isSorted_false :
    isSortedL (([] : HeapT Int), emptyHdr) = .ok false ∧
    List.Chain' (· ≤ ·) (valsOf ([] : HeapT Int) ([] : List Nat)) :=
  ⟨rfl, by simp [valsOf_nil]⟩

/-- C4 amended: isSorted() returns true iff the list is non-empty and every
element is ≤ its successor; in particular it returns true on every
one-element list and false on the empty list. -/
theorem c4_isSorted_iff_nonempty_and_chain [LinearOrder T] {h : HeapT T}
    {hdr : ListHdr} {addrs : List Nat} (hrep : Rep h hdr addrs) :
    (isSortedL (h, hdr) = .ok true ↔
      addrs ≠ [] ∧ List.Chain' (· ≤ ·) (valsOf h addrs)) ∧
    (addrs.length = 1 → isSortedL (h, hdr) = .ok true) := by
  have hspec := isSortedL_spec hrep
  constructor
  · rw [hspec]
    constructor
    · intro hok
      have : decide (addrs ≠ [] ∧ List.Chain' (· ≤ ·) (valsOf h addrs)) = true := by
        exact Except.ok.inj hok
      exact of_decide_eq_true this
    · intro hc
      rw [decide_eq_true hc]
  · intro hlen
    obtain ⟨a, rfl⟩ : ∃ a, addrs = [a] := by
      cases addrs with
      | nil => simp at hlen
      | cons a rest =>
        have hr : rest = [] := by
          have : rest.length = 0 := by simpa using hlen
          exact List.length_eq_zero.mp this
        exact ⟨a, by rw [hr]⟩
    obtain ⟨nd, hg⟩ := hrep.live (List.mem_singleton_self a)
    rw [hspec, valsOf_cons_live hg]
    simp [valsOf_nil]

/-- C4 witness: the amended equivalence evaluated on the concrete sorted
two-element list [4, 9]. -/
theorem c4_isSorted_iff_nonempty_and_chain_witness :
    isSortedL (([some ⟨4, none, some 1⟩, some ⟨9, some 0, none⟩] : HeapT Int),
      (⟨some 0, some 1, 2⟩ : ListHdr)) = .ok true := by
  apply (@c4_isSorted_iff_nonempty_and_chain Int _
    [some ⟨4, none, some 1⟩, some ⟨9, some 0, none⟩] ⟨some 0, some 1, 2⟩
    [0, 1] ⟨by decide, rfl, rfl, rfl, by decide⟩).1.mpr
  refine ⟨by simp, ?_⟩
  have hv : valsOf ([some ⟨4, none, some 1⟩, some ⟨9, some 0, none⟩] : HeapT Int)
      [0, 1] = [4, 9] := rfl
  rw [hv]
  simp only [List.chain'_cons, List.chain'_singleton, and_true]
  norm_num

/-! ## Claim C5 counterexample: Sort leaves the empty list unsorted -/

/-- C5 counterexample: Sort() on the empty list returns normally, but
isSorted() on the result is false, not true, so the claim fails for the
empty list. -/
theorem c5_sort_empty_list_not_sorted :
    SortL (([] : HeapT Int), emptyHdr) = .ok ([], emptyHdr) ∧
    isSortedL (([] : HeapT Int), emptyHdr) = .ok false :=
  ⟨rfl, rfl⟩

/-! ## Claim C9: shallow identity equality of empty lists -/

/-- C9: operator== compares only the firstPtr members, so any two empty
lists (both firstPtr null) compare equal even if they never shared a chain,
and a moved-from list (zeroed by the move constructor) compares equal to
every empty list. -/
theorem c9_empty_lists_compare_equal (hdr1 hdr2 : ListHdr)
    (h1 : hdr1.firstPtr = none) (h2 : hdr2.firstPtr = none) :
    listEq hdr1 hdr2 = true ∧
    (∀ hdr : ListHdr, ((listMoveCtor hdr).2).firstPtr = none ∧
      listEq (listMoveCtor hdr).2 hdr1 = true) := by
  refine ⟨?_, fun hdr => ⟨rfl, ?_⟩⟩ <;> simp [listEq, listMoveCtor, h1, h2]

/-- C9 witness: two empty list headers with distinct lastPtr residue compare
equal, and a moved-from list compares equal to the empty list. -/
theorem c9_empty_lists_compare_equal_witness :
    listEq ⟨none, none, 0⟩ ⟨none, none, 0⟩ = true ∧
    listEq (listMoveCtor ⟨some 3, some 7, 2⟩).2 ⟨none, none, 0⟩ = true := by
  obtain ⟨hA, hB⟩ := c9_empty_lists_compare_equal ⟨none, none, 0⟩ ⟨none, none, 0⟩ rfl rfl
  exact ⟨hA, (hB ⟨some 3, some 7, 2⟩).2⟩

/-! ## Claim C7: array bounds checking -/

/-- C7: constructing with size 0 raises InvalidSize; on an array whose
container holds a buffer of its size, any index ≥ size raises OutOfRange
carrying the size and the attempted index, and any index < size returns the
stored element without error. -/
theorem c7_array_ctor_and_bounds (T : Type) [Inhabited T] :
    (∀ bh : BufHeap T, arrayCtorSize T bh 0 = .error .invalidSize) ∧
    (∀ (bh : BufHeap T) (a : ArrayS) (p : Nat) (buf : List T),
      a.container = some p → bh[p]? = some buf → buf.length = a.size →
      (∀ i, a.size ≤ i → aGet bh a i = .error (.outOfRange a.size i)) ∧
      (∀ i, i < a.size → ∃ v, aGet bh a i = .ok v ∧ buf[i]? = some v)) := by
  refine ⟨fun bh => rfl, fun bh a p buf hc hb hl => ⟨?_, ?_⟩⟩
  · intro i hi
    rw [aGet, if_neg (by omega), if_neg (by simp [hc])]
  · intro i hi
    have hib : i < buf.length := by omega
    refine ⟨buf.get ⟨i, hib⟩, ?_, ?_⟩
    · rw [aGet, if_pos hi]
      simp only [hc, hb, List.getElem?_eq_getElem hib]
      rfl
    · rw [List.getElem?_eq_getElem hib]
      rfl

/-- C7 witness: the theorem applied to the one-element array holding 5. -/
theorem c7_array_ctor_and_bounds_witness :
    arrayCtorSize Int [] 0 = .error .invalidSize ∧
    aGet [[(5 : Int)]] ⟨1, some 0⟩ 3 = .error (.outOfRange 1 3) ∧
    ∃ v, aGet [[(5 : Int)]] ⟨1, some 0⟩ 0 = .ok v ∧ [(5 : Int)][0]? = some v := by
  obtain ⟨h1, h2⟩ := c7_array_ctor_and_bounds Int
  obtain ⟨h3, h4⟩ := h2 [[(5 : Int)]] ⟨1, some 0⟩ 0 [(5 : Int)] rfl rfl rfl
  exact ⟨h1 [], h3 3 (by decide), h4 0 (by decide)⟩

/-! ## Claim C8: array equality (corrected: moved-from self-comparison) -/

/-- C8 counterexample: move-constructing from the one-element array leaves
the source with a null container, and comparing that moved-from array with
itself returns false — the null check fires before the identity check — so
self-identity does not short-circuit to equal in the moved-from state. -/
theorem c8_moved_from_self_compare_false :
    arrayMoveCtor ⟨1, some 0⟩ = .ok (⟨1, some 0⟩, ⟨1, none⟩) ∧
    arrEq ([[(5 : Int)]] : BufHeap Int) ⟨1, none⟩ ⟨1, none⟩ = .ok false :=
  ⟨rfl, rfl⟩

theorem arrEqLoop_spec [DecidableEq T] {bh : BufHeap T} {x y : ArrayS}
    {px py : Nat} {bufx bufy : List T}
    (hx : x.container = some px) (hgx : bh[px]? = some bufx)
    (hlx : bufx.length = x.size)
    (hy : y.container = some py) (hgy : bh[py]? = some bufy)
    (hly : bufy.length = y.size) (hsz : y.size = x.size) :
    ∀ k i, i + k = x.size →
      arrEqLoop bh x y k i =
        .ok (decide (∀ j, i ≤ j → j < x.size → bufx[j]? = bufy[j]?)) := by
  intro k
  induction k with
  | zero =>
    intro i hi
    have hall : ∀ j, i ≤ j → j < x.size → bufx[j]? = bufy[j]? := by
      intro j hij hjx
      omega
    rw [arrEqLoop, decide_eq_true hall]
  | succ k ih =>
    intro i hi
    have hix : i < x.size := by omega
    have hibx : i < bufx.length := by omega
    have hiby : i < bufy.length := by omega
    have hvx : aGet bh x i = .ok (bufx.get ⟨i, hibx⟩) := by
      rw [aGet, if_pos hix]
      simp only [hx, hgx, List.getElem?_eq_getElem hibx]
      rfl
    have hvy : aGet bh y i = .ok (bufy.get ⟨i, hiby⟩) := by
      rw [aGet, if_pos (show i < y.size by omega)]
      simp only [hy, hgy, List.getElem?_eq_getElem hiby]
      rfl
    rw [arrEqLoop, hvx, ebind_ok, hvy, ebind_ok]
    by_cases heq : bufx.get ⟨i, hibx⟩ = bufy.get ⟨i, hiby⟩
    · rw [if_neg (by simpa using heq), ih (i + 1) (by omega)]
      have hiff : (∀ j, i + 1 ≤ j → j < x.size → bufx[j]? = bufy[j]?) ↔
          (∀ j, i ≤ j → j < x.size → bufx[j]? = bufy[j]?) := by
        constructor
        · intro hupper j hij hjx
          rcases Nat.eq_or_lt_of_le hij with rfl | hlt
          · rw [List.getElem?_eq_getElem hibx, List.getElem?_eq_getElem hiby]
            exact congrArg some heq
          · exact hupper j hlt hjx
        · intro hall j hij hjx
          exact hall j (by omega) hjx
      rw [decide_eq_decide.mpr hiff]
    · rw [if_pos (by simpa using heq)]
      have hnall : ¬ (∀ j, i ≤ j → j < x.size → bufx[j]? = bufy[j]?) := by
        intro hall
        have := hall i (le_refl i) hix
        rw [List.getElem?_eq_getElem hibx, List.getElem?_eq_getElem hiby] at this
        exact heq (Option.some.inj this)
      rw [decide_eq_false hnall]

/-- C8 amended: self-comparison short-circuits to equal only for an array
with a live container; a moved-from array (null container) compares unequal
even to itself; and two arrays with distinct live containers compare equal
exactly when their sizes match and their buffers agree element-wise. -/
theorem c8_array_equality_amended (T : Type) [DecidableEq T] :
    (∀ (bh : BufHeap T) (a : ArrayS), a.container ≠ none →
      arrEq bh a a = .ok true) ∧
    (∀ (bh : BufHeap T) (a : ArrayS), a.container = none →
      arrEq bh a a = .ok false) ∧
    (∀ (bh : BufHeap T) (x y : ArrayS) (px py : Nat) (bufx bufy : List T),
      x.container = some px → bh[px]? = some bufx → bufx.length = x.size →
      y.container = some py → bh[py]? = some bufy → bufy.length = y.size →
      px ≠ py →
      (arrEq bh x y = .ok true ↔ x.size = y.size ∧ bufx = bufy)) := by
  refine ⟨fun bh a hc => ?_, fun bh a hc => ?_, ?_⟩
  · rw [arrEq, if_neg (by simp), if_neg hc, if_pos rfl]
  · rw [arrEq, if_neg (by simp), if_pos hc]
  · intro bh x y px py bufx bufy hx hgx hlx hy hgy hly hpq
    by_cases hsz : y.size = x.size
    · rw [arrEq, if_neg (by simpa using hsz), if_neg (by simp [hy]),
        if_neg (by simp [hx, hy, Ne.symm hpq]),
        arrEqLoop_spec hx hgx hlx hy hgy hly hsz x.size 0 (by omega)]
      constructor
      · intro hok
        have hall := of_decide_eq_true (Except.ok.inj hok)
        refine ⟨hsz.symm, ?_⟩
        apply List.ext_getElem?
        intro j
        by_cases hj : j < x.size
        · exact hall j (by omega) hj
        · rw [List.getElem?_eq_none (by omega), List.getElem?_eq_none (by omega)]
      · rintro ⟨hxy, rfl⟩
        have hall : ∀ j, 0 ≤ j → j < x.size → bufx[j]? = bufx[j]? :=
          fun j _ _ => rfl
        rw [decide_eq_true hall]
    · rw [arrEq, if_pos (by simpa using hsz)]
      constructor
      · intro hok
        exact absurd (Except.ok.inj hok) (by simp)
      · rintro ⟨hxy, rfl⟩
        omega

/-- C8 witness: the amended statement evaluated on concrete arrays — a live
one-element array equals itself, and two distinct arrays holding equal
one-element buffers compare equal. -/
theorem c8_array_equality_amended_witness :
    arrEq ([[(5 : Int)], [(5 : Int)]] : BufHeap Int) ⟨1, some 0⟩ ⟨1, some 0⟩ =
      .ok true ∧
    arrEq ([[(5 : Int)], [(5 : Int)]] : BufHeap Int) ⟨1, some 0⟩ ⟨1, some 1⟩ =
      .ok true := by
  obtain ⟨h1, _, h3⟩ := c8_array_equality_amended Int
  refine ⟨h1 _ ⟨1, some 0⟩ (by simp), ?_⟩
  exact (h3 [[(5 : Int)], [(5 : Int)]] ⟨1, some 0⟩ ⟨1, some 1⟩ 0 1
    [(5 : Int)] [(5 : Int)] rfl rfl rfl rfl rfl rfl (by omega)).mpr ⟨rfl, rfl⟩

/-! ## Claim C10: iterator navigation stays in the chain -/

theorem rep_decomp {T : Type} {h : HeapT T} {hdr : ListHdr} {addrs : List Nat}
    (hrep : Rep h hdr addrs) {a : Nat} (ha : a ∈ addrs) :
    ∃ xs ys nd, addrs = xs ++ a :: ys ∧ hget h a = some nd ∧
      nd.prevPtr = lastO xs none ∧ nd.nextPtr = headO ys none := by
  obtain ⟨xs, ys, rfl⟩ := List.append_of_mem ha
  have hc := hrep.chain
  rw [chainSeg_append] at hc
  simp only [Bool.and_eq_true] at hc
  obtain ⟨_, h2⟩ := hc
  obtain ⟨nd, hg, hprev, hnext, _⟩ := chainSeg_cons.mp h2
  exact ⟨xs, ys, nd, rfl, hg, hprev, hnext⟩

/-- C10: an iterator can only be constructed from a non-null node; on a
well-formed list, incrementing at the last node and decrementing at the
first node are silent no-ops, and both operations keep the iterator inside
the chain. -/
theorem c10_iterator_navigation {T : Type} {h : HeapT T} {hdr : ListHdr}
    {addrs : List Nat} (hrep : Rep h hdr addrs) :
    (mkIterator (none : Option Nat) = .error .invalidIterator ∧
      ∀ (p : Option Nat) (a : Nat), mkIterator p = .ok a → p = some a) ∧
    (∀ a ∈ addrs, ∃ b, itNext h a = .ok b ∧ b ∈ addrs ∧
      (addrs.getLast? = some a → b = a)) ∧
    (∀ a ∈ addrs, ∃ b, itPrev h a = .ok b ∧ b ∈ addrs ∧
      (addrs.head? = some a → b = a)) := by
  refine ⟨⟨rfl, ?_⟩, ?_, ?_⟩
  · intro p a hok
    cases p with
    | none => exact absurd hok (by simp [mkIterator])
    | some b =>
      have : b = a := by simpa [mkIterator] using hok
      rw [this]
  · intro a ha
    obtain ⟨xs, ys, nd, hdec, hg, _, hnext⟩ := rep_decomp hrep ha
    have hnd : addrs.Nodup := hrep.nodup
    rw [hdec] at hnd
    cases ys with
    | nil =>
      refine ⟨a, ?_, ha, fun _ => rfl⟩
      simp only [headO] at hnext
      simp only [itNext, readPtr_some hg, ebind_ok, hnext]
    | cons y ys' =>
      refine ⟨y, ?_, ?_, ?_⟩
      · simp only [headO] at hnext
        simp only [itNext, readPtr_some hg, ebind_ok, hnext]
      · rw [hdec]
        simp
      · intro hlast
        exfalso
        rw [hdec, List.getLast?_append_cons, List.getLast?_cons_cons] at hlast
        obtain ⟨hne, heq⟩ := List.mem_getLast?_eq_getLast (by rw [hlast]; rfl)
        have hmem : a ∈ y :: ys' := heq ▸ List.getLast_mem hne
        have : a ∉ y :: ys' :=
          (List.nodup_cons.mp (hnd.of_append_right)).1
        exact this hmem
  · intro a ha
    obtain ⟨xs, ys, nd, hdec, hg, hprev, _⟩ := rep_decomp hrep ha
    have hnd : addrs.Nodup := hrep.nodup
    rw [hdec] at hnd
    cases hxs : xs with
    | nil =>
      refine ⟨a, ?_, ha, fun _ => rfl⟩
      rw [hxs] at hprev
      simp only [lastO, List.getLast?_nil] at hprev
      simp only [itPrev, readPtr_some hg, ebind_ok, hprev]
    | cons x xs' =>
      have hxne : xs ≠ [] := by rw [hxs]; simp
      obtain ⟨lx, hlx⟩ : ∃ lx, xs.getLast? = some lx := by
        cases hgl : xs.getLast? with
        | none => exact absurd (List.getLast?_eq_none_iff.mp hgl) hxne
        | some lx => exact ⟨lx, rfl⟩
      have hprev' : nd.prevPtr = some lx := by
        rw [hprev, lastO, hlx]
      refine ⟨lx, ?_, ?_, ?_⟩
      · simp only [itPrev, readPtr_some hg, ebind_ok, hprev']
      · rw [hdec]
        have : lx ∈ xs := by
          obtain ⟨hne, heq⟩ := List.mem_getLast?_eq_getLast (by rw [hlx]; rfl)
          exact heq ▸ List.getLast_mem hne
        simp [this]
      · intro hhead
        exfalso
        rw [hdec, hxs] at hhead
        simp only [List.cons_append, List.head?_cons, Option.some.injEq] at hhead
        have haxs : a ∈ xs := by
          rw [hxs, hhead]
          exact List.mem_cons_self _ _
        exact (List.disjoint_of_nodup_append hnd) haxs (List.mem_cons_self _ _)

/-! ## Removal lemmas (toward the Unique specification) -/

theorem hget_hset_self_of_live {T : Type} {h : HeapT T} {a : Nat}
    {nd : ListNode T} (hg : hget h a = some nd) (x : Option (ListNode T)) :
    hget (hset h a x) a = x :=
  hget_hset_self (hget_lt_length hg) x

theorem isEmptyHdr_eq_false {hdr : ListHdr} (hc : hdr.numberOfNodes ≠ 0) :
    isEmptyHdr hdr = false := by
  simp [isEmptyHdr, hc]

theorem chainSeg_hset_not_mem {T : Type} {h : HeapT T} {seg : List Nat}
    {a : Nat} (hna : a ∉ seg) (x : Option (ListNode T)) (p q : Option Nat) :
    chainSeg (hset h a x) p seg q = chainSeg h p seg q := by
  apply chainSeg_congr
  intro b hb
  apply hget_hset_ne
  intro hba
  rw [hba] at hb
  exact hna hb

theorem nodup_mid (xs : List Nat) (r : Nat) (ys : List Nat)
    (hnd : (xs ++ r :: ys).Nodup) :
    r ∉ xs ∧ r ∉ ys ∧ ∀ c ∈ xs, c ∉ ys := by
  have hdisj := List.disjoint_of_nodup_append hnd
  refine ⟨fun hr => hdisj hr (List.mem_cons_self _ _), ?_, ?_⟩
  · exact (List.nodup_cons.mp hnd.of_append_right).1
  · intro c hc hcy
    exact hdisj hc (List.mem_cons_of_mem _ hcy)

theorem removeFirst_spec {T : Type} {h : HeapT T} {hdr : ListHdr} {r y : Nat}
    {ys : List Nat} (hrep : Rep h hdr (r :: y :: ys)) :
    ∃ h', RemoveFirst (h, hdr) =
        .ok (h', ⟨some y, hdr.lastPtr, hdr.numberOfNodes - 1⟩) ∧
      Rep h' ⟨some y, hdr.lastPtr, hdr.numberOfNodes - 1⟩ (y :: ys) ∧
      (∀ c, c ≠ r → dataAt h' c = dataAt h c) ∧ hget h' r = none ∧
      h'.length = h.length := by
  obtain ⟨rnd, hgr, hpr, hnr, hc1⟩ := chainSeg_cons.mp hrep.chain
  obtain ⟨ynd, hgy, hpy, hny, hc2⟩ := chainSeg_cons.mp hc1
  simp only [headO] at hnr
  have hfp : hdr.firstPtr = some r := by simpa using hrep.first
  obtain ⟨_, hryys, _⟩ := nodup_mid [] r (y :: ys) hrep.nodup
  have hry : r ≠ y := fun hc => hryys (by rw [hc]; exact List.mem_cons_self _ _)
  have hrys : r ∉ ys := fun hc => hryys (List.mem_cons_of_mem _ hc)
  have hemp : isEmptyHdr hdr = false :=
    isEmptyHdr_eq_false (by rw [hrep.count]; simp)
  have hg1y : hget (hset h r none) y = some ynd := by
    rw [hget_hset_ne h (Ne.symm hry) none]
    exact hgy
  refine ⟨hset (hset h r none) y (some { ynd with prevPtr := none }), ?_, ?_, ?_, ?_, ?_⟩
  · simp only [RemoveFirst, hemp, Bool.false_eq_true, if_false, hfp,
      readPtr_some hgr, ebind_ok, hnr, writePrev_some hg1y]
  · refine ⟨?_, rfl, by simpa [List.getLast?_cons_cons] using hrep.last,
      by rw [hrep.count]; simp, hrep.nodup.of_cons⟩
    rw [chainSeg_cons]
    refine ⟨{ ynd with prevPtr := none }, hget_hset_self_of_live hg1y _, rfl, hny, ?_⟩
    have hstep1 : chainSeg (hset h r none) (some y) ys none =
        chainSeg h (some y) ys none :=
      chainSeg_hset_not_mem hrys none _ _
    have hynys : y ∉ ys := (List.nodup_cons.mp hrep.nodup.of_cons).1
    rw [chainSeg_hset_not_mem hynys _ _ _, hstep1]
    exact hc2
  · intro c hcr
    by_cases hcy : c = y
    · subst hcy
      simp [dataAt, hget_hset_self_of_live hg1y, hget_hset_ne h (Ne.symm hcr) none, hgy]
    · simp [dataAt, hget_hset_ne _ hcy, hget_hset_ne h hcr none]
  · rw [hget_hset_ne _ hry, hget_hset_self_of_live hgr]
  · simp [length_hset, hset]

theorem removeLast_spec {T : Type} {h : HeapT T} {hdr : ListHdr}
    {xs : List Nat} {lx r : Nat} (hrep : Rep h hdr (xs ++ [lx, r])) :
    ∃ h', RemoveLast (h, hdr) =
        .ok (h', ⟨hdr.firstPtr, some lx, hdr.numberOfNodes - 1⟩) ∧
      Rep h' ⟨hdr.firstPtr, some lx, hdr.numberOfNodes - 1⟩ (xs ++ [lx]) ∧
      (∀ c, c ≠ r → dataAt h' c = dataAt h c) ∧ hget h' r = none ∧
      h'.length = h.length := by
  have hchain := hrep.chain
  rw [chainSeg_append] at hchain
  simp only [Bool.and_eq_true] at hchain
  obtain ⟨hcxs, hcend⟩ := hchain
  obtain ⟨lnd, hgl, hpl, hnl, hcend2⟩ := chainSeg_cons.mp hcend
  obtain ⟨rnd, hgr, hpr, hnr, _⟩ := chainSeg_cons.mp hcend2
  simp only [headO] at hnl hnr
  obtain ⟨hrxs, _, _⟩ := nodup_mid (xs ++ [lx]) r []
    (by simpa using hrep.nodup)
  have hrlx : r ≠ lx := fun hc => hrxs (by rw [hc]; simp)
  have hrnxs : r ∉ xs := fun hc => hrxs (by simp [hc])
  have hlp : hdr.lastPtr = some r := by
    rw [hrep.last, show xs ++ [lx, r] = (xs ++ [lx]) ++ [r] by simp]
    simp [List.getLast?_concat]
  have hemp : isEmptyHdr hdr = false :=
    isEmptyHdr_eq_false (by rw [hrep.count]; simp)
  have hg1l : hget (hset h r none) lx = some lnd := by
    rw [hget_hset_ne h (Ne.symm hrlx) none]
    exact hgl
  refine ⟨hset (hset h r none) lx (some { lnd with nextPtr := none }), ?_, ?_, ?_, ?_, ?_⟩
  · simp only [RemoveLast, hemp, Bool.false_eq_true, if_false, hlp,
      readPtr_some hgr, ebind_ok, hpr, writeNext_some hg1l]
  · have hlnxs : lx ∉ xs := by
      have := hrep.nodup
      rw [show xs ++ [lx, r] = (xs ++ [lx]) ++ [r] by simp] at this
      have h2 : (xs ++ [lx]).Nodup := this.of_append_left
      intro hc
      exact (List.disjoint_of_nodup_append h2) hc (by simp)
    refine ⟨?_, ?_, by simp [List.getLast?_concat], ?_, ?_⟩
    · rw [chainSeg_append]
      simp only [Bool.and_eq_true]
      constructor
      · rw [chainSeg_hset_not_mem hlnxs _ _ _, chainSeg_hset_not_mem hrnxs _ _ _]
        simpa [headO] using hcxs
      · rw [chainSeg_single]
        exact ⟨{ lnd with nextPtr := none }, hget_hset_self_of_live hg1l _, hpl, rfl⟩
    · rw [hrep.first]
      cases xs <;> simp
    · rw [hrep.count]
      simp
    · have := hrep.nodup
      rw [show xs ++ [lx, r] = (xs ++ [lx]) ++ [r] by simp] at this
      exact this.of_append_left
  · intro c hcr
    by_cases hcl : c = lx
    · subst hcl
      simp [dataAt, hget_hset_self_of_live hg1l, hget_hset_ne h (Ne.symm hcr) none, hgl]
    · simp [dataAt, hget_hset_ne _ hcl, hget_hset_ne h hcr none]
  · rw [hget_hset_ne _ hrlx, hget_hset_self_of_live hgr]
  · simp [length_hset, hset]

theorem lastO_concat (l : List Nat) (a : Nat) (p : Option Nat) :
    lastO (l ++ [a]) p = some a := by
  simp [lastO, List.getLast?_concat]

theorem headO_cons (a : Nat) (l : List Nat) (q : Option Nat) :
    headO (a :: l) q = some a := rfl

theorem removeNode_spec {T : Type} {h : HeapT T} {hdr : ListHdr}
    {xs ys : List Nat} {r : Nat}
    (hrep : Rep h hdr (xs ++ r :: ys)) (hne : xs ≠ [] ∨ ys ≠ []) :
    ∃ h' hdr', RemoveNode (h, hdr) (some r) = .ok (h', hdr') ∧
      Rep h' hdr' (xs ++ ys) ∧
      (∀ c, c ≠ r → dataAt h' c = dataAt h c) ∧ hget h' r = none ∧
      h'.length = h.length := by
  obtain ⟨hrxs, hrys, hxsys⟩ := nodup_mid _ _ _ hrep.nodup
  cases hxs : xs with
  | nil =>
    subst hxs
    have hys : ys ≠ [] := by
      rcases hne with hc | hc
      · exact absurd rfl hc
      · exact hc
    obtain ⟨y, ys', rfl⟩ := List.exists_cons_of_ne_nil hys
    have hfp : hdr.firstPtr = some r := by simpa using hrep.first
    obtain ⟨h', hrun, hrep', hdata, hfree, hlen⟩ :=
      @removeFirst_spec T h hdr r y ys' (by simpa using hrep)
    refine ⟨h', _, ?_, by simpa using hrep', hdata, hfree, hlen⟩
    simp only [RemoveNode, if_pos hfp]
    exact hrun
  | cons x xs1 =>
    rw [← hxs]
    have hxne : xs ≠ [] := by rw [hxs]; simp
    have hfp : hdr.firstPtr ≠ some r := by
      rw [hrep.first, hxs]
      intro hc
      simp only [List.cons_append, List.head?_cons, Option.some.injEq] at hc
      exact hrxs (by rw [hxs, hc]; exact List.mem_cons_self _ _)
    cases hys : ys with
    | nil =>
      subst hys
      obtain ⟨xs'', lx, hxs2⟩ := (List.eq_nil_or_concat xs).resolve_left hxne
      rw [List.concat_eq_append] at hxs2
      have hlp : hdr.lastPtr = some r := by
        rw [hrep.last]
        simp [List.getLast?_concat]
      obtain ⟨h', hrun, hrep', hdata, hfree, hlen⟩ :=
        @removeLast_spec T h hdr xs'' lx r (by rw [hxs2] at hrep; simpa using hrep)
      refine ⟨h', _, ?_, by rw [hxs2]; simpa using hrep', hdata, hfree, hlen⟩
      simp only [RemoveNode, if_neg hfp, if_pos hlp]
      exact hrun
    | cons y ys' =>
      rw [← hys]
      -- interior removal: both neighbours exist
      obtain ⟨xs'', lx, hxs2⟩ := (List.eq_nil_or_concat xs).resolve_left hxne
      rw [List.concat_eq_append] at hxs2
      have hlp : hdr.lastPtr ≠ some r := by
        rw [hrep.last, List.getLast?_append_cons, hys, List.getLast?_cons_cons]
        intro hc
        have hmem : r ∈ y :: ys' := by
          obtain ⟨hne2, heq⟩ := List.mem_getLast?_eq_getLast (by rw [hc]; rfl)
          exact heq ▸ List.getLast_mem hne2
        exact hrys (by rw [hys]; exact hmem)
      -- decompose the chain
      have hchain := hrep.chain
      rw [hxs2, chainSeg_append] at hchain
      simp only [Bool.and_eq_true] at hchain
      obtain ⟨hcleft, hcright⟩ := hchain
      rw [lastO_concat] at hcright
      rw [chainSeg_append] at hcleft
      simp only [Bool.and_eq_true] at hcleft
      obtain ⟨hcxs, hclx⟩ := hcleft
      obtain ⟨lxnd, hglx, hplx, hnlx⟩ := chainSeg_single.mp hclx
      obtain ⟨rnd, hgr, hprr, hnrr, hcr2⟩ := chainSeg_cons.mp hcright
      rw [hys] at hcr2
      obtain ⟨ynd, hgy, hpy, hny, hcy2⟩ := chainSeg_cons.mp hcr2
      have hnrr' : rnd.nextPtr = some y := by rw [hnrr, hys]; rfl
      have hprr' : rnd.prevPtr = some lx := hprr
      -- distinctness
      have hlxxs : lx ∈ xs := by rw [hxs2]; simp
      have hyys : y ∈ ys := by rw [hys]; exact List.mem_cons_self _ _
      have hrlx : r ≠ lx := fun hc => hrxs (hc ▸ hlxxs)
      have hry : r ≠ y := fun hc => hrys (hc ▸ hyys)
      have hlxy : lx ≠ y := fun hc => (hxsys lx hlxxs) (hc ▸ hyys)
      have hyys' : y ∉ ys' := by
        have : ys.Nodup := hrep.nodup.of_append_right.of_cons
        rw [hys] at this
        exact (List.nodup_cons.mp this).1
      have hlxxs'' : lx ∉ xs'' := by
        have hx2 : xs.Nodup := hrep.nodup.of_append_left
        rw [hxs2] at hx2
        intro hc
        exact (List.disjoint_of_nodup_append hx2) hc (by simp)
      -- heap steps
      have hg1y : hget h y = some ynd := hgy
      have h1 := hset h y (some { ynd with prevPtr := some lx })
      have hg1r : hget (hset h y (some { ynd with prevPtr := some lx })) r = some rnd := by
        rw [hget_hset_ne h hry _]
        exact hgr
      have hg1lx : hget (hset h y (some { ynd with prevPtr := some lx })) lx = some lxnd := by
        rw [hget_hset_ne h hlxy _]
        exact hglx
      refine ⟨hset (hset (hset h y (some { ynd with prevPtr := some lx })) lx
          (some { lxnd with nextPtr := some y })) r none,
        { hdr with numberOfNodes := hdr.numberOfNodes - 1 }, ?_, ?_, ?_, ?_, ?_⟩
      · simp only [RemoveNode, if_neg hfp, if_neg hlp, readPtr_some hgr, ebind_ok,
          hnrr', hprr', writePrev_some hg1y, readPtr_some hg1r, writeNext_some hg1lx]
      · -- representation of the shortened chain
        have hg2lx : hget (hset (hset h y (some { ynd with prevPtr := some lx })) lx
            (some { lxnd with nextPtr := some y })) lx =
            some { lxnd with nextPtr := some y } :=
          hget_hset_self_of_live hg1lx _
        have hg3lx : hget (hset (hset (hset h y (some { ynd with prevPtr := some lx })) lx
            (some { lxnd with nextPtr := some y })) r none) lx =
            some { lxnd with nextPtr := some y } := by
          rw [hget_hset_ne _ (Ne.symm hrlx) none]
          exact hg2lx
        have hg3y : hget (hset (hset (hset h y (some { ynd with prevPtr := some lx })) lx
            (some { lxnd with nextPtr := some y })) r none) y =
            some { ynd with prevPtr := some lx } := by
          rw [hget_hset_ne _ (Ne.symm hry) none, hget_hset_ne _ (Ne.symm hlxy) _]
          exact hget_hset_self_of_live hgy _
        refine ⟨?_, ?_, ?_, ?_, ?_⟩
        · rw [hxs2, hys, chainSeg_append]
          simp only [Bool.and_eq_true]
          constructor
          · rw [chainSeg_append]
            simp only [Bool.and_eq_true]
            constructor
            · have hnm : ∀ c ∈ xs'', c ≠ y ∧ c ≠ lx ∧ c ≠ r := by
                intro c hc
                have hcxsmem : c ∈ xs := by rw [hxs2]; simp [hc]
                exact ⟨fun hcc => (hxsys c hcxsmem) (hcc ▸ hyys),
                  fun hcc => hlxxs'' (hcc ▸ hc),
                  fun hcc => hrxs (hcc ▸ hcxsmem)⟩
              have hcongr : chainSeg (hset (hset (hset h y
                  (some { ynd with prevPtr := some lx })) lx
                  (some { lxnd with nextPtr := some y })) r none) none xs''
                  (headO [lx] (headO (y :: ys') none)) =
                  chainSeg h none xs'' (headO [lx] (headO (y :: ys') none)) := by
                apply chainSeg_congr
                intro c hc
                obtain ⟨hc1, hc2, hc3⟩ := hnm c hc
                rw [hget_hset_ne _ hc3 none, hget_hset_ne _ hc2 _, hget_hset_ne _ hc1 _]
              rw [hcongr]
              simpa [headO] using hcxs
            · rw [chainSeg_single]
              exact ⟨{ lxnd with nextPtr := some y }, hg3lx, hplx, rfl⟩
          · rw [lastO_concat, chainSeg_cons]
            refine ⟨{ ynd with prevPtr := some lx }, hg3y, rfl, hny, ?_⟩
            have hnm : ∀ c ∈ ys', c ≠ y ∧ c ≠ lx ∧ c ≠ r := by
              intro c hc
              have hcysmem : c ∈ ys := by rw [hys]; simp [hc]
              exact ⟨fun hcc => hyys' (hcc ▸ hc),
                fun hcc => (hxsys lx hlxxs) (hcc ▸ hcysmem),
                fun hcc => hrys (hcc ▸ hcysmem)⟩
            have hcongr : chainSeg (hset (hset (hset h y
                (some { ynd with prevPtr := some lx })) lx
                (some { lxnd with nextPtr := some y })) r none) (some y) ys' none =
                chainSeg h (some y) ys' none := by
              apply chainSeg_congr
              intro c hc
              obtain ⟨hc1, hc2, hc3⟩ := hnm c hc
              rw [hget_hset_ne _ hc3 none, hget_hset_ne _ hc2 _, hget_hset_ne _ hc1 _]
            rw [hcongr]
            exact hcy2
        · rw [hrep.first]
          cases hxs3 : xs with
          | nil => exact absurd hxs3 hxne
          | cons a l => simp
        · show hdr.lastPtr = (xs ++ ys).getLast?
          rw [hrep.last, hys, List.getLast?_append_cons, List.getLast?_cons_cons,
            List.getLast?_append_cons]
        · rw [hrep.count]
          simp
        · exact ((List.sublist_cons_self r ys).append_left xs).nodup hrep.nodup
      · intro c hcr
        by_cases hcy : c = y
        · subst hcy
          simp [dataAt, hget_hset_ne _ hcr none,
            hget_hset_ne _ (Ne.symm hlxy), hget_hset_self_of_live hgy, hgy]
        · by_cases hclx : c = lx
          · subst hclx
            simp [dataAt, hget_hset_ne _ hcr none,
              hget_hset_self_of_live hg1lx, hget_hset_ne _ hcy, hglx]
          · simp [dataAt, hget_hset_ne _ hcr none, hget_hset_ne _ hclx,
              hget_hset_ne _ hcy]
      · rw [hget_hset_self]
        rw [length_hset, length_hset]
        exact hget_lt_length hgr
      · simp [length_hset, hset]

theorem find_spec [DecidableEq T] {h : HeapT T} {d : T} :
    ∀ (suf : List Nat) (p : Option Nat) (fuel : Nat),
      chainSeg h p suf none = true → suf.length < fuel →
      (Find h d fuel (headO suf none) = .ok none ∧
        ∀ a ∈ suf, matchesB h d a = false) ∨
      (∃ preNM m post, suf = preNM ++ m :: post ∧
        Find h d fuel (headO suf none) = .ok (some m) ∧
        matchesB h d m = true ∧ ∀ a ∈ preNM, matchesB h d a = false) := by
  intro suf
  induction suf with
  | nil =>
    intro p fuel _ hf
    obtain ⟨fuel, rfl⟩ := Nat.exists_eq_succ_of_ne_zero (Nat.pos_iff_ne_zero.mp hf)
    left
    exact ⟨rfl, by simp⟩
  | cons a suf' ih =>
    intro p fuel hc hf
    obtain ⟨nd, hg, _, hnext, hc'⟩ := chainSeg_cons.mp hc
    obtain ⟨fuel, rfl⟩ := Nat.exists_eq_succ_of_ne_zero
      (Nat.pos_iff_ne_zero.mp (Nat.lt_of_le_of_lt (Nat.zero_le _) hf))
    have hstep : Find h d (fuel + 1) (headO (a :: suf') none) =
        (if nd.data = d then .ok (some a) else Find h d fuel nd.nextPtr) := by
      simp only [headO, Find, readPtr_some hg, ebind_ok]
    by_cases hda : nd.data = d
    · right
      refine ⟨[], a, suf', rfl, ?_, ?_, by simp⟩
      · rw [hstep, if_pos hda]
      · simp [matchesB, dataAt, hg, hda]
    · have hma : matchesB h d a = false := by
        simp [matchesB, dataAt, hg, hda]
      rw [hnext] at hstep
      rcases ih (some a) fuel hc' (by simpa using Nat.lt_of_succ_lt_succ hf) with
        ⟨hfind, hall⟩ | ⟨preNM, m, post, hdec, hfind, hm, hpre⟩
      · left
        refine ⟨by rw [hstep, if_neg hda]; exact hfind, ?_⟩
        intro b hb
        rcases List.mem_cons.mp hb with rfl | hb'
        · exact hma
        · exact hall b hb'
      · right
        refine ⟨a :: preNM, m, post, by simp [hdec], ?_, hm, ?_⟩
        · rw [hstep, if_neg hda]
          exact hfind
        · intro b hb
          rcases List.mem_cons.mp hb with rfl | hb'
          · exact hma
          · exact hpre b hb'

theorem removeIfFrom_spec [DecidableEq T] :
    ∀ (fuel : Nat) (h : HeapT T) (hdr : ListHdr) (pre suf : List Nat) (d : T),
      Rep h hdr (pre ++ suf) → pre ≠ [] → suf.length < fuel →
      ∃ h' hdr', RemoveIfFrom (h, hdr) d fuel (headO suf none) =
          .ok (h', hdr') ∧
        Rep h' hdr' (pre ++ suf.filter (fun a => !matchesB h d a)) ∧
        (∀ c ∈ pre ++ suf.filter (fun a => !matchesB h d a),
          dataAt h' c = dataAt h c) ∧
        h'.length = h.length := by
  intro fuel
  induction fuel with
  | zero =>
    intro h hdr pre suf d _ _ hf
    omega
  | succ fuel ih =>
    intro h hdr pre suf d hrep hpre hf
    have hchain := hrep.chain
    rw [chainSeg_append] at hchain
    simp only [Bool.and_eq_true] at hchain
    obtain ⟨_, hcsuf⟩ := hchain
    have hsuflen : suf.length < h.length + 1 := by
      have h1 := hrep.length_le
      have h2 : suf.length ≤ (pre ++ suf).length := by simp
      omega
    rcases find_spec (d := d) suf (lastO pre none) (h.length + 1) hcsuf hsuflen with
      ⟨hfind, hall⟩ | ⟨preNM, m, post, hdec, hfind, hm, hpreNM⟩
    · refine ⟨h, hdr, ?_, ?_, ?_, rfl⟩
      · simp only [RemoveIfFrom, hfind, ebind_ok]
      · have : suf.filter (fun a => !matchesB h d a) = suf :=
          List.filter_eq_self.mpr (fun a ha => by simp [hall a ha])
        rw [this]
        exact hrep
      · intro c _
        rfl
    · subst hdec
      -- the node m is removed, then the search continues after it
      have hmmem : m ∈ pre ++ (preNM ++ m :: post) := by simp
      obtain ⟨mnd, hgm⟩ := hrep.live hmmem
      have hrep2 : Rep h hdr ((pre ++ preNM) ++ m :: post) := by
        rw [List.append_assoc]
        exact hrep
      have hmnext : mnd.nextPtr = headO post none := by
        have hc2 := hrep2.chain
        rw [chainSeg_append] at hc2
        simp only [Bool.and_eq_true] at hc2
        obtain ⟨_, hc3⟩ := hc2
        obtain ⟨mnd', hgm', _, hnext', _⟩ := chainSeg_cons.mp hc3
        rw [hgm] at hgm'
        rw [Option.some.inj hgm']
        exact hnext'
      obtain ⟨h1, hdr1, hrun1, hrep1, hdata1, hfree1, hlen1⟩ :=
        removeNode_spec hrep2 (Or.inl (by simp [hpre]))
      -- distinctness facts needed to push the filter through the removal
      have hnodup := hrep2.nodup
      obtain ⟨hmpp, hmpost, _⟩ := nodup_mid _ _ _ hnodup
      have hmnotpre : m ∉ pre := fun hc => hmpp (by simp [hc])
      have hmnotpreNM : m ∉ preNM := fun hc => hmpp (by simp [hc])
      obtain ⟨h2, hdr2, hrun2, hrep2', hdata2, hlen2⟩ :=
        ih h1 hdr1 (pre ++ preNM) post d (by simpa using hrep1)
          (by simp [hpre]) (by simp at hf; omega)
      have hfiltpost : post.filter (fun a => !matchesB h1 d a) =
          post.filter (fun a => !matchesB h d a) := by
        apply List.filter_congr
        intro a ha
        have ham : a ≠ m := fun hc => hmpost (hc ▸ ha)
        rw [matchesB, matchesB, hdata1 a ham]
      have hfilter : (preNM ++ m :: post).filter (fun a => !matchesB h d a) =
          preNM ++ post.filter (fun a => !matchesB h d a) := by
        rw [List.filter_append, List.filter_cons_of_neg (by simp [hm]),
          List.filter_eq_self.mpr (fun a ha => by simp [hpreNM a ha])]
      refine ⟨h2, hdr2, ?_, ?_, ?_, by rw [hlen2, hlen1]⟩
      · simp only [RemoveIfFrom, hfind, ebind_ok, readPtr_some hgm, hrun1, hmnext]
        rw [← hmnext]
        simp only [hmnext]
        exact hrun2
      · rw [hfilter, ← hfiltpost, ← List.append_assoc]
        exact hrep2'
      · intro c hcmem
        rw [hfilter] at hcmem
        have hcm : c ≠ m := by
          intro hc
          subst hc
          rcases List.mem_append.mp hcmem with hcl | hcr
          · exact hmnotpre hcl
          · rcases List.mem_append.mp hcr with hcc | hcc
            · exact hmnotpreNM hcc
            · exact hmpost (List.mem_of_mem_filter hcc)
        have hcmem2 : c ∈ (pre ++ preNM) ++
            post.filter (fun a => !matchesB h1 d a) := by
          rw [hfiltpost, List.append_assoc]
          exact hcmem
        rw [hdata2 c hcmem2, hdata1 c hcm]

theorem dedupFirstF_congr [DecidableEq T] :
    ∀ (f g : Nat) (l : List T), l.length ≤ f → l.length ≤ g →
      dedupFirstF f l = dedupFirstF g l := by
  intro f
  induction f with
  | zero =>
    intro g l hf _
    have : l = [] := List.length_eq_zero.mp (Nat.le_zero.mp hf)
    subst this
    cases g <;> rfl
  | succ f ih =>
    intro g l hf hg
    cases l with
    | nil => cases g <;> rfl
    | cons x xs =>
      obtain ⟨g, rfl⟩ := Nat.exists_eq_succ_of_ne_zero
        (by simp at hg; omega : g ≠ 0)
      rw [dedupFirstF, dedupFirstF]
      have hfl : (xs.filter (fun y => decide (y ≠ x))).length ≤ f :=
        le_trans (List.length_filter_le _ _) (by simpa using hf)
      have hgl : (xs.filter (fun y => decide (y ≠ x))).length ≤ g :=
        le_trans (List.length_filter_le _ _) (by simpa using hg)
      rw [ih g _ hfl hgl]

theorem dedupFirst_nil [DecidableEq T] : dedupFirst ([] : List T) = [] := rfl

theorem dedupFirst_cons [DecidableEq T] (x : T) (xs : List T) :
    dedupFirst (x :: xs) =
      x :: dedupFirst (xs.filter (fun y => decide (y ≠ x))) := by
  rw [dedupFirst, dedupFirst, List.length_cons, dedupFirstF]
  rw [dedupFirstF_congr xs.length (xs.filter (fun y => decide (y ≠ x))).length _
    (List.length_filter_le _ _) (le_refl _)]

theorem valsOf_filter_not_match [DecidableEq T] {h : HeapT T}
    {addrs : List Nat} {d : T}
    (hlive : ∀ a ∈ addrs, ∃ nd, hget h a = some nd) :
    valsOf h (addrs.filter (fun a => !matchesB h d a)) =
      (valsOf h addrs).filter (fun v => decide (v ≠ d)) := by
  induction addrs with
  | nil => rfl
  | cons a rest ih =>
    obtain ⟨nd, hg⟩ := hlive a (List.mem_cons_self _ _)
    have ihr := ih (fun b hb => hlive b (List.mem_cons_of_mem _ hb))
    by_cases hda : nd.data = d
    · rw [List.filter_cons_of_neg (by simp [matchesB, dataAt, hg, hda]),
        valsOf_cons_live hg, List.filter_cons_of_neg (by simp [hda]), ihr]
    · rw [List.filter_cons_of_pos (by simp [matchesB, dataAt, hg, hda]),
        valsOf_cons_live hg, valsOf_cons_live hg,
        List.filter_cons_of_pos (by simp [hda]), ihr]

theorem uniqueLoop_spec [DecidableEq T] :
    ∀ (fuel : Nat) (h : HeapT T) (hdr : ListHdr) (done rest : List Nat),
      Rep h hdr (done ++ rest) → rest.length < fuel →
      ∃ h' hdr' rest', UniqueLoop (h, hdr) fuel (headO rest none) =
          .ok (h', hdr') ∧
        Rep h' hdr' (done ++ rest') ∧
        (∀ c ∈ done, dataAt h' c = dataAt h c) ∧
        valsOf h' rest' = dedupFirst (valsOf h rest) ∧
        h'.length = h.length := by
  intro fuel
  induction fuel with
  | zero =>
    intro h hdr done rest _ hf
    omega
  | succ fuel ih =>
    intro h hdr done rest hrep hf
    cases rest with
    | nil =>
      exact ⟨h, hdr, [], rfl, by simpa using hrep, fun c _ => rfl, rfl, rfl⟩
    | cons c rest0 =>
      have hcmem : c ∈ done ++ c :: rest0 := by simp
      obtain ⟨cnd, hgc⟩ := hrep.live hcmem
      -- the cursor node's nextPtr is the head of rest0
      have hcnext : cnd.nextPtr = headO rest0 none := by
        have hc2 := hrep.chain
        rw [chainSeg_append] at hc2
        simp only [Bool.and_eq_true] at hc2
        obtain ⟨_, hc3⟩ := hc2
        obtain ⟨cnd', hgc', _, hnext', _⟩ := chainSeg_cons.mp hc3
        rw [hgc] at hgc'
        rw [Option.some.inj hgc']
        exact hnext'
      have hrep2 : Rep h hdr ((done ++ [c]) ++ rest0) := by
        rw [List.append_assoc]
        simpa using hrep
      have hr0len : rest0.length < h.length + 1 := by
        have h1 := hrep2.length_le
        have h2 : rest0.length ≤ ((done ++ [c]) ++ rest0).length := by
          rw [List.length_append]
          omega
        omega
      obtain ⟨h1, hdr1, hrun1, hrep1, hdata1, hlen1⟩ :=
        removeIfFrom_spec (h.length + 1) h hdr (done ++ [c]) rest0 cnd.data
          hrep2 (by simp) hr0len
      -- locate the cursor again after the removals
      have hchain1 := hrep1.chain
      rw [chainSeg_append] at hchain1
      simp only [Bool.and_eq_true] at hchain1
      obtain ⟨hcleft1, hcright1⟩ := hchain1
      rw [chainSeg_append] at hcleft1
      simp only [Bool.and_eq_true] at hcleft1
      obtain ⟨_, hcc1⟩ := hcleft1
      obtain ⟨cnd1, hgc1, _, hcnext1⟩ := chainSeg_single.mp hcc1
      obtain ⟨h2, hdr2, rest2, hrun2, hrep2', hdata2, hvals2, hlen2⟩ :=
        ih h1 hdr1 (done ++ [c]) (rest0.filter (fun a => !matchesB h cnd.data a))
          hrep1
          (by
            have := List.length_filter_le (fun a => !matchesB h cnd.data a) rest0
            simp only [List.length_cons] at hf
            omega)
      refine ⟨h2, hdr2, c :: rest2, ?_, ?_, ?_, ?_, by rw [hlen2, hlen1]⟩
      · simp only [headO_cons, UniqueLoop, readPtr_some hgc, ebind_ok, hcnext,
          hrun1, readPtr_some hgc1, hcnext1]
        exact hrun2
      · rw [show done ++ c :: rest2 = (done ++ [c]) ++ rest2 from
          (List.append_assoc done [c] rest2).symm]
        exact hrep2'
      · intro b hb
        have hb0 : b ∈ done ++ [c] := List.mem_append_left _ hb
        rw [hdata2 b hb0, hdata1 b (List.mem_append_left _ hb0)]
      · -- the cursor value survives, followed by the deduplicated tail
        have hc0 : c ∈ done ++ [c] := List.mem_append_right _ (by simp)
        have hgc2 : dataAt h2 c = some cnd.data := by
          rw [hdata2 c hc0, hdata1 c (List.mem_append_left _ hc0)]
          simp [dataAt, hgc]
        obtain ⟨cnd2, hgc2'⟩ : ∃ nd, hget h2 c = some nd := by
          cases hgg : hget h2 c with
          | none => rw [dataAt, hgg] at hgc2; simp at hgc2
          | some nd => exact ⟨nd, rfl⟩
        have hcdata2 : cnd2.data = cnd.data := by
          rw [dataAt, hgc2'] at hgc2
          simpa using hgc2
        rw [valsOf_cons_live hgc2', hvals2, hcdata2]
        -- values of the filtered suffix were not changed by the removals
        have hlive0 : ∀ a ∈ rest0.filter (fun a => !matchesB h cnd.data a),
            ∃ nd, hget h a = some nd := by
          intro a ha
          exact hrep.live (by
            simp only [List.mem_append, List.mem_cons]
            exact Or.inr (Or.inr (List.mem_of_mem_filter ha)))
        have hvals1 : valsOf h1 (rest0.filter (fun a => !matchesB h cnd.data a)) =
            valsOf h (rest0.filter (fun a => !matchesB h cnd.data a)) :=
          valsOf_congr (fun a ha =>
            hdata1 a (List.mem_append_right _ ha))
        rw [hvals1, valsOf_filter_not_match (fun a ha =>
          hrep.live (by
            simp only [List.mem_append, List.mem_cons]
            exact Or.inr (Or.inr ha)))]
        rw [valsOf_cons_live hgc, dedupFirst_cons]

theorem headO_none_eq_head? (l : List Nat) : headO l none = l.head? := by
  cases l <;> rfl

/-- C6: Unique() leaves exactly one node per distinct value, in order of the
first occurrence of each value, removing duplicates regardless of
adjacency. -/
theorem c6_unique_keeps_first_occurrences [DecidableEq T] {h : HeapT T}
    {hdr : ListHdr} {addrs : List Nat} (hrep : Rep h hdr addrs) :
    ∃ h' hdr' addrs', Unique (h, hdr) = .ok (h', hdr') ∧
      Rep h' hdr' addrs' ∧ valsOf h' addrs' = dedupFirst (valsOf h addrs) := by
  obtain ⟨h', hdr', rest', hrun, hrep', _, hvals, _⟩ :=
    uniqueLoop_spec (h.length + 1) h hdr [] addrs (by simpa using hrep)
      (Nat.lt_succ_of_le hrep.length_le)
  refine ⟨h', hdr', rest', ?_, by simpa using hrep', hvals⟩
  show UniqueLoop (h, hdr) (h.length + 1) hdr.firstPtr = .ok (h', hdr')
  rw [hrep.first, ← headO_none_eq_head?]
  exact hrun

/-- C6 witness: the theorem applied to the concrete list [3,1,3,2,1], whose
first-occurrence deduplication is [3,1,2]. -/
theorem c6_unique_keeps_first_occurrences_witness :
    (∃ h' hdr' addrs',
      Unique (([some ⟨3, none, some 1⟩, some ⟨1, some 0, some 2⟩,
        some ⟨3, some 1, some 3⟩, some ⟨2, some 2, some 4⟩,
        some ⟨1, some 3, none⟩] : HeapT Int),
        (⟨some 0, some 4, 5⟩ : ListHdr)) = .ok (h', hdr') ∧
      Rep h' hdr' addrs' ∧
      valsOf h' addrs' =
        dedupFirst (valsOf ([some ⟨3, none, some 1⟩, some ⟨1, some 0, some 2⟩,
          some ⟨3, some 1, some 3⟩, some ⟨2, some 2, some 4⟩,
          some ⟨1, some 3, none⟩] : HeapT Int) [0, 1, 2, 3, 4])) ∧
    dedupFirst (valsOf ([some ⟨3, none, some 1⟩, some ⟨1, some 0, some 2⟩,
      some ⟨3, some 1, some 3⟩, some ⟨2, some 2, some 4⟩,
      some ⟨1, some 3, none⟩] : HeapT Int) [0, 1, 2, 3, 4]) = [3, 1, 2] :=
  ⟨@c6_unique_keeps_first_occurrences Int _
    [some ⟨3, none, some 1⟩, some ⟨1, some 0, some 2⟩, some ⟨3, some 1, some 3⟩,
      some ⟨2, some 2, some 4⟩, some ⟨1, some 3, none⟩]
    ⟨some 0, some 4, 5⟩ [0, 1, 2, 3, 4]
    ⟨by decide, rfl, rfl, rfl, by decide⟩, by decide⟩

/-! ## Node-swap lemmas (toward the Sort specification) -/

theorem dataAt_hset_keep {T : Type} {h : HeapT T} {a : Nat}
    {nd : ListNode T} (nd' : ListNode T) (hg : hget h a = some nd)
    (hd : nd'.data = nd.data) :
    ∀ c, dataAt (hset h a (some nd')) c = dataAt h c := by
  intro c
  by_cases hca : c = a
  · subst hca
    simp [dataAt, hget_hset_self_of_live hg, hg, hd]
  · simp [dataAt, hget_hset_ne _ hca]

theorem chainSeg_relink {T : Type} {h h' : HeapT T} : ∀ {seg : List Nat}
    {p q p' q' : Option Nat},
    chainSeg h p seg q = true → seg.Nodup →
    (∀ c ∈ seg, ∃ nd nd', hget h c = some nd ∧ hget h' c = some nd' ∧
      nd'.prevPtr = (if seg.head? = some c then p' else nd.prevPtr) ∧
      nd'.nextPtr = (if seg.getLast? = some c then q' else nd.nextPtr)) →
    chainSeg h' p' seg q' = true := by
  intro seg
  induction seg with
  | nil => intro p q p' q' _ _ _; rfl
  | cons c rest ih =>
    intro p q p' q' hold hnd hnodes
    obtain ⟨nd, hg, hprev, hnext, hold'⟩ := chainSeg_cons.mp hold
    obtain ⟨nd0, nd', hg0, hg', hprev', hnext'⟩ := hnodes c (List.mem_cons_self _ _)
    rw [hg] at hg0
    obtain rfl : nd0 = nd := (Option.some.inj hg0).symm
    have hcrest : c ∉ rest := (List.nodup_cons.mp hnd).1
    rw [chainSeg_cons]
    refine ⟨nd', hg', by rw [hprev']; simp, ?_, ?_⟩
    · cases hr : rest with
      | nil =>
        subst hr
        rw [hnext', if_pos (by simp)]
        rfl
      | cons r0 rest' =>
        subst hr
        have hglr : (c :: r0 :: rest').getLast? ≠ some c := by
          rw [List.getLast?_cons_cons]
          intro hc
          obtain ⟨hne2, heq⟩ := List.mem_getLast?_eq_getLast (by rw [hc]; rfl)
          exact hcrest (heq ▸ List.getLast_mem hne2)
        rw [hnext', if_neg hglr, hnext]
        rfl
    · apply ih hold' (List.nodup_cons.mp hnd).2
      intro b hb
      obtain ⟨bnd, bnd', hbg, hbg', hbprev, hbnext⟩ :=
        hnodes b (List.mem_cons_of_mem _ hb)
      have hbc : b ≠ c := fun hc => hcrest (hc ▸ hb)
      refine ⟨bnd, bnd', hbg, hbg', ?_, ?_⟩
      · rw [hbprev, if_neg (by simp [Ne.symm hbc])]
        by_cases hhd : rest.head? = some b
        · rw [if_pos hhd]
          -- b is the head of rest, whose old prevPtr is c
          cases hr : rest with
          | nil => subst hr; simp at hhd
          | cons r0 rest' =>
            subst hr
            rw [List.head?_cons, Option.some.injEq] at hhd
            subst hhd
            obtain ⟨bnd2, hbg2, hbp2, _, _⟩ := chainSeg_cons.mp hold'
            rw [hbg] at hbg2
            rw [Option.some.inj hbg2]
            exact hbp2
        · rw [if_neg hhd]
      · rw [hbnext]
        cases hr : rest with
        | nil => subst hr; simp at hb
        | cons r0 rest' =>
          subst hr
          rw [← List.getLast?_cons_cons (a := c) (b := r0)]

/-- C10 witness: the navigation properties evaluated on the concrete
two-element list [4, 9]. -/
theorem c10_iterator_navigation_witness :
    ∃ b, itNext ([some ⟨4, none, some 1⟩, some ⟨9, some 0, none⟩] : HeapT Int)
      1 = .ok b ∧ b ∈ [0, 1] ∧ ([0, 1].getLast? = some 1 → b = 1) := by
  obtain ⟨_, hnext, _⟩ := @c10_iterator_navigation Int
    [some ⟨4, none, some 1⟩, some ⟨9, some 0, none⟩]
    ⟨some 0, some 1, 2⟩ [0, 1] ⟨by decide, rfl, rfl, rfl, by decide⟩
  exact hnext 1 (by simp)

end CppContainers

namespace CppContainers

theorem swapSuccessive_spec {T : Type} {h : HeapT T} {hdr : ListHdr}
    {xs ys : List Nat} {f s : Nat}
    (hrep : Rep h hdr (xs ++ f :: s :: ys)) :
    ∃ h' hdr', SwapSuccessiveNodes (h, hdr) f s = .ok (h', hdr') ∧
      Rep h' hdr' (xs ++ s :: f :: ys) ∧ dataEq h h' ∧ h'.length = h.length := by
  have hchain := hrep.chain
  rw [chainSeg_append] at hchain
  simp only [Bool.and_eq_true] at hchain
  obtain ⟨hcxs, hcright⟩ := hchain
  rw [headO_cons] at hcxs
  obtain ⟨fnd, hgf, hpf, hnf, hcright2⟩ := chainSeg_cons.mp hcright
  obtain ⟨snd2, hgs, hps, hns, hcys⟩ := chainSeg_cons.mp hcright2
  rw [headO_cons] at hnf
  obtain ⟨hfxs, hfsys, hxsdisj⟩ := nodup_mid _ _ _ hrep.nodup
  have hfs : f ≠ s := fun hc => hfsys (by rw [hc]; exact List.mem_cons_self _ _)
  have hfys : f ∉ ys := fun hc => hfsys (List.mem_cons_of_mem _ hc)
  have hsxs : s ∉ xs := fun hc => hxsdisj s hc (List.mem_cons_self _ _)
  have hsys : s ∉ ys := (List.nodup_cons.mp hrep.nodup.of_append_right.of_cons).1
  have hgAs : hget (hset h s (some ⟨snd2.data, fnd.prevPtr, snd2.nextPtr⟩)) s =
      some ⟨snd2.data, fnd.prevPtr, snd2.nextPtr⟩ := hget_hset_self_of_live hgs _
  have hgAf : hget (hset h s (some ⟨snd2.data, fnd.prevPtr, snd2.nextPtr⟩)) f =
      some fnd := by
    rw [hget_hset_ne _ hfs]
    exact hgf
  cases hxs0 : xs with
  | nil =>
    cases hys0 : ys with
    | nil =>
      subst hxs0
      subst hys0
      have hfirst : hdr.firstPtr = some f := by simpa using hrep.first
      have hlast : hdr.lastPtr = some s := by simpa using hrep.last
      have hgBf : hget (hset (hset h s (some ⟨snd2.data, fnd.prevPtr, snd2.nextPtr⟩)) f
          (some ⟨fnd.data, fnd.prevPtr, snd2.nextPtr⟩)) f =
          some ⟨fnd.data, fnd.prevPtr, snd2.nextPtr⟩ := hget_hset_self_of_live hgAf _
      have hgEs : hget (hset (hset (hset h s
          (some ⟨snd2.data, fnd.prevPtr, snd2.nextPtr⟩)) f
          (some ⟨fnd.data, fnd.prevPtr, snd2.nextPtr⟩)) f
          (some ⟨fnd.data, some s, snd2.nextPtr⟩)) s =
          some ⟨snd2.data, fnd.prevPtr, snd2.nextPtr⟩ := by
        rw [hget_hset_ne _ (Ne.symm hfs), hget_hset_ne _ (Ne.symm hfs)]
        exact hgAs
      refine ⟨hset (hset (hset (hset h s
          (some ⟨snd2.data, fnd.prevPtr, snd2.nextPtr⟩)) f
          (some ⟨fnd.data, fnd.prevPtr, snd2.nextPtr⟩)) f
          (some ⟨fnd.data, some s, snd2.nextPtr⟩)) s
          (some ⟨snd2.data, fnd.prevPtr, some f⟩),
        ⟨some s, some f, hdr.numberOfNodes⟩, ?_, ?_, ?_, ?_⟩
      · simp only [SwapSuccessiveNodes,
          readPtr_some hgf, readPtr_some hgs, ebind_ok, epure_ok,
          if_neg (not_not_intro (⟨hnf, hps⟩ :
            fnd.nextPtr = some s ∧ snd2.prevPtr = some f)),
          writePrev_some hgs, readPtr_some hgAs, writeNext_some hgAf,
          hfirst, hlast,
          readPtr_some hgBf, writePrev_some hgBf, readPtr_some hgEs,
          writeNext_some hgEs, ne_eq, eq_self_iff_true, not_true, if_false,
          if_true]
      · have hgFs : hget (hset (hset (hset (hset h s
            (some ⟨snd2.data, fnd.prevPtr, snd2.nextPtr⟩)) f
            (some ⟨fnd.data, fnd.prevPtr, snd2.nextPtr⟩)) f
            (some ⟨fnd.data, some s, snd2.nextPtr⟩)) s
            (some ⟨snd2.data, fnd.prevPtr, some f⟩)) s =
            some ⟨snd2.data, fnd.prevPtr, some f⟩ :=
          hget_hset_self_of_live hgEs _
        have hgFf : hget (hset (hset (hset (hset h s
            (some ⟨snd2.data, fnd.prevPtr, snd2.nextPtr⟩)) f
            (some ⟨fnd.data, fnd.prevPtr, snd2.nextPtr⟩)) f
            (some ⟨fnd.data, some s, snd2.nextPtr⟩)) s
            (some ⟨snd2.data, fnd.prevPtr, some f⟩)) f =
            some ⟨fnd.data, some s, snd2.nextPtr⟩ := by
          rw [hget_hset_ne _ hfs]
          exact hget_hset_self_of_live hgBf _
        refine ⟨?_, rfl, by simp, by rw [hrep.count]; simp,
          by simp [Ne.symm hfs]⟩
        refine chainSeg_cons.mpr ⟨_, hgFs, by rw [hpf]; rfl, rfl, ?_⟩
        refine chainSeg_cons.mpr ⟨_, hgFf, rfl, by simpa using hns, ?_⟩
        exact chainSeg_nil _ _ _
      · intro a
        rw [dataAt_hset_keep ⟨snd2.data, fnd.prevPtr, some f⟩ hgEs rfl a,
          dataAt_hset_keep ⟨fnd.data, some s, snd2.nextPtr⟩ hgBf rfl a,
          dataAt_hset_keep ⟨fnd.data, fnd.prevPtr, snd2.nextPtr⟩ hgAf rfl a,
          dataAt_hset_keep ⟨snd2.data, fnd.prevPtr, snd2.nextPtr⟩ hgs rfl a]
      · simp only [length_hset]
    | cons y0 ys1 =>
      subst hxs0
      subst hys0
      rw [headO_cons] at hns
      obtain ⟨ynd, hgy0, hpy0, hny0, hcys1⟩ := chainSeg_cons.mp hcys
      have hfirst : hdr.firstPtr = some f := by simpa using hrep.first
      have hsy0 : s ≠ y0 := fun hc => hsys (by rw [hc]; exact List.mem_cons_self _ _)
      have hfy0 : f ≠ y0 := fun hc => hfys (by rw [hc]; exact List.mem_cons_self _ _)
      have hy0ys1 : y0 ∉ ys1 :=
        (List.nodup_cons.mp
          (hrep.nodup.of_append_right.of_cons.of_cons)).1
      have hsys1 : s ∉ ys1 := fun hc => hsys (List.mem_cons_of_mem _ hc)
      have hfys1 : f ∉ ys1 := fun hc => hfys (List.mem_cons_of_mem _ hc)
      have hlastne : hdr.lastPtr ≠ some s := by
        rw [hrep.last]
        simp only [List.nil_append, List.getLast?_cons_cons]
        intro hc
        obtain ⟨hne2, heq⟩ := List.mem_getLast?_eq_getLast (by rw [hc]; rfl)
        exact hsys (heq ▸ List.getLast_mem hne2)
      have hgAs2 : hget (hset h s (some ⟨snd2.data, fnd.prevPtr, some y0⟩)) s =
          some ⟨snd2.data, fnd.prevPtr, some y0⟩ := hget_hset_self_of_live hgs _
      have hgAf2 : hget (hset h s (some ⟨snd2.data, fnd.prevPtr, some y0⟩)) f =
          some fnd := by
        rw [hget_hset_ne _ hfs]
        exact hgf
      have hgBs : hget (hset (hset h s (some ⟨snd2.data, fnd.prevPtr, some y0⟩)) f
          (some ⟨fnd.data, fnd.prevPtr, some y0⟩)) s =
          some ⟨snd2.data, fnd.prevPtr, some y0⟩ := by
        rw [hget_hset_ne _ (Ne.symm hfs)]
        exact hget_hset_self_of_live hgs _
      have hgBy0 : hget (hset (hset h s (some ⟨snd2.data, fnd.prevPtr, some y0⟩)) f
          (some ⟨fnd.data, fnd.prevPtr, some y0⟩)) y0 = some ynd := by
        rw [hget_hset_ne _ (Ne.symm hfy0), hget_hset_ne _ (Ne.symm hsy0)]
        exact hgy0
      have hgCf : hget (hset (hset (hset h s
          (some ⟨snd2.data, fnd.prevPtr, some y0⟩)) f
          (some ⟨fnd.data, fnd.prevPtr, some y0⟩)) y0
          (some ⟨ynd.data, some f, ynd.nextPtr⟩)) f =
          some ⟨fnd.data, fnd.prevPtr, some y0⟩ := by
        rw [hget_hset_ne _ hfy0]
        exact hget_hset_self_of_live hgAf2 _
      have hgDs : hget (hset (hset (hset (hset h s
          (some ⟨snd2.data, fnd.prevPtr, some y0⟩)) f
          (some ⟨fnd.data, fnd.prevPtr, some y0⟩)) y0
          (some ⟨ynd.data, some f, ynd.nextPtr⟩)) f
          (some ⟨fnd.data, some s, some y0⟩)) s =
          some ⟨snd2.data, fnd.prevPtr, some y0⟩ := by
        rw [hget_hset_ne _ (Ne.symm hfs), hget_hset_ne _ hsy0]
        exact hgBs
      refine ⟨hset (hset (hset (hset (hset h s
          (some ⟨snd2.data, fnd.prevPtr, some y0⟩)) f
          (some ⟨fnd.data, fnd.prevPtr, some y0⟩)) y0
          (some ⟨ynd.data, some f, ynd.nextPtr⟩)) f
          (some ⟨fnd.data, some s, some y0⟩)) s
          (some ⟨snd2.data, fnd.prevPtr, some f⟩),
        ⟨some s, hdr.lastPtr, hdr.numberOfNodes⟩, ?_, ?_, ?_, ?_⟩
      · simp only [SwapSuccessiveNodes,
          readPtr_some hgf, readPtr_some hgs, ebind_ok, epure_ok,
          if_neg (not_not_intro (⟨hnf, hps⟩ :
            fnd.nextPtr = some s ∧ snd2.prevPtr = some f)),
          hns, writePrev_some hgs, readPtr_some hgAs2, writeNext_some hgAf2,
          hfirst, if_pos hlastne,
          readPtr_some hgBs, writePrev_some hgBy0, readPtr_some hgCf,
          writePrev_some hgCf, readPtr_some hgDs, writeNext_some hgDs,
          ne_eq, eq_self_iff_true, not_true, if_false, if_true]
      · have hgFs : hget (hset (hset (hset (hset (hset h s
            (some ⟨snd2.data, fnd.prevPtr, some y0⟩)) f
            (some ⟨fnd.data, fnd.prevPtr, some y0⟩)) y0
            (some ⟨ynd.data, some f, ynd.nextPtr⟩)) f
            (some ⟨fnd.data, some s, some y0⟩)) s
            (some ⟨snd2.data, fnd.prevPtr, some f⟩)) s =
            some ⟨snd2.data, fnd.prevPtr, some f⟩ :=
          hget_hset_self_of_live hgDs _
        have hgFf : hget (hset (hset (hset (hset (hset h s
            (some ⟨snd2.data, fnd.prevPtr, some y0⟩)) f
            (some ⟨fnd.data, fnd.prevPtr, some y0⟩)) y0
            (some ⟨ynd.data, some f, ynd.nextPtr⟩)) f
            (some ⟨fnd.data, some s, some y0⟩)) s
            (some ⟨snd2.data, fnd.prevPtr, some f⟩)) f =
            some ⟨fnd.data, some s, some y0⟩ := by
          rw [hget_hset_ne _ hfs]
          exact hget_hset_self_of_live hgCf _
        have hgFy0 : hget (hset (hset (hset (hset (hset h s
            (some ⟨snd2.data, fnd.prevPtr, some y0⟩)) f
            (some ⟨fnd.data, fnd.prevPtr, some y0⟩)) y0
            (some ⟨ynd.data, some f, ynd.nextPtr⟩)) f
            (some ⟨fnd.data, some s, some y0⟩)) s
            (some ⟨snd2.data, fnd.prevPtr, some f⟩)) y0 =
            some ⟨ynd.data, some f, ynd.nextPtr⟩ := by
          rw [hget_hset_ne _ (Ne.symm hsy0), hget_hset_ne _ (Ne.symm hfy0)]
          exact hget_hset_self_of_live hgBy0 _
        refine ⟨?_, rfl, by simpa [List.getLast?_cons_cons] using hrep.last,
          by rw [hrep.count]; simp,
          (List.Perm.swap s f (y0 :: ys1)).nodup_iff.mp (by simpa using hrep.nodup)⟩
        refine chainSeg_cons.mpr ⟨_, hgFs, by rw [hpf]; rfl, rfl, ?_⟩
        refine chainSeg_cons.mpr ⟨_, hgFf, rfl, rfl, ?_⟩
        refine chainSeg_cons.mpr ⟨_, hgFy0, rfl, hny0, ?_⟩
        have hagree : ∀ c ∈ ys1,
            hget (hset (hset (hset (hset (hset h s
              (some ⟨snd2.data, fnd.prevPtr, some y0⟩)) f
              (some ⟨fnd.data, fnd.prevPtr, some y0⟩)) y0
              (some ⟨ynd.data, some f, ynd.nextPtr⟩)) f
              (some ⟨fnd.data, some s, some y0⟩)) s
              (some ⟨snd2.data, fnd.prevPtr, some f⟩)) c = hget h c := by
          intro c hc
          have h1 : c ≠ s := fun hcc => hsys1 (hcc ▸ hc)
          have h2 : c ≠ f := fun hcc => hfys1 (hcc ▸ hc)
          have h3 : c ≠ y0 := fun hcc => hy0ys1 (hcc ▸ hc)
          rw [hget_hset_ne _ h1, hget_hset_ne _ h2, hget_hset_ne _ h3,
            hget_hset_ne _ h2, hget_hset_ne _ h1]
        rw [chainSeg_congr hagree]
        exact hcys1
      · intro a
        rw [dataAt_hset_keep ⟨snd2.data, fnd.prevPtr, some f⟩ hgDs rfl a,
          dataAt_hset_keep ⟨fnd.data, some s, some y0⟩ hgCf rfl a,
          dataAt_hset_keep ⟨ynd.data, some f, ynd.nextPtr⟩ hgBy0 rfl a,
          dataAt_hset_keep ⟨fnd.data, fnd.prevPtr, some y0⟩ hgAf2 rfl a,
          dataAt_hset_keep ⟨snd2.data, fnd.prevPtr, some y0⟩ hgs rfl a]
      · simp only [length_hset]
  | cons x0 xs1 =>
    subst hxs0
    obtain ⟨xs2, lx, hxs2⟩ :=
      (List.eq_nil_or_concat (x0 :: xs1)).resolve_left (by simp)
    rw [List.concat_eq_append] at hxs2
    have hpf2 : fnd.prevPtr = some lx := by
      rw [hpf, hxs2]
      exact lastO_concat xs2 lx none
    have hcxs2 := hcxs
    rw [hxs2, chainSeg_append] at hcxs2
    simp only [Bool.and_eq_true] at hcxs2
    obtain ⟨hcxs2a, hclxseg⟩ := hcxs2
    rw [headO_cons] at hcxs2a
    obtain ⟨lxnd, hglx, hplx, hnlx2, _⟩ := chainSeg_cons.mp hclxseg
    have hlxmem : lx ∈ x0 :: xs1 := by
      rw [hxs2]
      exact List.mem_append_right _ (by simp)
    have hflx : f ≠ lx := fun hc => hfxs (hc ▸ hlxmem)
    have hslx : s ≠ lx := fun hc => hsxs (hc ▸ hlxmem)
    have hlxxs2 : lx ∉ xs2 := by
      have hnd := hrep.nodup.of_append_left
      rw [hxs2] at hnd
      exact fun hc => (List.nodup_append.mp hnd).2.2 hc (by simp)
    have hfirstx : hdr.firstPtr = some x0 := by
      rw [hrep.first]
      rfl
    have hfirstne : hdr.firstPtr ≠ some f := by
      rw [hfirstx]
      simp only [ne_eq, Option.some.injEq]
      intro hc
      exact hfxs (by rw [← hc]; exact List.mem_cons_self _ _)
    have hgAs3 : hget (hset h s (some ⟨snd2.data, some lx, snd2.nextPtr⟩)) s =
        some ⟨snd2.data, some lx, snd2.nextPtr⟩ := hget_hset_self_of_live hgs _
    have hgAf3 : hget (hset h s (some ⟨snd2.data, some lx, snd2.nextPtr⟩)) f =
        some fnd := by
      rw [hget_hset_ne _ hfs]
      exact hgf
    have hgBf3 : hget (hset (hset h s (some ⟨snd2.data, some lx, snd2.nextPtr⟩))
        f (some ⟨fnd.data, some lx, snd2.nextPtr⟩)) f =
        some ⟨fnd.data, some lx, snd2.nextPtr⟩ := hget_hset_self_of_live hgAf3 _
    have hgBlx : hget (hset (hset h s (some ⟨snd2.data, some lx, snd2.nextPtr⟩))
        f (some ⟨fnd.data, some lx, snd2.nextPtr⟩)) lx = some lxnd := by
      rw [hget_hset_ne _ (Ne.symm hflx), hget_hset_ne _ (Ne.symm hslx)]
      exact hglx
    have hgBs3 : hget (hset (hset h s (some ⟨snd2.data, some lx, snd2.nextPtr⟩))
        f (some ⟨fnd.data, some lx, snd2.nextPtr⟩)) s =
        some ⟨snd2.data, some lx, snd2.nextPtr⟩ := by
      rw [hget_hset_ne _ (Ne.symm hfs)]
      exact hgAs3
    cases hys0 : ys with
    | nil =>
      subst hys0
      have hlast : hdr.lastPtr = some s := by
        rw [hrep.last, List.getLast?_append_cons]
        rfl
      have hgCf3 : hget (hset (hset (hset h s
          (some ⟨snd2.data, some lx, snd2.nextPtr⟩)) f
          (some ⟨fnd.data, some lx, snd2.nextPtr⟩)) lx
          (some ⟨lxnd.data, lxnd.prevPtr, some s⟩)) f =
          some ⟨fnd.data, some lx, snd2.nextPtr⟩ := by
        rw [hget_hset_ne _ hflx]
        exact hgBf3
      have hgDs3 : hget (hset (hset (hset (hset h s
          (some ⟨snd2.data, some lx, snd2.nextPtr⟩)) f
          (some ⟨fnd.data, some lx, snd2.nextPtr⟩)) lx
          (some ⟨lxnd.data, lxnd.prevPtr, some s⟩)) f
          (some ⟨fnd.data, some s, snd2.nextPtr⟩)) s =
          some ⟨snd2.data, some lx, snd2.nextPtr⟩ := by
        rw [hget_hset_ne _ (Ne.symm hfs), hget_hset_ne _ hslx]
        exact hgBs3
      refine ⟨hset (hset (hset (hset (hset h s
          (some ⟨snd2.data, some lx, snd2.nextPtr⟩)) f
          (some ⟨fnd.data, some lx, snd2.nextPtr⟩)) lx
          (some ⟨lxnd.data, lxnd.prevPtr, some s⟩)) f
          (some ⟨fnd.data, some s, snd2.nextPtr⟩)) s
          (some ⟨snd2.data, some lx, some f⟩),
        ⟨hdr.firstPtr, some f, hdr.numberOfNodes⟩, ?_, ?_, ?_, ?_⟩
      · simp only [SwapSuccessiveNodes,
          readPtr_some hgf, readPtr_some hgs, ebind_ok, epure_ok,
          if_neg (not_not_intro (⟨hnf, hps⟩ :
            fnd.nextPtr = some s ∧ snd2.prevPtr = some f)),
          hpf2, writePrev_some hgs, readPtr_some hgAs3, writeNext_some hgAf3,
          if_pos hfirstne, readPtr_some hgBf3, writeNext_some hgBlx,
          hlast, readPtr_some hgCf3, writePrev_some hgCf3,
          readPtr_some hgDs3, writeNext_some hgDs3,
          ne_eq, eq_self_iff_true, not_true, if_false, if_true]
      · have hgEs : hget (hset (hset (hset (hset (hset h s
            (some ⟨snd2.data, some lx, snd2.nextPtr⟩)) f
            (some ⟨fnd.data, some lx, snd2.nextPtr⟩)) lx
            (some ⟨lxnd.data, lxnd.prevPtr, some s⟩)) f
            (some ⟨fnd.data, some s, snd2.nextPtr⟩)) s
            (some ⟨snd2.data, some lx, some f⟩)) s =
            some ⟨snd2.data, some lx, some f⟩ := hget_hset_self_of_live hgDs3 _
        have hgEf : hget (hset (hset (hset (hset (hset h s
            (some ⟨snd2.data, some lx, snd2.nextPtr⟩)) f
            (some ⟨fnd.data, some lx, snd2.nextPtr⟩)) lx
            (some ⟨lxnd.data, lxnd.prevPtr, some s⟩)) f
            (some ⟨fnd.data, some s, snd2.nextPtr⟩)) s
            (some ⟨snd2.data, some lx, some f⟩)) f =
            some ⟨fnd.data, some s, snd2.nextPtr⟩ := by
          rw [hget_hset_ne _ hfs]
          exact hget_hset_self_of_live hgCf3 _
        have hgElx : hget (hset (hset (hset (hset (hset h s
            (some ⟨snd2.data, some lx, snd2.nextPtr⟩)) f
            (some ⟨fnd.data, some lx, snd2.nextPtr⟩)) lx
            (some ⟨lxnd.data, lxnd.prevPtr, some s⟩)) f
            (some ⟨fnd.data, some s, snd2.nextPtr⟩)) s
            (some ⟨snd2.data, some lx, some f⟩)) lx =
            some ⟨lxnd.data, lxnd.prevPtr, some s⟩ := by
          rw [hget_hset_ne _ (Ne.symm hslx), hget_hset_ne _ (Ne.symm hflx)]
          exact hget_hset_self_of_live hgBlx _
        have hagree2 : ∀ c ∈ xs2,
            hget (hset (hset (hset (hset (hset h s
              (some ⟨snd2.data, some lx, snd2.nextPtr⟩)) f
              (some ⟨fnd.data, some lx, snd2.nextPtr⟩)) lx
              (some ⟨lxnd.data, lxnd.prevPtr, some s⟩)) f
              (some ⟨fnd.data, some s, snd2.nextPtr⟩)) s
              (some ⟨snd2.data, some lx, some f⟩)) c = hget h c := by
          intro c hc
          have hcx : c ∈ x0 :: xs1 := by
            rw [hxs2]
            exact List.mem_append_left _ hc
          have h1 : c ≠ s := fun hcc => hsxs (hcc ▸ hcx)
          have h2 : c ≠ f := fun hcc => hfxs (hcc ▸ hcx)
          have h3 : c ≠ lx := fun hcc => hlxxs2 (hcc ▸ hc)
          rw [hget_hset_ne _ h1, hget_hset_ne _ h2, hget_hset_ne _ h3,
            hget_hset_ne _ h2, hget_hset_ne _ h1]
        refine ⟨?_, by rw [hfirstx]; rfl, by rw [List.getLast?_append_cons]; rfl,
          by rw [hrep.count]; simp,
          (List.Perm.append_left (x0 :: xs1) (List.Perm.swap s f [])).nodup_iff.mp
            hrep.nodup⟩
        rw [chainSeg_append]
        simp only [Bool.and_eq_true]
        constructor
        · rw [headO_cons, hxs2, chainSeg_append]
          simp only [Bool.and_eq_true]
          constructor
          · rw [headO_cons, chainSeg_congr hagree2]
            exact hcxs2a
          · exact chainSeg_single.mpr ⟨_, hgElx, hplx, rfl⟩
        · rw [hxs2, lastO_concat]
          refine chainSeg_cons.mpr ⟨_, hgEs, rfl, rfl, ?_⟩
          refine chainSeg_cons.mpr ⟨_, hgEf, rfl, hns, ?_⟩
          exact chainSeg_nil _ _ _
      · intro a
        rw [dataAt_hset_keep ⟨snd2.data, some lx, some f⟩ hgDs3 rfl a,
          dataAt_hset_keep ⟨fnd.data, some s, snd2.nextPtr⟩ hgCf3 rfl a,
          dataAt_hset_keep ⟨lxnd.data, lxnd.prevPtr, some s⟩ hgBlx rfl a,
          dataAt_hset_keep ⟨fnd.data, some lx, snd2.nextPtr⟩ hgAf3 rfl a,
          dataAt_hset_keep ⟨snd2.data, some lx, snd2.nextPtr⟩ hgs rfl a]
      · simp only [length_hset]
    | cons y0 ys1 =>
      subst hys0
      rw [headO_cons] at hns
      obtain ⟨ynd, hgy0, hpy0, hny0, hcys1⟩ := chainSeg_cons.mp hcys
      have hsy0 : s ≠ y0 := fun hc => hsys (by rw [hc]; exact List.mem_cons_self _ _)
      have hfy0 : f ≠ y0 := fun hc => hfys (by rw [hc]; exact List.mem_cons_self _ _)
      have hy0ys1 : y0 ∉ ys1 :=
        (List.nodup_cons.mp
          (hrep.nodup.of_append_right.of_cons.of_cons)).1
      have hsys1 : s ∉ ys1 := fun hc => hsys (List.mem_cons_of_mem _ hc)
      have hfys1 : f ∉ ys1 := fun hc => hfys (List.mem_cons_of_mem _ hc)
      have hlxy0 : lx ≠ y0 := fun hc => by
        refine hxsdisj lx hlxmem ?_
        rw [hc]
        exact List.mem_cons_of_mem _ (List.mem_cons_self _ _)
      have hlxys1 : lx ∉ ys1 := fun hc =>
        hxsdisj lx hlxmem (List.mem_cons_of_mem _ (List.mem_cons_of_mem _ hc))
      have hlastne : hdr.lastPtr ≠ some s := by
        rw [hrep.last, List.getLast?_append_cons, List.getLast?_cons_cons,
          List.getLast?_cons_cons]
        intro hc
        obtain ⟨hne2, heq⟩ := List.mem_getLast?_eq_getLast (by rw [hc]; rfl)
        exact hsys (heq ▸ List.getLast_mem hne2)
      have hgAs4 : hget (hset h s (some ⟨snd2.data, some lx, some y0⟩)) s =
          some ⟨snd2.data, some lx, some y0⟩ := hget_hset_self_of_live hgs _
      have hgAf4 : hget (hset h s (some ⟨snd2.data, some lx, some y0⟩)) f =
          some fnd := by
        rw [hget_hset_ne _ hfs]
        exact hgf
      have hgBf4 : hget (hset (hset h s (some ⟨snd2.data, some lx, some y0⟩))
          f (some ⟨fnd.data, some lx, some y0⟩)) f =
          some ⟨fnd.data, some lx, some y0⟩ := hget_hset_self_of_live hgAf4 _
      have hgBlx4 : hget (hset (hset h s (some ⟨snd2.data, some lx, some y0⟩))
          f (some ⟨fnd.data, some lx, some y0⟩)) lx = some lxnd := by
        rw [hget_hset_ne _ (Ne.symm hflx), hget_hset_ne _ (Ne.symm hslx)]
        exact hglx
      have hgBs4 : hget (hset (hset h s (some ⟨snd2.data, some lx, some y0⟩))
          f (some ⟨fnd.data, some lx, some y0⟩)) s =
          some ⟨snd2.data, some lx, some y0⟩ := by
        rw [hget_hset_ne _ (Ne.symm hfs)]
        exact hgAs4
      have hgCs4 : hget (hset (hset (hset h s
          (some ⟨snd2.data, some lx, some y0⟩)) f
          (some ⟨fnd.data, some lx, some y0⟩)) lx
          (some ⟨lxnd.data, lxnd.prevPtr, some s⟩)) s =
          some ⟨snd2.data, some lx, some y0⟩ := by
        rw [hget_hset_ne _ hslx]
        exact hgBs4
      have hgCy0 : hget (hset (hset (hset h s
          (some ⟨snd2.data, some lx, some y0⟩)) f
          (some ⟨fnd.data, some lx, some y0⟩)) lx
          (some ⟨lxnd.data, lxnd.prevPtr, some s⟩)) y0 = some ynd := by
        rw [hget_hset_ne _ (Ne.symm hlxy0), hget_hset_ne _ (Ne.symm hfy0),
          hget_hset_ne _ (Ne.symm hsy0)]
        exact hgy0
      have hgDf4 : hget (hset (hset (hset (hset h s
          (some ⟨snd2.data, some lx, some y0⟩)) f
          (some ⟨fnd.data, some lx, some y0⟩)) lx
          (some ⟨lxnd.data, lxnd.prevPtr, some s⟩)) y0
          (some ⟨ynd.data, some f, ynd.nextPtr⟩)) f =
          some ⟨fnd.data, some lx, some y0⟩ := by
        rw [hget_hset_ne _ hfy0, hget_hset_ne _ hflx]
        exact hgBf4
      have hgE1s : hget (hset (hset (hset (hset (hset h s
          (some ⟨snd2.data, some lx, some y0⟩)) f
          (some ⟨fnd.data, some lx, some y0⟩)) lx
          (some ⟨lxnd.data, lxnd.prevPtr, some s⟩)) y0
          (some ⟨ynd.data, some f, ynd.nextPtr⟩)) f
          (some ⟨fnd.data, some s, some y0⟩)) s =
          some ⟨snd2.data, some lx, some y0⟩ := by
        rw [hget_hset_ne _ (Ne.symm hfs), hget_hset_ne _ hsy0]
        exact hgCs4
      refine ⟨hset (hset (hset (hset (hset (hset h s
          (some ⟨snd2.data, some lx, some y0⟩)) f
          (some ⟨fnd.data, some lx, some y0⟩)) lx
          (some ⟨lxnd.data, lxnd.prevPtr, some s⟩)) y0
          (some ⟨ynd.data, some f, ynd.nextPtr⟩)) f
          (some ⟨fnd.data, some s, some y0⟩)) s
          (some ⟨snd2.data, some lx, some f⟩),
        hdr, ?_, ?_, ?_, ?_⟩
      · simp only [SwapSuccessiveNodes,
          readPtr_some hgf, readPtr_some hgs, ebind_ok, epure_ok,
          if_neg (not_not_intro (⟨hnf, hps⟩ :
            fnd.nextPtr = some s ∧ snd2.prevPtr = some f)),
          hpf2, hns, writePrev_some hgs, readPtr_some hgAs4,
          writeNext_some hgAf4, if_pos hfirstne, readPtr_some hgBf4,
          writeNext_some hgBlx4, if_pos hlastne, readPtr_some hgCs4,
          writePrev_some hgCy0, readPtr_some hgDf4, writePrev_some hgDf4,
          readPtr_some hgE1s, writeNext_some hgE1s,
          ne_eq, eq_self_iff_true, not_true, if_false, if_true]
      · have hgEs : hget (hset (hset (hset (hset (hset (hset h s
            (some ⟨snd2.data, some lx, some y0⟩)) f
            (some ⟨fnd.data, some lx, some y0⟩)) lx
            (some ⟨lxnd.data, lxnd.prevPtr, some s⟩)) y0
            (some ⟨ynd.data, some f, ynd.nextPtr⟩)) f
            (some ⟨fnd.data, some s, some y0⟩)) s
            (some ⟨snd2.data, some lx, some f⟩)) s =
            some ⟨snd2.data, some lx, some f⟩ := hget_hset_self_of_live hgE1s _
        have hgEf : hget (hset (hset (hset (hset (hset (hset h s
            (some ⟨snd2.data, some lx, some y0⟩)) f
            (some ⟨fnd.data, some lx, some y0⟩)) lx
            (some ⟨lxnd.data, lxnd.prevPtr, some s⟩)) y0
            (some ⟨ynd.data, some f, ynd.nextPtr⟩)) f
            (some ⟨fnd.data, some s, some y0⟩)) s
            (some ⟨snd2.data, some lx, some f⟩)) f =
            some ⟨fnd.data, some s, some y0⟩ := by
          rw [hget_hset_ne _ hfs]
          exact hget_hset_self_of_live hgDf4 _
        have hgElx : hget (hset (hset (hset (hset (hset (hset h s
            (some ⟨snd2.data, some lx, some y0⟩)) f
            (some ⟨fnd.data, some lx, some y0⟩)) lx
            (some ⟨lxnd.data, lxnd.prevPtr, some s⟩)) y0
            (some ⟨ynd.data, some f, ynd.nextPtr⟩)) f
            (some ⟨fnd.data, some s, some y0⟩)) s
            (some ⟨snd2.data, some lx, some f⟩)) lx =
            some ⟨lxnd.data, lxnd.prevPtr, some s⟩ := by
          rw [hget_hset_ne _ (Ne.symm hslx), hget_hset_ne _ (Ne.symm hflx),
            hget_hset_ne _ hlxy0]
          exact hget_hset_self_of_live hgBlx4 _
        have hgEy0 : hget (hset (hset (hset (hset (hset (hset h s
            (some ⟨snd2.data, some lx, some y0⟩)) f
            (some ⟨fnd.data, some lx, some y0⟩)) lx
            (some ⟨lxnd.data, lxnd.prevPtr, some s⟩)) y0
            (some ⟨ynd.data, some f, ynd.nextPtr⟩)) f
            (some ⟨fnd.data, some s, some y0⟩)) s
            (some ⟨snd2.data, some lx, some f⟩)) y0 =
            some ⟨ynd.data, some f, ynd.nextPtr⟩ := by
          rw [hget_hset_ne _ (Ne.symm hsy0), hget_hset_ne _ (Ne.symm hfy0)]
          exact hget_hset_self_of_live hgCy0 _
        have hagree2 : ∀ c ∈ xs2,
            hget (hset (hset (hset (hset (hset (hset h s
              (some ⟨snd2.data, some lx, some y0⟩)) f
              (some ⟨fnd.data, some lx, some y0⟩)) lx
              (some ⟨lxnd.data, lxnd.prevPtr, some s⟩)) y0
              (some ⟨ynd.data, some f, ynd.nextPtr⟩)) f
              (some ⟨fnd.data, some s, some y0⟩)) s
              (some ⟨snd2.data, some lx, some f⟩)) c = hget h c := by
          intro c hc
          have hcx : c ∈ x0 :: xs1 := by
            rw [hxs2]
            exact List.mem_append_left _ hc
          have h1 : c ≠ s := fun hcc => hsxs (hcc ▸ hcx)
          have h2 : c ≠ f := fun hcc => hfxs (hcc ▸ hcx)
          have h3 : c ≠ lx := fun hcc => hlxxs2 (hcc ▸ hc)
          have h4 : c ≠ y0 := fun hcc => by
            refine hxsdisj c hcx ?_
            rw [hcc]
            exact List.mem_cons_of_mem _ (List.mem_cons_self _ _)
          rw [hget_hset_ne _ h1, hget_hset_ne _ h2, hget_hset_ne _ h4,
            hget_hset_ne _ h3, hget_hset_ne _ h2, hget_hset_ne _ h1]
        have hagree3 : ∀ c ∈ ys1,
            hget (hset (hset (hset (hset (hset (hset h s
              (some ⟨snd2.data, some lx, some y0⟩)) f
              (some ⟨fnd.data, some lx, some y0⟩)) lx
              (some ⟨lxnd.data, lxnd.prevPtr, some s⟩)) y0
              (some ⟨ynd.data, some f, ynd.nextPtr⟩)) f
              (some ⟨fnd.data, some s, some y0⟩)) s
              (some ⟨snd2.data, some lx, some f⟩)) c = hget h c := by
          intro c hc
          have h1 : c ≠ s := fun hcc => hsys1 (hcc ▸ hc)
          have h2 : c ≠ f := fun hcc => hfys1 (hcc ▸ hc)
          have h3 : c ≠ lx := fun hcc => hlxys1 (hcc ▸ hc)
          have h4 : c ≠ y0 := fun hcc => hy0ys1 (hcc ▸ hc)
          rw [hget_hset_ne _ h1, hget_hset_ne _ h2, hget_hset_ne _ h4,
            hget_hset_ne _ h3, hget_hset_ne _ h2, hget_hset_ne _ h1]
        refine ⟨?_, by rw [hfirstx]; rfl,
          by
            rw [hrep.last, List.getLast?_append_cons, List.getLast?_cons_cons,
              List.getLast?_cons_cons, List.getLast?_append_cons,
              List.getLast?_cons_cons, List.getLast?_cons_cons],
          by rw [hrep.count]; simp,
          (List.Perm.append_left (x0 :: xs1)
            (List.Perm.swap s f (y0 :: ys1))).nodup_iff.mp hrep.nodup⟩
        rw [chainSeg_append]
        simp only [Bool.and_eq_true]
        constructor
        · rw [headO_cons, hxs2, chainSeg_append]
          simp only [Bool.and_eq_true]
          constructor
          · rw [headO_cons, chainSeg_congr hagree2]
            exact hcxs2a
          · exact chainSeg_single.mpr ⟨_, hgElx, hplx, rfl⟩
        · rw [hxs2, lastO_concat]
          refine chainSeg_cons.mpr ⟨_, hgEs, rfl, rfl, ?_⟩
          refine chainSeg_cons.mpr ⟨_, hgEf, rfl, rfl, ?_⟩
          refine chainSeg_cons.mpr ⟨_, hgEy0, rfl, hny0, ?_⟩
          rw [chainSeg_congr hagree3]
          exact hcys1
      · intro a
        rw [dataAt_hset_keep ⟨snd2.data, some lx, some f⟩ hgE1s rfl a,
          dataAt_hset_keep ⟨fnd.data, some s, some y0⟩ hgDf4 rfl a,
          dataAt_hset_keep ⟨ynd.data, some f, ynd.nextPtr⟩ hgCy0 rfl a,
          dataAt_hset_keep ⟨lxnd.data, lxnd.prevPtr, some s⟩ hgBlx4 rfl a,
          dataAt_hset_keep ⟨fnd.data, some lx, some y0⟩ hgAf4 rfl a,
          dataAt_hset_keep ⟨snd2.data, some lx, some y0⟩ hgs rfl a]
      · simp only [length_hset]


theorem headO_of_head? {l : List Nat} {x : Nat} (hx : l.head? = some x)
    (q : Option Nat) : headO l q = some x := by
  cases l with
  | nil => simp at hx
  | cons c t =>
    rw [List.head?_cons] at hx
    exact hx

theorem lastO_of_getLast? {l : List Nat} {x : Nat} (hx : l.getLast? = some x)
    (p : Option Nat) : lastO l p = some x := by
  simp only [lastO, hx]

theorem getLast?_cons_eq_lastO (b : Nat) (ys : List Nat) :
    (b :: ys).getLast? = lastO ys (some b) := by
  cases ys with
  | nil => rfl
  | cons y t =>
    simp only [List.getLast?_cons_cons, lastO]
    cases h2 : (y :: t).getLast? with
    | none => simp at h2
    | some z => rfl

theorem chainSeg_last_next {T : Type} {h : HeapT T} :
    ∀ (seg : List Nat) (p q : Option Nat) (c : Nat) (nd : ListNode T),
      seg.getLast? = some c → chainSeg h p seg q = true →
      hget h c = some nd → nd.nextPtr = q := by
  intro seg
  induction seg with
  | nil =>
    intro p q c nd hlast
    simp at hlast
  | cons d rest ih =>
    intro p q c nd hlast hch hg
    obtain ⟨dnd, hgd, _, hnextd, hch2⟩ := chainSeg_cons.mp hch
    cases hr : rest with
    | nil =>
      subst hr
      have hdc : d = c := by simpa using hlast
      subst hdc
      rw [hg] at hgd
      have hnd : nd = dnd := Option.some.inj hgd
      subst hnd
      exact hnextd
    | cons e rest2 =>
      subst hr
      rw [List.getLast?_cons_cons] at hlast
      exact ih (some d) q c nd hlast hch2 hg

/-- Generic representation lemma for SwapNonSuccessiveNodes: if the final
heap relates to the initial one by exactly the pointer surgeries the code
performs (a and b swapped around the middle segment ms), the swapped chain
is again represented. -/
theorem swapNS_rep {T : Type} {h h' : HeapT T} {hdr hdr' : ListHdr}
    {xs ms ys : List Nat} {a b m0 lm : Nat}
    (hrep : Rep h hdr (xs ++ b :: (ms ++ a :: ys)))
    (hm0 : ms.head? = some m0) (hlm : ms.getLast? = some lm)
    (hga' : ∃ nda : ListNode T, hget h' a = some nda ∧
      nda.prevPtr = lastO xs none ∧ nda.nextPtr = some m0)
    (hgb' : ∃ ndb : ListNode T, hget h' b = some ndb ∧
      ndb.prevPtr = some lm ∧ ndb.nextPtr = headO ys none)
    (hxsC : ∀ c ∈ xs, ∃ nd nd', hget h c = some nd ∧ hget h' c = some nd' ∧
      nd'.prevPtr = nd.prevPtr ∧
      nd'.nextPtr = (if xs.getLast? = some c then some a else nd.nextPtr))
    (hmsC : ∀ c ∈ ms, ∃ nd nd', hget h c = some nd ∧ hget h' c = some nd' ∧
      nd'.prevPtr = (if ms.head? = some c then some a else nd.prevPtr) ∧
      nd'.nextPtr = (if ms.getLast? = some c then some b else nd.nextPtr))
    (hysC : ∀ c ∈ ys, ∃ nd nd', hget h c = some nd ∧ hget h' c = some nd' ∧
      nd'.prevPtr = (if ys.head? = some c then some b else nd.prevPtr) ∧
      nd'.nextPtr = nd.nextPtr)
    (hfst : hdr'.firstPtr = headO xs (some a))
    (hlst : hdr'.lastPtr = lastO ys (some b))
    (hcnt : hdr'.numberOfNodes = hdr.numberOfNodes) :
    Rep h' hdr' (xs ++ a :: (ms ++ b :: ys)) := by
  have hch := hrep.chain
  rw [chainSeg_append] at hch
  simp only [Bool.and_eq_true] at hch
  obtain ⟨hcxs, hcrest⟩ := hch
  rw [headO_cons] at hcxs
  obtain ⟨bnd, hgb, hpb, hnb, hcrest2⟩ := chainSeg_cons.mp hcrest
  rw [chainSeg_append] at hcrest2
  simp only [Bool.and_eq_true] at hcrest2
  obtain ⟨hcms, hctail⟩ := hcrest2
  rw [headO_cons] at hcms
  rw [lastO_of_getLast? hlm (some b)] at hctail
  obtain ⟨and2, hga, hpa, hna, hcys⟩ := chainSeg_cons.mp hctail
  have hndxs := hrep.nodup.of_append_left
  have hndrest := hrep.nodup.of_append_right.of_cons
  have hndms := hndrest.of_append_left
  have hndys := hndrest.of_append_right.of_cons
  refine ⟨?_, ?_, ?_, ?_, ?_⟩
  · rw [chainSeg_append]
    simp only [Bool.and_eq_true]
    constructor
    · rw [headO_cons]
      refine chainSeg_relink hcxs hndxs ?_
      intro c hc
      obtain ⟨nd, nd', hgc, hgc', hp', hn'⟩ := hxsC c hc
      refine ⟨nd, nd', hgc, hgc', ?_, hn'⟩
      by_cases hhd : xs.head? = some c
      · rw [if_pos hhd, hp']
        cases hxs0 : xs with
        | nil =>
          subst hxs0
          simp at hhd
        | cons x0 xs1 =>
          subst hxs0
          rw [List.head?_cons, Option.some.injEq] at hhd
          subst hhd
          obtain ⟨x0nd, hgx0, hpx0, _, _⟩ := chainSeg_cons.mp hcxs
          rw [hgc] at hgx0
          rw [Option.some.inj hgx0]
          exact hpx0
      · rw [if_neg hhd, hp']
    · obtain ⟨nda, hga2, hpa2, hna2⟩ := hga'
      refine chainSeg_cons.mpr ⟨nda, hga2, hpa2, ?_, ?_⟩
      · rw [hna2, headO_append, headO_cons, headO_of_head? hm0]
      · rw [chainSeg_append]
        simp only [Bool.and_eq_true]
        constructor
        · rw [headO_cons]
          exact chainSeg_relink hcms hndms hmsC
        · rw [lastO_of_getLast? hlm]
          obtain ⟨ndb, hgb2, hpb2, hnb2⟩ := hgb'
          refine chainSeg_cons.mpr ⟨ndb, hgb2, hpb2, hnb2, ?_⟩
          refine chainSeg_relink hcys hndys ?_
          intro c hc
          obtain ⟨nd, nd', hgc, hgc', hp', hn'⟩ := hysC c hc
          refine ⟨nd, nd', hgc, hgc', hp', ?_⟩
          by_cases hls : ys.getLast? = some c
          · rw [if_pos hls, hn']
            exact chainSeg_last_next ys (some a) none c nd hls hcys hgc
          · rw [if_neg hls, hn']
  · rw [hfst]
    cases xs with
    | nil => rfl
    | cons x0 xs1 => rfl
  · rw [hlst, List.getLast?_append_cons, ← List.cons_append,
      List.getLast?_append_cons, getLast?_cons_eq_lastO]
  · rw [hcnt, hrep.count]
    simp only [List.length_append, List.length_cons]
  · have hperm : List.Perm (b :: (ms ++ a :: ys)) (a :: (ms ++ b :: ys)) :=
      (List.Perm.cons b List.perm_middle).trans
        ((List.Perm.swap a b (ms ++ ys)).trans
          (List.Perm.cons a List.perm_middle).symm)
    exact (List.Perm.append_left xs hperm).nodup_iff.mp hrep.nodup


theorem getLast?_ne_of_not_mem {l : List Nat} {x : Nat} (hx : x ∉ l) :
    l.getLast? ≠ some x := by
  intro hc
  obtain ⟨hne2, heq⟩ := List.mem_getLast?_eq_getLast (by rw [hc]; rfl)
  exact hx (heq ▸ List.getLast_mem hne2)

theorem swapNonSuccessive_spec {T : Type} {h : HeapT T} {hdr : ListHdr}
    {xs ms ys : List Nat} {a b : Nat}
    (hrep : Rep h hdr (xs ++ b :: (ms ++ a :: ys))) (hmsne : ms ≠ []) :
    ∃ h' hdr', SwapNonSuccessiveNodes (h, hdr) a b = .ok (h', hdr') ∧
      Rep h' hdr' (xs ++ a :: (ms ++ b :: ys)) ∧ dataEq h h' ∧
      h'.length = h.length := by
  have hch := hrep.chain
  rw [chainSeg_append] at hch
  simp only [Bool.and_eq_true] at hch
  obtain ⟨hcxs, hcrest⟩ := hch
  rw [headO_cons] at hcxs
  obtain ⟨bnd, hgb, hpb, hnb, hcrest2⟩ := chainSeg_cons.mp hcrest
  rw [chainSeg_append] at hcrest2
  simp only [Bool.and_eq_true] at hcrest2
  obtain ⟨hcms, hctail⟩ := hcrest2
  rw [headO_cons] at hcms
  obtain ⟨m0, ms1, rfl⟩ : ∃ c t, ms = c :: t := by
    cases ms with
    | nil => exact absurd rfl hmsne
    | cons c t => exact ⟨c, t, rfl⟩
  obtain ⟨ms2, lm, hms2⟩ :=
    (List.eq_nil_or_concat (m0 :: ms1)).resolve_left (by simp)
  rw [List.concat_eq_append] at hms2
  have hlmgl : (m0 :: ms1).getLast? = some lm := by
    rw [hms2]
    exact List.getLast?_concat _
  rw [lastO_of_getLast? hlmgl (some b)] at hctail
  obtain ⟨and2, hga, hpa, hna, hcys⟩ := chainSeg_cons.mp hctail
  obtain ⟨m0nd, hgm0, hpm0, hnm0, hcms1⟩ := chainSeg_cons.mp hcms
  have hnb2 : bnd.nextPtr = some m0 := by
    rw [hnb]
    rfl
  have hlmmem : lm ∈ m0 :: ms1 := by
    rw [hms2]
    exact List.mem_append_right _ (by simp)
  obtain ⟨lmnd, hglm⟩ := chainSeg_mem hcms hlmmem
  have hnlm : lmnd.nextPtr = some a :=
    chainSeg_last_next (m0 :: ms1) (some b) (some a) lm lmnd hlmgl hcms hglm
  have hm0mem : m0 ∈ m0 :: ms1 := List.mem_cons_self _ _
  obtain ⟨hbxs, hbrest, hxsdisj⟩ := nodup_mid xs b _ hrep.nodup
  have hndrest := hrep.nodup.of_append_right.of_cons
  obtain ⟨hams, hays, hmsdisj⟩ := nodup_mid (m0 :: ms1) a ys hndrest
  have hndxs := hrep.nodup.of_append_left
  have hndms := hndrest.of_append_left
  have hndys := hndrest.of_append_right.of_cons
  have hamem : a ∈ (m0 :: ms1) ++ a :: ys :=
    List.mem_append_right _ (List.mem_cons_self _ _)
  have hab : a ≠ b := fun hc => hbrest (by rw [← hc]; exact hamem)
  have ham0 : a ≠ m0 := fun hc => hams (by rw [hc]; exact hm0mem)
  have halm : a ≠ lm := fun hc => hams (by rw [hc]; exact hlmmem)
  have hbm0 : b ≠ m0 := fun hc =>
    hbrest (by rw [hc]; exact List.mem_append_left _ hm0mem)
  have hblm : b ≠ lm := fun hc =>
    hbrest (by rw [hc]; exact List.mem_append_left _ hlmmem)
  have hbms : b ∉ m0 :: ms1 := fun hc => hbrest (List.mem_append_left _ hc)
  have hbys : b ∉ ys := fun hc =>
    hbrest (List.mem_append_right _ (List.mem_cons_of_mem _ hc))
  have haxs : a ∉ xs := fun hc => hxsdisj a hc hamem
  have hg2 : and2.prevPtr ≠ some b := by
    rw [hpa]
    exact fun hc => hblm (Option.some.inj hc).symm
  have hg2' : (some lm : Option Nat) ≠ some b :=
    fun hc => hblm (Option.some.inj hc).symm
  cases hxs0 : xs with
  | nil =>
    subst hxs0
    have hfirst : hdr.firstPtr = some b := by
      rw [hrep.first]
      rfl
    have hf_a : hdr.firstPtr ≠ some a := by
      rw [hfirst]
      exact fun hc => hab (Option.some.inj hc).symm
    cases hys0 : ys with
    | nil =>
      subst hys0
      have hna2 : and2.nextPtr = none := hna
      have hg1 : and2.nextPtr ≠ some b := by
        rw [hna2]
        exact fun hc => Option.noConfusion hc
      have hg1' : (none : Option Nat) ≠ some b :=
        fun hc => Option.noConfusion hc
      have hlasta : hdr.lastPtr = some a := by
        rw [hrep.last, List.getLast?_append_cons, ← List.cons_append,
          List.getLast?_append_cons]
        rfl
      have hgAa : hget (hset h lm (some ⟨lmnd.data, lmnd.prevPtr, some b⟩)) a =
          some and2 := by
        rw [hget_hset_ne _ halm]
        exact hga
      have hgAb : hget (hset h lm (some ⟨lmnd.data, lmnd.prevPtr, some b⟩)) b =
          some bnd := by
        rw [hget_hset_ne _ hblm]
        exact hgb
      have hgBa : hget (hset (hset h lm (some ⟨lmnd.data, lmnd.prevPtr, some b⟩))
          b (some ⟨bnd.data, some lm, some m0⟩)) a = some and2 := by
        rw [hget_hset_ne _ hab]
        exact hgAa
      have hgCa : hget (hset (hset (hset h lm
          (some ⟨lmnd.data, lmnd.prevPtr, some b⟩))
          b (some ⟨bnd.data, some lm, some m0⟩))
          a (some ⟨and2.data, none, none⟩)) a =
          some ⟨and2.data, none, none⟩ := hget_hset_self_of_live hgBa _
      have hgCb : hget (hset (hset (hset h lm
          (some ⟨lmnd.data, lmnd.prevPtr, some b⟩))
          b (some ⟨bnd.data, some lm, some m0⟩))
          a (some ⟨and2.data, none, none⟩)) b =
          some ⟨bnd.data, some lm, some m0⟩ := by
        rw [hget_hset_ne _ (Ne.symm hab)]
        exact hget_hset_self_of_live hgAb _
      obtain ⟨m0C, hgCm0, hm0Cd, hm0Cp, hm0Cn⟩ :
          ∃ nd : ListNode T, hget (hset (hset (hset h lm
            (some ⟨lmnd.data, lmnd.prevPtr, some b⟩))
            b (some ⟨bnd.data, some lm, some m0⟩))
            a (some ⟨and2.data, none, none⟩)) m0 = some nd ∧
            nd.data = m0nd.data ∧ nd.prevPtr = m0nd.prevPtr ∧
            nd.nextPtr = (if m0 = lm then some b else m0nd.nextPtr) := by
        by_cases hm0lm : m0 = lm
        · refine ⟨⟨lmnd.data, lmnd.prevPtr, some b⟩, ?_, ?_, ?_, ?_⟩
          · rw [hget_hset_ne _ (Ne.symm ham0), hget_hset_ne _ (Ne.symm hbm0),
              hm0lm]
            exact hget_hset_self_of_live hglm _
          · rw [hm0lm] at hgm0
            rw [hgm0] at hglm
            rw [Option.some.inj hglm]
          · rw [hm0lm] at hgm0
            rw [hgm0] at hglm
            rw [Option.some.inj hglm]
          · rw [if_pos hm0lm]
        · refine ⟨m0nd, ?_, rfl, rfl, ?_⟩
          · rw [hget_hset_ne _ (Ne.symm ham0), hget_hset_ne _ (Ne.symm hbm0),
              hget_hset_ne _ hm0lm]
            exact hgm0
          · rw [if_neg hm0lm]
      have hgDb : hget (hset (hset (hset (hset h lm
          (some ⟨lmnd.data, lmnd.prevPtr, some b⟩))
          b (some ⟨bnd.data, some lm, some m0⟩))
          a (some ⟨and2.data, none, none⟩))
          a (some ⟨and2.data, none, some m0⟩)) b =
          some ⟨bnd.data, some lm, some m0⟩ := by
        rw [hget_hset_ne _ (Ne.symm hab)]
        exact hgCb
      have hgDm0 : hget (hset (hset (hset (hset h lm
          (some ⟨lmnd.data, lmnd.prevPtr, some b⟩))
          b (some ⟨bnd.data, some lm, some m0⟩))
          a (some ⟨and2.data, none, none⟩))
          a (some ⟨and2.data, none, some m0⟩)) m0 = some m0C := by
        rw [hget_hset_ne _ (Ne.symm ham0)]
        exact hgCm0
      have hgE0b : hget (hset (hset (hset (hset (hset h lm
          (some ⟨lmnd.data, lmnd.prevPtr, some b⟩))
          b (some ⟨bnd.data, some lm, some m0⟩))
          a (some ⟨and2.data, none, none⟩))
          a (some ⟨and2.data, none, some m0⟩))
          m0 (some ⟨m0C.data, some a, m0C.nextPtr⟩)) b =
          some ⟨bnd.data, some lm, some m0⟩ := by
        rw [hget_hset_ne _ hbm0]
        exact hgDb
      refine ⟨hset (hset (hset (hset (hset (hset h lm
          (some ⟨lmnd.data, lmnd.prevPtr, some b⟩))
          b (some ⟨bnd.data, some lm, some m0⟩))
          a (some ⟨and2.data, none, none⟩))
          a (some ⟨and2.data, none, some m0⟩))
          m0 (some ⟨m0C.data, some a, m0C.nextPtr⟩))
          b (some ⟨bnd.data, some lm, none⟩),
        ⟨some a, some b, hdr.numberOfNodes⟩, ?_, ?_, ?_, ?_⟩
      · simp only [SwapNonSuccessiveNodes, if_neg hab,
          readPtr_some hga, ebind_ok, epure_ok,
          if_neg hg1, if_neg hg1', hna2, hpa, if_neg hg2, if_neg hg2',
          if_neg hf_a, if_pos hfirst,
          writeNext_some hglm, readPtr_some hgAa, writePrev_some hgAb,
          writePrev_some hgBa, if_pos hlasta,
          readPtr_some hgCb, writeNext_some hgCa, readPtr_some hgDb,
          writePrev_some hgDm0, writeNext_some hgE0b,
          hnb2, ne_eq, eq_self_iff_true, not_true, if_false, if_true]
      · refine swapNS_rep hrep rfl hlmgl
          ⟨⟨and2.data, none, some m0⟩, ?_, rfl, rfl⟩
          ⟨⟨bnd.data, some lm, none⟩, ?_, rfl, rfl⟩
          ?_ ?_ ?_ rfl rfl rfl
        · rw [hget_hset_ne _ hab, hget_hset_ne _ ham0]
          exact hget_hset_self_of_live hgCa _
        · exact hget_hset_self_of_live hgE0b _
        · intro c hc
          exact absurd hc (List.not_mem_nil c)
        · intro c hc
          by_cases hcm0 : c = m0
          · subst hcm0
            refine ⟨m0nd, ⟨m0C.data, some a, m0C.nextPtr⟩, hgm0, ?_, ?_, ?_⟩
            · rw [hget_hset_ne _ (Ne.symm hbm0)]
              exact hget_hset_self_of_live hgDm0 _
            · rw [if_pos (show (c :: ms1).head? = some c from rfl)]
            · rw [hlmgl]
              by_cases hm0lm : c = lm
              · rw [if_pos (by rw [hm0lm]), hm0Cn, if_pos hm0lm]
              · rw [if_neg (fun hcc => hm0lm (Option.some.inj hcc).symm),
                  hm0Cn, if_neg hm0lm]
          · by_cases hclm : c = lm
            · subst hclm
              refine ⟨lmnd, ⟨lmnd.data, lmnd.prevPtr, some b⟩, hglm, ?_, ?_, ?_⟩
              · rw [hget_hset_ne _ (Ne.symm hblm), hget_hset_ne _ hcm0,
                  hget_hset_ne _ (Ne.symm halm), hget_hset_ne _ (Ne.symm halm),
                  hget_hset_ne _ (Ne.symm hblm)]
                exact hget_hset_self_of_live hglm _
              · rw [if_neg (show ¬((m0 :: ms1).head? = some c) from
                  fun hcc => hcm0 (Option.some.inj hcc).symm)]
              · rw [hlmgl, if_pos rfl]
            · have h1 : c ≠ a := fun hcc => hams (hcc ▸ hc)
              have h2 : c ≠ b := fun hcc => hbms (hcc ▸ hc)
              obtain ⟨nd, hgc⟩ := chainSeg_mem hcms hc
              refine ⟨nd, nd, hgc, ?_, ?_, ?_⟩
              · rw [hget_hset_ne _ h2, hget_hset_ne _ hcm0, hget_hset_ne _ h1,
                  hget_hset_ne _ h1, hget_hset_ne _ h2, hget_hset_ne _ hclm]
                exact hgc
              · rw [if_neg (show ¬((m0 :: ms1).head? = some c) from
                  fun hcc => hcm0 (Option.some.inj hcc).symm)]
              · rw [hlmgl, if_neg (fun hcc => hclm (Option.some.inj hcc).symm)]
        · intro c hc
          exact absurd hc (List.not_mem_nil c)
      · intro c
        rw [dataAt_hset_keep ⟨bnd.data, some lm, none⟩ hgE0b rfl c,
          dataAt_hset_keep ⟨m0C.data, some a, m0C.nextPtr⟩ hgDm0 rfl c,
          dataAt_hset_keep ⟨and2.data, none, some m0⟩ hgCa rfl c,
          dataAt_hset_keep ⟨and2.data, none, none⟩ hgBa rfl c,
          dataAt_hset_keep ⟨bnd.data, some lm, some m0⟩ hgAb rfl c,
          dataAt_hset_keep ⟨lmnd.data, lmnd.prevPtr, some b⟩ hglm rfl c]
      · simp only [length_hset]
    | cons y0 ys1 =>
      subst hys0
      obtain ⟨ynd, hgy0, hpy0, hny0, hcys1⟩ := chainSeg_cons.mp hcys
      have hna2 : and2.nextPtr = some y0 := hna
      have hy0a : y0 ≠ a := fun hc =>
        hays (by rw [← hc]; exact List.mem_cons_self _ _)
      have hy0b : y0 ≠ b := fun hc =>
        hbys (by rw [← hc]; exact List.mem_cons_self _ _)
      have hy0m0 : y0 ≠ m0 := fun hc =>
        hmsdisj m0 hm0mem (by rw [← hc]; exact List.mem_cons_self _ _)
      have hy0lm : y0 ≠ lm := fun hc =>
        hmsdisj lm hlmmem (by rw [← hc]; exact List.mem_cons_self _ _)
      have hg1 : and2.nextPtr ≠ some b := by
        rw [hna2]
        exact fun hc => hy0b (Option.some.inj hc)
      have hg1' : (some y0 : Option Nat) ≠ some b :=
        fun hc => hy0b (Option.some.inj hc)
      have hlastys : hdr.lastPtr = (y0 :: ys1).getLast? := by
        rw [hrep.last, List.getLast?_append_cons, ← List.cons_append,
          List.getLast?_append_cons, List.getLast?_cons_cons]
      have hlne_a : hdr.lastPtr ≠ some a := by
        rw [hlastys]
        exact getLast?_ne_of_not_mem hays
      have hlne_b : hdr.lastPtr ≠ some b := by
        rw [hlastys]
        exact getLast?_ne_of_not_mem hbys
      have hgAa : hget (hset h lm (some ⟨lmnd.data, lmnd.prevPtr, some b⟩)) a =
          some and2 := by
        rw [hget_hset_ne _ halm]
        exact hga
      have hgAb : hget (hset h lm (some ⟨lmnd.data, lmnd.prevPtr, some b⟩)) b =
          some bnd := by
        rw [hget_hset_ne _ hblm]
        exact hgb
      have hgBa : hget (hset (hset h lm (some ⟨lmnd.data, lmnd.prevPtr, some b⟩))
          b (some ⟨bnd.data, some lm, some m0⟩)) a = some and2 := by
        rw [hget_hset_ne _ hab]
        exact hgAa
      have hgCa : hget (hset (hset (hset h lm
          (some ⟨lmnd.data, lmnd.prevPtr, some b⟩))
          b (some ⟨bnd.data, some lm, some m0⟩))
          a (some ⟨and2.data, none, some y0⟩)) a =
          some ⟨and2.data, none, some y0⟩ := hget_hset_self_of_live hgBa _
      have hgCb : hget (hset (hset (hset h lm
          (some ⟨lmnd.data, lmnd.prevPtr, some b⟩))
          b (some ⟨bnd.data, some lm, some m0⟩))
          a (some ⟨and2.data, none, some y0⟩)) b =
          some ⟨bnd.data, some lm, some m0⟩ := by
        rw [hget_hset_ne _ (Ne.symm hab)]
        exact hget_hset_self_of_live hgAb _
      obtain ⟨m0C, hgCm0, hm0Cd, hm0Cp, hm0Cn⟩ :
          ∃ nd : ListNode T, hget (hset (hset (hset h lm
            (some ⟨lmnd.data, lmnd.prevPtr, some b⟩))
            b (some ⟨bnd.data, some lm, some m0⟩))
            a (some ⟨and2.data, none, some y0⟩)) m0 = some nd ∧
            nd.data = m0nd.data ∧ nd.prevPtr = m0nd.prevPtr ∧
            nd.nextPtr = (if m0 = lm then some b else m0nd.nextPtr) := by
        by_cases hm0lm : m0 = lm
        · refine ⟨⟨lmnd.data, lmnd.prevPtr, some b⟩, ?_, ?_, ?_, ?_⟩
          · rw [hget_hset_ne _ (Ne.symm ham0), hget_hset_ne _ (Ne.symm hbm0),
              hm0lm]
            exact hget_hset_self_of_live hglm _
          · rw [hm0lm] at hgm0
            rw [hgm0] at hglm
            rw [Option.some.inj hglm]
          · rw [hm0lm] at hgm0
            rw [hgm0] at hglm
            rw [Option.some.inj hglm]
          · rw [if_pos hm0lm]
        · refine ⟨m0nd, ?_, rfl, rfl, ?_⟩
          · rw [hget_hset_ne _ (Ne.symm ham0), hget_hset_ne _ (Ne.symm hbm0),
              hget_hset_ne _ hm0lm]
            exact hgm0
          · rw [if_neg hm0lm]
      have hgCy0 : hget (hset (hset (hset h lm
          (some ⟨lmnd.data, lmnd.prevPtr, some b⟩))
          b (some ⟨bnd.data, some lm, some m0⟩))
          a (some ⟨and2.data, none, some y0⟩)) y0 = some ynd := by
        rw [hget_hset_ne _ hy0a, hget_hset_ne _ hy0b, hget_hset_ne _ hy0lm]
        exact hgy0
      have hgDb : hget (hset (hset (hset (hset h lm
          (some ⟨lmnd.data, lmnd.prevPtr, some b⟩))
          b (some ⟨bnd.data, some lm, some m0⟩))
          a (some ⟨and2.data, none, some y0⟩))
          y0 (some ⟨ynd.data, some b, ynd.nextPtr⟩)) b =
          some ⟨bnd.data, some lm, some m0⟩ := by
        rw [hget_hset_ne _ (Ne.symm hy0b)]
        exact hgCb
      have hgDm0 : hget (hset (hset (hset (hset h lm
          (some ⟨lmnd.data, lmnd.prevPtr, some b⟩))
          b (some ⟨bnd.data, some lm, some m0⟩))
          a (some ⟨and2.data, none, some y0⟩))
          y0 (some ⟨ynd.data, some b, ynd.nextPtr⟩)) m0 = some m0C := by
        rw [hget_hset_ne _ (Ne.symm hy0m0)]
        exact hgCm0
      have hgE0a : hget (hset (hset (hset (hset (hset h lm
          (some ⟨lmnd.data, lmnd.prevPtr, some b⟩))
          b (some ⟨bnd.data, some lm, some m0⟩))
          a (some ⟨and2.data, none, some y0⟩))
          y0 (some ⟨ynd.data, some b, ynd.nextPtr⟩))
          m0 (some ⟨m0C.data, some a, m0C.nextPtr⟩)) a =
          some ⟨and2.data, none, some y0⟩ := by
        rw [hget_hset_ne _ ham0, hget_hset_ne _ (Ne.symm hy0a)]
        exact hgCa
      have hgE0b : hget (hset (hset (hset (hset (hset h lm
          (some ⟨lmnd.data, lmnd.prevPtr, some b⟩))
          b (some ⟨bnd.data, some lm, some m0⟩))
          a (some ⟨and2.data, none, some y0⟩))
          y0 (some ⟨ynd.data, some b, ynd.nextPtr⟩))
          m0 (some ⟨m0C.data, some a, m0C.nextPtr⟩)) b =
          some ⟨bnd.data, some lm, some m0⟩ := by
        rw [hget_hset_ne _ hbm0, hget_hset_ne _ (Ne.symm hy0b)]
        exact hgCb
      have hgF0b : hget (hset (hset (hset (hset (hset (hset h lm
          (some ⟨lmnd.data, lmnd.prevPtr, some b⟩))
          b (some ⟨bnd.data, some lm, some m0⟩))
          a (some ⟨and2.data, none, some y0⟩))
          y0 (some ⟨ynd.data, some b, ynd.nextPtr⟩))
          m0 (some ⟨m0C.data, some a, m0C.nextPtr⟩))
          a (some ⟨and2.data, none, some m0⟩)) b =
          some ⟨bnd.data, some lm, some m0⟩ := by
        rw [hget_hset_ne _ (Ne.symm hab)]
        exact hgE0b
      refine ⟨hset (hset (hset (hset (hset (hset (hset h lm
          (some ⟨lmnd.data, lmnd.prevPtr, some b⟩))
          b (some ⟨bnd.data, some lm, some m0⟩))
          a (some ⟨and2.data, none, some y0⟩))
          y0 (some ⟨ynd.data, some b, ynd.nextPtr⟩))
          m0 (some ⟨m0C.data, some a, m0C.nextPtr⟩))
          a (some ⟨and2.data, none, some m0⟩))
          b (some ⟨bnd.data, some lm, some y0⟩),
        ⟨some a, hdr.lastPtr, hdr.numberOfNodes⟩, ?_, ?_, ?_, ?_⟩
      · simp only [SwapNonSuccessiveNodes, if_neg hab,
          readPtr_some hga, ebind_ok, epure_ok,
          if_neg hg1, if_neg hg1', hna2, hpa, if_neg hg2, if_neg hg2',
          if_neg hf_a, if_pos hfirst,
          writeNext_some hglm, readPtr_some hgAa, writePrev_some hgAb,
          writePrev_some hgBa, if_neg hlne_a, if_neg hlne_b,
          readPtr_some hgCa, writePrev_some hgCy0, readPtr_some hgDb,
          writePrev_some hgDm0, readPtr_some hgE0a, readPtr_some hgE0b,
          writeNext_some hgE0a, writeNext_some hgF0b,
          hnb2, ne_eq, eq_self_iff_true, not_true, if_false, if_true]
      · refine swapNS_rep hrep rfl hlmgl
          ⟨⟨and2.data, none, some m0⟩, ?_, rfl, rfl⟩
          ⟨⟨bnd.data, some lm, some y0⟩, ?_, rfl, rfl⟩
          ?_ ?_ ?_ rfl ?_ rfl
        · rw [hget_hset_ne _ hab]
          exact hget_hset_self_of_live hgE0a _
        · exact hget_hset_self_of_live hgF0b _
        · intro c hc
          exact absurd hc (List.not_mem_nil c)
        · intro c hc
          by_cases hcm0 : c = m0
          · subst hcm0
            refine ⟨m0nd, ⟨m0C.data, some a, m0C.nextPtr⟩, hgm0, ?_, ?_, ?_⟩
            · rw [hget_hset_ne _ (Ne.symm hbm0), hget_hset_ne _ (Ne.symm ham0)]
              exact hget_hset_self_of_live hgDm0 _
            · rw [if_pos (show (c :: ms1).head? = some c from rfl)]
            · rw [hlmgl]
              by_cases hm0lm : c = lm
              · rw [if_pos (by rw [hm0lm]), hm0Cn, if_pos hm0lm]
              · rw [if_neg (fun hcc => hm0lm (Option.some.inj hcc).symm),
                  hm0Cn, if_neg hm0lm]
          · by_cases hclm : c = lm
            · subst hclm
              refine ⟨lmnd, ⟨lmnd.data, lmnd.prevPtr, some b⟩, hglm, ?_, ?_, ?_⟩
              · rw [hget_hset_ne _ (Ne.symm hblm), hget_hset_ne _ (Ne.symm halm),
                  hget_hset_ne _ hcm0, hget_hset_ne _ (Ne.symm hy0lm),
                  hget_hset_ne _ (Ne.symm halm), hget_hset_ne _ (Ne.symm hblm)]
                exact hget_hset_self_of_live hglm _
              · rw [if_neg (show ¬((m0 :: ms1).head? = some c) from
                  fun hcc => hcm0 (Option.some.inj hcc).symm)]
              · rw [hlmgl, if_pos rfl]
            · have h1 : c ≠ a := fun hcc => hams (hcc ▸ hc)
              have h2 : c ≠ b := fun hcc => hbms (hcc ▸ hc)
              have h3 : c ≠ y0 := fun hcc =>
                hmsdisj c hc (by rw [hcc]; exact List.mem_cons_self _ _)
              obtain ⟨nd, hgc⟩ := chainSeg_mem hcms hc
              refine ⟨nd, nd, hgc, ?_, ?_, ?_⟩
              · rw [hget_hset_ne _ h2, hget_hset_ne _ h1, hget_hset_ne _ hcm0,
                  hget_hset_ne _ h3, hget_hset_ne _ h1, hget_hset_ne _ h2,
                  hget_hset_ne _ hclm]
                exact hgc
              · rw [if_neg (show ¬((m0 :: ms1).head? = some c) from
                  fun hcc => hcm0 (Option.some.inj hcc).symm)]
              · rw [hlmgl, if_neg (fun hcc => hclm (Option.some.inj hcc).symm)]
        · intro c hc
          by_cases hcy0 : c = y0
          · subst hcy0
            refine ⟨ynd, ⟨ynd.data, some b, ynd.nextPtr⟩, hgy0, ?_, ?_, rfl⟩
            · rw [hget_hset_ne _ hy0b, hget_hset_ne _ hy0a,
                hget_hset_ne _ hy0m0]
              exact hget_hset_self_of_live hgCy0 _
            · rw [if_pos (show (c :: ys1).head? = some c from rfl)]
          · have hcm : c ∈ ys1 := by
              rcases List.mem_cons.mp hc with heq | hm
              · exact absurd heq hcy0
              · exact hm
            have h1 : c ≠ a := fun hcc => hays (hcc ▸ hc)
            have h2 : c ≠ b := fun hcc => hbys (hcc ▸ hc)
            have h3 : c ≠ m0 := fun hcc => hmsdisj m0 hm0mem (hcc ▸ hc)
            have h4 : c ≠ lm := fun hcc => hmsdisj lm hlmmem (hcc ▸ hc)
            obtain ⟨nd, hgc⟩ := chainSeg_mem hcys hc
            refine ⟨nd, nd, hgc, ?_, ?_, rfl⟩
            · rw [hget_hset_ne _ h2, hget_hset_ne _ h1, hget_hset_ne _ h3,
                hget_hset_ne _ hcy0, hget_hset_ne _ h1, hget_hset_ne _ h2,
                hget_hset_ne _ h4]
              exact hgc
            · rw [if_neg (show ¬((y0 :: ys1).head? = some c) from
                fun hcc => hcy0 (Option.some.inj hcc).symm)]
        · show hdr.lastPtr = lastO (y0 :: ys1) (some b)
          rw [hlastys, ← getLast?_cons_eq_lastO, List.getLast?_cons_cons]
      · intro c
        rw [dataAt_hset_keep ⟨bnd.data, some lm, some y0⟩ hgF0b rfl c,
          dataAt_hset_keep ⟨and2.data, none, some m0⟩ hgE0a rfl c,
          dataAt_hset_keep ⟨m0C.data, some a, m0C.nextPtr⟩ hgDm0 rfl c,
          dataAt_hset_keep ⟨ynd.data, some b, ynd.nextPtr⟩ hgCy0 rfl c,
          dataAt_hset_keep ⟨and2.data, none, some y0⟩ hgBa rfl c,
          dataAt_hset_keep ⟨bnd.data, some lm, some m0⟩ hgAb rfl c,
          dataAt_hset_keep ⟨lmnd.data, lmnd.prevPtr, some b⟩ hglm rfl c]
      · simp only [length_hset]
  | cons x0 xs1 =>
    subst hxs0
    obtain ⟨xs2, lx, hxs2⟩ :=
      (List.eq_nil_or_concat (x0 :: xs1)).resolve_left (by simp)
    rw [List.concat_eq_append] at hxs2
    have hlxgl : (x0 :: xs1).getLast? = some lx := by
      rw [hxs2]
      exact List.getLast?_concat _
    have hlxmem : lx ∈ x0 :: xs1 := by
      rw [hxs2]
      exact List.mem_append_right _ (by simp)
    obtain ⟨lxnd, hglx⟩ := chainSeg_mem hcxs hlxmem
    have hpb2 : bnd.prevPtr = some lx := by
      rw [hpb, hxs2]
      exact lastO_concat _ _ _
    have hfirst : hdr.firstPtr = some x0 := by
      rw [hrep.first]
      rfl
    have hf_a : hdr.firstPtr ≠ some a := by
      rw [hfirst]
      intro hc
      exact haxs (by rw [← Option.some.inj hc]; exact List.mem_cons_self _ _)
    have hf_b : hdr.firstPtr ≠ some b := by
      rw [hfirst]
      intro hc
      exact hbxs (by rw [← Option.some.inj hc]; exact List.mem_cons_self _ _)
    have hlxa : lx ≠ a := fun hc => haxs (hc ▸ hlxmem)
    have hlxb : lx ≠ b := fun hc => hbxs (hc ▸ hlxmem)
    have hlxm0 : lx ≠ m0 := fun hc =>
      hxsdisj lx hlxmem (by rw [hc]; exact List.mem_append_left _ hm0mem)
    have hlxlm : lx ≠ lm := fun hc =>
      hxsdisj lx hlxmem (by rw [hc]; exact List.mem_append_left _ hlmmem)
    have hgAb : hget (hset h lm (some ⟨lmnd.data, lmnd.prevPtr, some b⟩)) b =
        some bnd := by
      rw [hget_hset_ne _ hblm]
      exact hgb
    have hgAlx : hget (hset h lm (some ⟨lmnd.data, lmnd.prevPtr, some b⟩)) lx =
        some lxnd := by
      rw [hget_hset_ne _ hlxlm]
      exact hglx
    have hgA2b : hget (hset (hset h lm (some ⟨lmnd.data, lmnd.prevPtr, some b⟩))
        lx (some ⟨lxnd.data, lxnd.prevPtr, some a⟩)) b = some bnd := by
      rw [hget_hset_ne _ (Ne.symm hlxb)]
      exact hgAb
    have hgA2a : hget (hset (hset h lm (some ⟨lmnd.data, lmnd.prevPtr, some b⟩))
        lx (some ⟨lxnd.data, lxnd.prevPtr, some a⟩)) a = some and2 := by
      rw [hget_hset_ne _ (Ne.symm hlxa), hget_hset_ne _ halm]
      exact hga
    have hgBa : hget (hset (hset (hset h lm
        (some ⟨lmnd.data, lmnd.prevPtr, some b⟩))
        lx (some ⟨lxnd.data, lxnd.prevPtr, some a⟩))
        b (some ⟨bnd.data, some lm, some m0⟩)) a = some and2 := by
      rw [hget_hset_ne _ hab]
      exact hgA2a
    cases hys0 : ys with
    | nil =>
      subst hys0
      have hna2 : and2.nextPtr = none := hna
      have hg1 : and2.nextPtr ≠ some b := by
        rw [hna2]
        exact fun hc => Option.noConfusion hc
      have hg1' : (none : Option Nat) ≠ some b :=
        fun hc => Option.noConfusion hc
      have hlasta : hdr.lastPtr = some a := by
        rw [hrep.last, List.getLast?_append_cons, ← List.cons_append,
          List.getLast?_append_cons]
        rfl
      have hgCa : hget (hset (hset (hset (hset h lm
          (some ⟨lmnd.data, lmnd.prevPtr, some b⟩))
          lx (some ⟨lxnd.data, lxnd.prevPtr, some a⟩))
          b (some ⟨bnd.data, some lm, some m0⟩))
          a (some ⟨and2.data, some lx, none⟩)) a =
          some ⟨and2.data, some lx, none⟩ := hget_hset_self_of_live hgBa _
      have hgCb : hget (hset (hset (hset (hset h lm
          (some ⟨lmnd.data, lmnd.prevPtr, some b⟩))
          lx (some ⟨lxnd.data, lxnd.prevPtr, some a⟩))
          b (some ⟨bnd.data, some lm, some m0⟩))
          a (some ⟨and2.data, some lx, none⟩)) b =
          some ⟨bnd.data, some lm, some m0⟩ := by
        rw [hget_hset_ne _ (Ne.symm hab)]
        exact hget_hset_self_of_live hgA2b _
      obtain ⟨m0C, hgCm0, hm0Cd, hm0Cp, hm0Cn⟩ :
          ∃ nd : ListNode T, hget (hset (hset (hset (hset h lm
            (some ⟨lmnd.data, lmnd.prevPtr, some b⟩))
            lx (some ⟨lxnd.data, lxnd.prevPtr, some a⟩))
            b (some ⟨bnd.data, some lm, some m0⟩))
            a (some ⟨and2.data, some lx, none⟩)) m0 = some nd ∧
            nd.data = m0nd.data ∧ nd.prevPtr = m0nd.prevPtr ∧
            nd.nextPtr = (if m0 = lm then some b else m0nd.nextPtr) := by
        by_cases hm0lm : m0 = lm
        · refine ⟨⟨lmnd.data, lmnd.prevPtr, some b⟩, ?_, ?_, ?_, ?_⟩
          · rw [hget_hset_ne _ (Ne.symm ham0), hget_hset_ne _ (Ne.symm hbm0),
              hget_hset_ne _ (Ne.symm hlxm0), hm0lm]
            exact hget_hset_self_of_live hglm _
          · rw [hm0lm] at hgm0
            rw [hgm0] at hglm
            rw [Option.some.inj hglm]
          · rw [hm0lm] at hgm0
            rw [hgm0] at hglm
            rw [Option.some.inj hglm]
          · rw [if_pos hm0lm]
        · refine ⟨m0nd, ?_, rfl, rfl, ?_⟩
          · rw [hget_hset_ne _ (Ne.symm ham0), hget_hset_ne _ (Ne.symm hbm0),
              hget_hset_ne _ (Ne.symm hlxm0), hget_hset_ne _ hm0lm]
            exact hgm0
          · rw [if_neg hm0lm]
      have hgDb : hget (hset (hset (hset (hset (hset h lm
          (some ⟨lmnd.data, lmnd.prevPtr, some b⟩))
          lx (some ⟨lxnd.data, lxnd.prevPtr, some a⟩))
          b (some ⟨bnd.data, some lm, some m0⟩))
          a (some ⟨and2.data, some lx, none⟩))
          a (some ⟨and2.data, some lx, some m0⟩)) b =
          some ⟨bnd.data, some lm, some m0⟩ := by
        rw [hget_hset_ne _ (Ne.symm hab)]
        exact hgCb
      have hgDm0 : hget (hset (hset (hset (hset (hset h lm
          (some ⟨lmnd.data, lmnd.prevPtr, some b⟩))
          lx (some ⟨lxnd.data, lxnd.prevPtr, some a⟩))
          b (some ⟨bnd.data, some lm, some m0⟩))
          a (some ⟨and2.data, some lx, none⟩))
          a (some ⟨and2.data, some lx, some m0⟩)) m0 = some m0C := by
        rw [hget_hset_ne _ (Ne.symm ham0)]
        exact hgCm0
      have hgE0b : hget (hset (hset (hset (hset (hset (hset h lm
          (some ⟨lmnd.data, lmnd.prevPtr, some b⟩))
          lx (some ⟨lxnd.data, lxnd.prevPtr, some a⟩))
          b (some ⟨bnd.data, some lm, some m0⟩))
          a (some ⟨and2.data, some lx, none⟩))
          a (some ⟨and2.data, some lx, some m0⟩))
          m0 (some ⟨m0C.data, some a, m0C.nextPtr⟩)) b =
          some ⟨bnd.data, some lm, some m0⟩ := by
        rw [hget_hset_ne _ hbm0]
        exact hgDb
      refine ⟨hset (hset (hset (hset (hset (hset (hset h lm
          (some ⟨lmnd.data, lmnd.prevPtr, some b⟩))
          lx (some ⟨lxnd.data, lxnd.prevPtr, some a⟩))
          b (some ⟨bnd.data, some lm, some m0⟩))
          a (some ⟨and2.data, some lx, none⟩))
          a (some ⟨and2.data, some lx, some m0⟩))
          m0 (some ⟨m0C.data, some a, m0C.nextPtr⟩))
          b (some ⟨bnd.data, some lm, none⟩),
        ⟨hdr.firstPtr, some b, hdr.numberOfNodes⟩, ?_, ?_, ?_, ?_⟩
      · simp only [SwapNonSuccessiveNodes, if_neg hab,
          readPtr_some hga, ebind_ok, epure_ok,
          if_neg hg1, if_neg hg1', hna2, hpa, if_neg hg2, if_neg hg2',
          if_neg hf_a, if_neg hf_b, hpb2,
          writeNext_some hglm, readPtr_some hgAb, writeNext_some hgAlx,
          readPtr_some hgA2b, readPtr_some hgA2a, writePrev_some hgA2b,
          writePrev_some hgBa, if_pos hlasta,
          readPtr_some hgCb, writeNext_some hgCa, readPtr_some hgDb,
          writePrev_some hgDm0, writeNext_some hgE0b,
          hnb2, ne_eq, eq_self_iff_true, not_true, if_false, if_true]
      · refine swapNS_rep hrep rfl hlmgl
          ⟨⟨and2.data, some lx, some m0⟩, ?_, (lastO_of_getLast? hlxgl none).symm,
            rfl⟩
          ⟨⟨bnd.data, some lm, none⟩, ?_, rfl, rfl⟩
          ?_ ?_ ?_ ?_ rfl rfl
        · rw [hget_hset_ne _ hab, hget_hset_ne _ ham0]
          exact hget_hset_self_of_live hgCa _
        · exact hget_hset_self_of_live hgE0b _
        · intro c hc
          by_cases hclx : c = lx
          · subst hclx
            refine ⟨lxnd, ⟨lxnd.data, lxnd.prevPtr, some a⟩, hglx, ?_, rfl, ?_⟩
            · rw [hget_hset_ne _ hlxb, hget_hset_ne _ hlxm0,
                hget_hset_ne _ hlxa, hget_hset_ne _ hlxa,
                hget_hset_ne _ hlxb]
              exact hget_hset_self_of_live hgAlx _
            · rw [hlxgl, if_pos rfl]
          · have h1 : c ≠ a := fun hcc => haxs (hcc ▸ hc)
            have h2 : c ≠ b := fun hcc => hbxs (hcc ▸ hc)
            have h3 : c ≠ m0 := fun hcc =>
              hxsdisj c hc (by rw [hcc]; exact List.mem_append_left _ hm0mem)
            have h4 : c ≠ lm := fun hcc =>
              hxsdisj c hc (by rw [hcc]; exact List.mem_append_left _ hlmmem)
            obtain ⟨nd, hgc⟩ := chainSeg_mem hcxs hc
            refine ⟨nd, nd, hgc, ?_, rfl, ?_⟩
            · rw [hget_hset_ne _ h2, hget_hset_ne _ h3, hget_hset_ne _ h1,
                hget_hset_ne _ h1, hget_hset_ne _ h2, hget_hset_ne _ hclx,
                hget_hset_ne _ h4]
              exact hgc
            · rw [hlxgl, if_neg (fun hcc => hclx (Option.some.inj hcc).symm)]
        · intro c hc
          by_cases hcm0 : c = m0
          · subst hcm0
            refine ⟨m0nd, ⟨m0C.data, some a, m0C.nextPtr⟩, hgm0, ?_, ?_, ?_⟩
            · rw [hget_hset_ne _ (Ne.symm hbm0)]
              exact hget_hset_self_of_live hgDm0 _
            · rw [if_pos (show (c :: ms1).head? = some c from rfl)]
            · rw [hlmgl]
              by_cases hm0lm : c = lm
              · rw [if_pos (by rw [hm0lm]), hm0Cn, if_pos hm0lm]
              · rw [if_neg (fun hcc => hm0lm (Option.some.inj hcc).symm),
                  hm0Cn, if_neg hm0lm]
          · by_cases hclm : c = lm
            · subst hclm
              refine ⟨lmnd, ⟨lmnd.data, lmnd.prevPtr, some b⟩, hglm, ?_, ?_, ?_⟩
              · rw [hget_hset_ne _ (Ne.symm hblm), hget_hset_ne _ hcm0,
                  hget_hset_ne _ (Ne.symm halm), hget_hset_ne _ (Ne.symm halm),
                  hget_hset_ne _ (Ne.symm hblm), hget_hset_ne _ (Ne.symm hlxlm)]
                exact hget_hset_self_of_live hglm _
              · rw [if_neg (show ¬((m0 :: ms1).head? = some c) from
                  fun hcc => hcm0 (Option.some.inj hcc).symm)]
              · rw [hlmgl, if_pos rfl]
            · have h1 : c ≠ a := fun hcc => hams (hcc ▸ hc)
              have h2 : c ≠ b := fun hcc => hbms (hcc ▸ hc)
              have h5 : c ≠ lx := fun hcc =>
                hxsdisj lx hlxmem (by rw [← hcc]; exact List.mem_append_left _ hc)
              obtain ⟨nd, hgc⟩ := chainSeg_mem hcms hc
              refine ⟨nd, nd, hgc, ?_, ?_, ?_⟩
              · rw [hget_hset_ne _ h2, hget_hset_ne _ hcm0, hget_hset_ne _ h1,
                  hget_hset_ne _ h1, hget_hset_ne _ h2, hget_hset_ne _ h5,
                  hget_hset_ne _ hclm]
                exact hgc
              · rw [if_neg (show ¬((m0 :: ms1).head? = some c) from
                  fun hcc => hcm0 (Option.some.inj hcc).symm)]
              · rw [hlmgl, if_neg (fun hcc => hclm (Option.some.inj hcc).symm)]
        · intro c hc
          exact absurd hc (List.not_mem_nil c)
        · show hdr.firstPtr = headO (x0 :: xs1) (some a)
          rw [hfirst]
          rfl
      · intro c
        rw [dataAt_hset_keep ⟨bnd.data, some lm, none⟩ hgE0b rfl c,
          dataAt_hset_keep ⟨m0C.data, some a, m0C.nextPtr⟩ hgDm0 rfl c,
          dataAt_hset_keep ⟨and2.data, some lx, some m0⟩ hgCa rfl c,
          dataAt_hset_keep ⟨and2.data, some lx, none⟩ hgBa rfl c,
          dataAt_hset_keep ⟨bnd.data, some lm, some m0⟩ hgA2b rfl c,
          dataAt_hset_keep ⟨lxnd.data, lxnd.prevPtr, some a⟩ hgAlx rfl c,
          dataAt_hset_keep ⟨lmnd.data, lmnd.prevPtr, some b⟩ hglm rfl c]
      · simp only [length_hset]
    | cons y0 ys1 =>
      subst hys0
      obtain ⟨ynd, hgy0, hpy0, hny0, hcys1⟩ := chainSeg_cons.mp hcys
      have hna2 : and2.nextPtr = some y0 := hna
      have hy0a : y0 ≠ a := fun hc =>
        hays (by rw [← hc]; exact List.mem_cons_self _ _)
      have hy0b : y0 ≠ b := fun hc =>
        hbys (by rw [← hc]; exact List.mem_cons_self _ _)
      have hy0m0 : y0 ≠ m0 := fun hc =>
        hmsdisj m0 hm0mem (by rw [← hc]; exact List.mem_cons_self _ _)
      have hy0lm : y0 ≠ lm := fun hc =>
        hmsdisj lm hlmmem (by rw [← hc]; exact List.mem_cons_self _ _)
      have hy0rest : y0 ∈ (m0 :: ms1) ++ a :: y0 :: ys1 :=
        List.mem_append_right _ (List.mem_cons_of_mem _ (List.mem_cons_self _ _))
      have hy0lx : y0 ≠ lx := fun hc =>
        hxsdisj lx hlxmem (by rw [← hc]; exact hy0rest)
      have hg1 : and2.nextPtr ≠ some b := by
        rw [hna2]
        exact fun hc => hy0b (Option.some.inj hc)
      have hg1' : (some y0 : Option Nat) ≠ some b :=
        fun hc => hy0b (Option.some.inj hc)
      have hlastys : hdr.lastPtr = (y0 :: ys1).getLast? := by
        rw [hrep.last, List.getLast?_append_cons, ← List.cons_append,
          List.getLast?_append_cons, List.getLast?_cons_cons]
      have hlne_a : hdr.lastPtr ≠ some a := by
        rw [hlastys]
        exact getLast?_ne_of_not_mem hays
      have hlne_b : hdr.lastPtr ≠ some b := by
        rw [hlastys]
        exact getLast?_ne_of_not_mem hbys
      have hgCa : hget (hset (hset (hset (hset h lm
          (some ⟨lmnd.data, lmnd.prevPtr, some b⟩))
          lx (some ⟨lxnd.data, lxnd.prevPtr, some a⟩))
          b (some ⟨bnd.data, some lm, some m0⟩))
          a (some ⟨and2.data, some lx, some y0⟩)) a =
          some ⟨and2.data, some lx, some y0⟩ := hget_hset_self_of_live hgBa _
      have hgCb : hget (hset (hset (hset (hset h lm
          (some ⟨lmnd.data, lmnd.prevPtr, some b⟩))
          lx (some ⟨lxnd.data, lxnd.prevPtr, some a⟩))
          b (some ⟨bnd.data, some lm, some m0⟩))
          a (some ⟨and2.data, some lx, some y0⟩)) b =
          some ⟨bnd.data, some lm, some m0⟩ := by
        rw [hget_hset_ne _ (Ne.symm hab)]
        exact hget_hset_self_of_live hgA2b _
      obtain ⟨m0C, hgCm0, hm0Cd, hm0Cp, hm0Cn⟩ :
          ∃ nd : ListNode T, hget (hset (hset (hset (hset h lm
            (some ⟨lmnd.data, lmnd.prevPtr, some b⟩))
            lx (some ⟨lxnd.data, lxnd.prevPtr, some a⟩))
            b (some ⟨bnd.data, some lm, some m0⟩))
            a (some ⟨and2.data, some lx, some y0⟩)) m0 = some nd ∧
            nd.data = m0nd.data ∧ nd.prevPtr = m0nd.prevPtr ∧
            nd.nextPtr = (if m0 = lm then some b else m0nd.nextPtr) := by
        by_cases hm0lm : m0 = lm
        · refine ⟨⟨lmnd.data, lmnd.prevPtr, some b⟩, ?_, ?_, ?_, ?_⟩
          · rw [hget_hset_ne _ (Ne.symm ham0), hget_hset_ne _ (Ne.symm hbm0),
              hget_hset_ne _ (Ne.symm hlxm0), hm0lm]
            exact hget_hset_self_of_live hglm _
          · rw [hm0lm] at hgm0
            rw [hgm0] at hglm
            rw [Option.some.inj hglm]
          · rw [hm0lm] at hgm0
            rw [hgm0] at hglm
            rw [Option.some.inj hglm]
          · rw [if_pos hm0lm]
        · refine ⟨m0nd, ?_, rfl, rfl, ?_⟩
          · rw [hget_hset_ne _ (Ne.symm ham0), hget_hset_ne _ (Ne.symm hbm0),
              hget_hset_ne _ (Ne.symm hlxm0), hget_hset_ne _ hm0lm]
            exact hgm0
          · rw [if_neg hm0lm]
      have hgCy0 : hget (hset (hset (hset (hset h lm
          (some ⟨lmnd.data, lmnd.prevPtr, some b⟩))
          lx (some ⟨lxnd.data, lxnd.prevPtr, some a⟩))
          b (some ⟨bnd.data, some lm, some m0⟩))
          a (some ⟨and2.data, some lx, some y0⟩)) y0 = some ynd := by
        rw [hget_hset_ne _ hy0a, hget_hset_ne _ hy0b, hget_hset_ne _ hy0lx,
          hget_hset_ne _ hy0lm]
        exact hgy0
      have hgDb : hget (hset (hset (hset (hset (hset h lm
          (some ⟨lmnd.data, lmnd.prevPtr, some b⟩))
          lx (some ⟨lxnd.data, lxnd.prevPtr, some a⟩))
          b (some ⟨bnd.data, some lm, some m0⟩))
          a (some ⟨and2.data, some lx, some y0⟩))
          y0 (some ⟨ynd.data, some b, ynd.nextPtr⟩)) b =
          some ⟨bnd.data, some lm, some m0⟩ := by
        rw [hget_hset_ne _ (Ne.symm hy0b)]
        exact hgCb
      have hgDm0 : hget (hset (hset (hset (hset (hset h lm
          (some ⟨lmnd.data, lmnd.prevPtr, some b⟩))
          lx (some ⟨lxnd.data, lxnd.prevPtr, some a⟩))
          b (some ⟨bnd.data, some lm, some m0⟩))
          a (some ⟨and2.data, some lx, some y0⟩))
          y0 (some ⟨ynd.data, some b, ynd.nextPtr⟩)) m0 = some m0C := by
        rw [hget_hset_ne _ (Ne.symm hy0m0)]
        exact hgCm0
      have hgE0a : hget (hset (hset (hset (hset (hset (hset h lm
          (some ⟨lmnd.data, lmnd.prevPtr, some b⟩))
          lx (some ⟨lxnd.data, lxnd.prevPtr, some a⟩))
          b (some ⟨bnd.data, some lm, some m0⟩))
          a (some ⟨and2.data, some lx, some y0⟩))
          y0 (some ⟨ynd.data, some b, ynd.nextPtr⟩))
          m0 (some ⟨m0C.data, some a, m0C.nextPtr⟩)) a =
          some ⟨and2.data, some lx, some y0⟩ := by
        rw [hget_hset_ne _ ham0, hget_hset_ne _ (Ne.symm hy0a)]
        exact hgCa
      have hgE0b : hget (hset (hset (hset (hset (hset (hset h lm
          (some ⟨lmnd.data, lmnd.prevPtr, some b⟩))
          lx (some ⟨lxnd.data, lxnd.prevPtr, some a⟩))
          b (some ⟨bnd.data, some lm, some m0⟩))
          a (some ⟨and2.data, some lx, some y0⟩))
          y0 (some ⟨ynd.data, some b, ynd.nextPtr⟩))
          m0 (some ⟨m0C.data, some a, m0C.nextPtr⟩)) b =
          some ⟨bnd.data, some lm, some m0⟩ := by
        rw [hget_hset_ne _ hbm0, hget_hset_ne _ (Ne.symm hy0b)]
        exact hgCb
      have hgF0b : hget (hset (hset (hset (hset (hset (hset (hset h lm
          (some ⟨lmnd.data, lmnd.prevPtr, some b⟩))
          lx (some ⟨lxnd.data, lxnd.prevPtr, some a⟩))
          b (some ⟨bnd.data, some lm, some m0⟩))
          a (some ⟨and2.data, some lx, some y0⟩))
          y0 (some ⟨ynd.data, some b, ynd.nextPtr⟩))
          m0 (some ⟨m0C.data, some a, m0C.nextPtr⟩))
          a (some ⟨and2.data, some lx, some m0⟩)) b =
          some ⟨bnd.data, some lm, some m0⟩ := by
        rw [hget_hset_ne _ (Ne.symm hab)]
        exact hgE0b
      refine ⟨hset (hset (hset (hset (hset (hset (hset (hset h lm
          (some ⟨lmnd.data, lmnd.prevPtr, some b⟩))
          lx (some ⟨lxnd.data, lxnd.prevPtr, some a⟩))
          b (some ⟨bnd.data, some lm, some m0⟩))
          a (some ⟨and2.data, some lx, some y0⟩))
          y0 (some ⟨ynd.data, some b, ynd.nextPtr⟩))
          m0 (some ⟨m0C.data, some a, m0C.nextPtr⟩))
          a (some ⟨and2.data, some lx, some m0⟩))
          b (some ⟨bnd.data, some lm, some y0⟩),
        hdr, ?_, ?_, ?_, ?_⟩
      · simp only [SwapNonSuccessiveNodes, if_neg hab,
          readPtr_some hga, ebind_ok, epure_ok,
          if_neg hg1, if_neg hg1', hna2, hpa, if_neg hg2, if_neg hg2',
          if_neg hf_a, if_neg hf_b, hpb2,
          writeNext_some hglm, readPtr_some hgAb, writeNext_some hgAlx,
          readPtr_some hgA2b, readPtr_some hgA2a, writePrev_some hgA2b,
          writePrev_some hgBa, if_neg hlne_a, if_neg hlne_b,
          readPtr_some hgCa, writePrev_some hgCy0, readPtr_some hgDb,
          writePrev_some hgDm0, readPtr_some hgE0a, readPtr_some hgE0b,
          writeNext_some hgE0a, writeNext_some hgF0b,
          hnb2, ne_eq, eq_self_iff_true, not_true, if_false, if_true]
      · refine swapNS_rep hrep rfl hlmgl
          ⟨⟨and2.data, some lx, some m0⟩, ?_, (lastO_of_getLast? hlxgl none).symm,
            rfl⟩
          ⟨⟨bnd.data, some lm, some y0⟩, ?_, rfl, rfl⟩
          ?_ ?_ ?_ ?_ ?_ rfl
        · rw [hget_hset_ne _ hab]
          exact hget_hset_self_of_live hgE0a _
        · exact hget_hset_self_of_live hgF0b _
        · intro c hc
          by_cases hclx : c = lx
          · subst hclx
            refine ⟨lxnd, ⟨lxnd.data, lxnd.prevPtr, some a⟩, hglx, ?_, rfl, ?_⟩
            · rw [hget_hset_ne _ hlxb, hget_hset_ne _ hlxa,
                hget_hset_ne _ hlxm0, hget_hset_ne _ (Ne.symm hy0lx),
                hget_hset_ne _ hlxa, hget_hset_ne _ hlxb]
              exact hget_hset_self_of_live hgAlx _
            · rw [hlxgl, if_pos rfl]
          · have h1 : c ≠ a := fun hcc => haxs (hcc ▸ hc)
            have h2 : c ≠ b := fun hcc => hbxs (hcc ▸ hc)
            have h3 : c ≠ m0 := fun hcc =>
              hxsdisj c hc (by rw [hcc]; exact List.mem_append_left _ hm0mem)
            have h4 : c ≠ lm := fun hcc =>
              hxsdisj c hc (by rw [hcc]; exact List.mem_append_left _ hlmmem)
            have h6 : c ≠ y0 := fun hcc =>
              hxsdisj c hc (by rw [hcc]; exact hy0rest)
            obtain ⟨nd, hgc⟩ := chainSeg_mem hcxs hc
            refine ⟨nd, nd, hgc, ?_, rfl, ?_⟩
            · rw [hget_hset_ne _ h2, hget_hset_ne _ h1, hget_hset_ne _ h3,
                hget_hset_ne _ h6, hget_hset_ne _ h1, hget_hset_ne _ h2,
                hget_hset_ne _ hclx, hget_hset_ne _ h4]
              exact hgc
            · rw [hlxgl, if_neg (fun hcc => hclx (Option.some.inj hcc).symm)]
        · intro c hc
          by_cases hcm0 : c = m0
          · subst hcm0
            refine ⟨m0nd, ⟨m0C.data, some a, m0C.nextPtr⟩, hgm0, ?_, ?_, ?_⟩
            · rw [hget_hset_ne _ (Ne.symm hbm0), hget_hset_ne _ (Ne.symm ham0)]
              exact hget_hset_self_of_live hgDm0 _
            · rw [if_pos (show (c :: ms1).head? = some c from rfl)]
            · rw [hlmgl]
              by_cases hm0lm : c = lm
              · rw [if_pos (by rw [hm0lm]), hm0Cn, if_pos hm0lm]
              · rw [if_neg (fun hcc => hm0lm (Option.some.inj hcc).symm),
                  hm0Cn, if_neg hm0lm]
          · by_cases hclm : c = lm
            · subst hclm
              refine ⟨lmnd, ⟨lmnd.data, lmnd.prevPtr, some b⟩, hglm, ?_, ?_, ?_⟩
              · rw [hget_hset_ne _ (Ne.symm hblm), hget_hset_ne _ (Ne.symm halm),
                  hget_hset_ne _ hcm0, hget_hset_ne _ (Ne.symm hy0lm),
                  hget_hset_ne _ (Ne.symm halm), hget_hset_ne _ (Ne.symm hblm),
                  hget_hset_ne _ (Ne.symm hlxlm)]
                exact hget_hset_self_of_live hglm _
              · rw [if_neg (show ¬((m0 :: ms1).head? = some c) from
                  fun hcc => hcm0 (Option.some.inj hcc).symm)]
              · rw [hlmgl, if_pos rfl]
            · have h1 : c ≠ a := fun hcc => hams (hcc ▸ hc)
              have h2 : c ≠ b := fun hcc => hbms (hcc ▸ hc)
              have h3y : c ≠ y0 := fun hcc =>
                hmsdisj c hc (by rw [hcc]; exact List.mem_cons_self _ _)
              have h5 : c ≠ lx := fun hcc =>
                hxsdisj lx hlxmem (by rw [← hcc]; exact List.mem_append_left _ hc)
              obtain ⟨nd, hgc⟩ := chainSeg_mem hcms hc
              refine ⟨nd, nd, hgc, ?_, ?_, ?_⟩
              · rw [hget_hset_ne _ h2, hget_hset_ne _ h1, hget_hset_ne _ hcm0,
                  hget_hset_ne _ h3y, hget_hset_ne _ h1, hget_hset_ne _ h2,
                  hget_hset_ne _ h5, hget_hset_ne _ hclm]
                exact hgc
              · rw [if_neg (show ¬((m0 :: ms1).head? = some c) from
                  fun hcc => hcm0 (Option.some.inj hcc).symm)]
              · rw [hlmgl, if_neg (fun hcc => hclm (Option.some.inj hcc).symm)]
        · intro c hc
          by_cases hcy0 : c = y0
          · subst hcy0
            refine ⟨ynd, ⟨ynd.data, some b, ynd.nextPtr⟩, hgy0, ?_, ?_, rfl⟩
            · rw [hget_hset_ne _ hy0b, hget_hset_ne _ hy0a,
                hget_hset_ne _ hy0m0]
              exact hget_hset_self_of_live hgCy0 _
            · rw [if_pos (show (c :: ys1).head? = some c from rfl)]
          · have hcm : c ∈ ys1 := by
              rcases List.mem_cons.mp hc with heq | hm
              · exact absurd heq hcy0
              · exact hm
            have h1 : c ≠ a := fun hcc => hays (hcc ▸ hc)
            have h2 : c ≠ b := fun hcc => hbys (hcc ▸ hc)
            have h3 : c ≠ m0 := fun hcc => hmsdisj m0 hm0mem (hcc ▸ hc)
            have h4 : c ≠ lm := fun hcc => hmsdisj lm hlmmem (hcc ▸ hc)
            have h5 : c ≠ lx := fun hcc =>
              hxsdisj lx hlxmem (by
                rw [← hcc]
                exact List.mem_append_right _
                  (List.mem_cons_of_mem _ (List.mem_cons_of_mem _ hcm)))
            obtain ⟨nd, hgc⟩ := chainSeg_mem hcys hc
            refine ⟨nd, nd, hgc, ?_, ?_, rfl⟩
            · rw [hget_hset_ne _ h2, hget_hset_ne _ h1, hget_hset_ne _ h3,
                hget_hset_ne _ hcy0, hget_hset_ne _ h1, hget_hset_ne _ h2,
                hget_hset_ne _ h5, hget_hset_ne _ h4]
              exact hgc
            · rw [if_neg (show ¬((y0 :: ys1).head? = some c) from
                fun hcc => hcy0 (Option.some.inj hcc).symm)]
        · show hdr.firstPtr = headO (x0 :: xs1) (some a)
          rw [hfirst]
          rfl
        · show hdr.lastPtr = lastO (y0 :: ys1) (some b)
          rw [hlastys, ← getLast?_cons_eq_lastO, List.getLast?_cons_cons]
      · intro c
        rw [dataAt_hset_keep ⟨bnd.data, some lm, some y0⟩ hgF0b rfl c,
          dataAt_hset_keep ⟨and2.data, some lx, some m0⟩ hgE0a rfl c,
          dataAt_hset_keep ⟨m0C.data, some a, m0C.nextPtr⟩ hgDm0 rfl c,
          dataAt_hset_keep ⟨ynd.data, some b, ynd.nextPtr⟩ hgCy0 rfl c,
          dataAt_hset_keep ⟨and2.data, some lx, some y0⟩ hgBa rfl c,
          dataAt_hset_keep ⟨bnd.data, some lm, some m0⟩ hgA2b rfl c,
          dataAt_hset_keep ⟨lxnd.data, lxnd.prevPtr, some a⟩ hgAlx rfl c,
          dataAt_hset_keep ⟨lmnd.data, lmnd.prevPtr, some b⟩ hglm rfl c]
      · simp only [length_hset]


theorem swapNodes_self {T : Type} (s : LState T) (x : Nat) :
    SwapNodes s x x = .ok s := by
  simp [SwapNodes]

theorem swapNodes_spec {T : Type} {h : HeapT T} {hdr : ListHdr}
    {xs ms ys : List Nat} {mn sw : Nat}
    (hrep : Rep h hdr (xs ++ sw :: (ms ++ mn :: ys))) (hne : mn ≠ sw) :
    ∃ h' hdr', SwapNodes (h, hdr) mn sw = .ok (h', hdr') ∧
      Rep h' hdr' (xs ++ mn :: (ms ++ sw :: ys)) ∧ dataEq h h' ∧
      h'.length = h.length := by
  have hch := hrep.chain
  rw [chainSeg_append] at hch
  simp only [Bool.and_eq_true] at hch
  obtain ⟨hcxs, hcrest⟩ := hch
  rw [headO_cons] at hcxs
  obtain ⟨swnd, hgsw, hpsw, hnsw, hcrest2⟩ := chainSeg_cons.mp hcrest
  rw [chainSeg_append] at hcrest2
  simp only [Bool.and_eq_true] at hcrest2
  obtain ⟨hcms, hctail⟩ := hcrest2
  rw [headO_cons] at hcms
  obtain ⟨mnnd, hgmn, hpmn, hnmn, hcys⟩ := chainSeg_cons.mp hctail
  obtain ⟨hswxs, hswrest, hxsdisj⟩ := nodup_mid xs sw _ hrep.nodup
  have hswms : sw ∉ ms := fun hc => hswrest (List.mem_append_left _ hc)
  have hg1 : mnnd.nextPtr ≠ some sw := by
    rw [hnmn]
    cases ys with
    | nil => exact fun hc => Option.noConfusion hc
    | cons y0 ys1 =>
      rw [headO_cons]
      intro hc
      refine hswrest (List.mem_append_right _ (List.mem_cons_of_mem _ ?_))
      rw [← Option.some.inj hc]
      exact List.mem_cons_self _ _
  cases hms0 : ms with
  | nil =>
    subst hms0
    have hg2 : mnnd.prevPtr = some sw := hpmn
    have hrep0 : Rep h hdr (xs ++ sw :: mn :: ys) := by simpa using hrep
    obtain ⟨h', hdr', hrun, hrep', hdata, hlen⟩ :=
      @swapSuccessive_spec T h hdr xs ys sw mn hrep0
    refine ⟨h', hdr', ?_, ?_, hdata, hlen⟩
    · simp only [SwapNodes, if_neg hne, readPtr_some hgmn, ebind_ok, epure_ok,
        if_neg hg1, if_pos hg2]
      exact hrun
    · simpa using hrep'
  | cons m ms1 =>
    subst hms0
    obtain ⟨ms2, lm, hms2⟩ :=
      (List.eq_nil_or_concat (m :: ms1)).resolve_left (by simp)
    rw [List.concat_eq_append] at hms2
    have hlmgl : (m :: ms1).getLast? = some lm := by
      rw [hms2]
      exact List.getLast?_concat _
    have hlmmem : lm ∈ m :: ms1 := by
      rw [hms2]
      exact List.mem_append_right _ (by simp)
    have hg2 : mnnd.prevPtr ≠ some sw := by
      rw [hpmn, lastO_of_getLast? hlmgl (some sw)]
      intro hc
      refine hswms ?_
      rw [← Option.some.inj hc]
      exact hlmmem
    obtain ⟨h', hdr', hrun, hrep', hdata, hlen⟩ :=
      swapNonSuccessive_spec hrep (List.cons_ne_nil _ _)
    refine ⟨h', hdr', ?_, hrep', hdata, hlen⟩
    · simp only [SwapNodes, if_neg hne, readPtr_some hgmn, ebind_ok, epure_ok,
        if_neg hg1, if_neg hg2]
      exact hrun


theorem findMinLoop_spec {T : Type} [LinearOrder T] {h : HeapT T} :
    ∀ (suffix : List Nat) (fuel : Nat) (p : Option Nat) (minA : Nat)
      (mind : ListNode T),
      chainSeg h p suffix none = true → suffix.length < fuel →
      hget h minA = some mind →
      ∃ r rnd, FindMinLoop h fuel (headO suffix none) minA = .ok r ∧
        hget h r = some rnd ∧ (r = minA ∨ r ∈ suffix) ∧
        rnd.data ≤ mind.data ∧
        (∀ c ∈ suffix, ∀ nd, hget h c = some nd → rnd.data ≤ nd.data) := by
  intro suffix
  induction suffix with
  | nil =>
    intro fuel p minA mind hch hfuel hgm
    cases fuel with
    | zero => exact absurd hfuel (by simp)
    | succ fuel' =>
      exact ⟨minA, mind, rfl, hgm, Or.inl rfl, le_refl _, fun c hc => absurd hc
        (List.not_mem_nil c)⟩
  | cons a rest ih =>
    intro fuel p minA mind hch hfuel hgm
    cases fuel with
    | zero => exact absurd hfuel (by simp)
    | succ fuel' =>
      obtain ⟨and2, hga, hpa, hna, hcrest⟩ := chainSeg_cons.mp hch
      have hfuel' : rest.length < fuel' := by
        simp only [List.length_cons] at hfuel
        omega
      by_cases hlt : and2.data < mind.data
      · obtain ⟨r, rnd, hrun, hgr, hmem, hle, hall⟩ :=
          ih fuel' (some a) a and2 hcrest hfuel' hga
        refine ⟨r, rnd, ?_, hgr, ?_, le_of_lt (lt_of_le_of_lt hle hlt), ?_⟩
        · rw [headO_cons]
          simp only [FindMinLoop, readPtr_some hga, readPtr_some hgm,
            ebind_ok, if_pos hlt, hna]
          exact hrun
        · rcases hmem with hra | hrr
          · exact Or.inr (by rw [hra]; exact List.mem_cons_self _ _)
          · exact Or.inr (List.mem_cons_of_mem _ hrr)
        · intro c hc nd hgc
          rcases List.mem_cons.mp hc with rfl | hcr
          · rw [hga] at hgc
            rw [← Option.some.inj hgc]
            exact hle
          · exact hall c hcr nd hgc
      · obtain ⟨r, rnd, hrun, hgr, hmem, hle, hall⟩ :=
          ih fuel' (some a) minA mind hcrest hfuel' hgm
        refine ⟨r, rnd, ?_, hgr, ?_, hle, ?_⟩
        · rw [headO_cons]
          simp only [FindMinLoop, readPtr_some hga, readPtr_some hgm,
            ebind_ok, if_neg hlt, hna]
          exact hrun
        · rcases hmem with hra | hrr
          · exact Or.inl hra
          · exact Or.inr (List.mem_cons_of_mem _ hrr)
        · intro c hc nd hgc
          rcases List.mem_cons.mp hc with rfl | hcr
          · rw [hga] at hgc
            rw [← Option.some.inj hgc]
            exact le_trans hle (not_lt.mp hlt)
          · exact hall c hcr nd hgc

theorem findMinimum_spec {T : Type} [LinearOrder T] {h : HeapT T}
    {hdr : ListHdr} {p : Option Nat} {sw : Nat} {rest2 : List Nat}
    (hch : chainSeg h p (sw :: rest2) none = true)
    (hcnt : hdr.numberOfNodes ≠ 0)
    (hfuel : rest2.length < h.length + 1) :
    ∃ r rnd, FindMinimum h hdr (some sw) = .ok r ∧ hget h r = some rnd ∧
      r ∈ sw :: rest2 ∧
      (∀ c ∈ sw :: rest2, ∀ nd, hget h c = some nd → rnd.data ≤ nd.data) := by
  obtain ⟨swnd, hgsw, hpsw, hnsw, hcrest⟩ := chainSeg_cons.mp hch
  obtain ⟨r, rnd, hrun, hgr, hmem, hle, hall⟩ :=
    findMinLoop_spec rest2 (h.length + 1) (some sw) sw swnd hcrest hfuel hgsw
  refine ⟨r, rnd, ?_, hgr, ?_, ?_⟩
  · simp only [FindMinimum, isEmptyHdr_eq_false hcnt, Bool.false_eq_true,
      if_false, readPtr_some hgsw, ebind_ok, hnsw]
    exact hrun
  · rcases hmem with hra | hrr
    · exact (by rw [hra]; exact List.mem_cons_self _ _)
    · exact List.mem_cons_of_mem _ hrr
  · intro c hc nd hgc
    rcases List.mem_cons.mp hc with rfl | hcr
    · rw [hgsw] at hgc
      rw [← Option.some.inj hgc]
      exact hle
    · exact hall c hcr nd hgc


theorem mem_valsOf {T : Type} {h : HeapT T} {l : List Nat} {a : Nat}
    {nd : ListNode T} (ha : a ∈ l) (hg : hget h a = some nd) :
    nd.data ∈ valsOf h l := by
  simp only [valsOf]
  exact List.mem_filterMap.mpr ⟨a, ha, by rw [hg]; rfl⟩

theorem valsOf_mem_elim {T : Type} {h : HeapT T} {l : List Nat} {v : T}
    (hv : v ∈ valsOf h l) :
    ∃ a ∈ l, ∃ nd, hget h a = some nd ∧ nd.data = v := by
  simp only [valsOf] at hv
  obtain ⟨a, ha, hfa⟩ := List.mem_filterMap.mp hv
  cases hg : hget h a with
  | none =>
    rw [hg] at hfa
    exact absurd hfa (by simp)
  | some nd =>
    rw [hg] at hfa
    exact ⟨a, ha, nd, hg, by simpa using hfa⟩

theorem sortLoop_spec {T : Type} [LinearOrder T] :
    ∀ (fuel : Nat) (h : HeapT T) (hdr : ListHdr) (done rest : List Nat),
      Rep h hdr (done ++ rest) → rest.length < fuel →
      List.Chain' (· ≤ ·) (valsOf h done) →
      (∀ d ∈ valsOf h done, ∀ v ∈ valsOf h rest, d ≤ v) →
      ∃ h' hdr' rest',
        SortLoop (h, hdr) fuel (headO rest none) = .ok (h', hdr') ∧
        Rep h' hdr' (done ++ rest') ∧ List.Perm rest' rest ∧
        dataEq h h' ∧ h'.length = h.length ∧
        List.Chain' (· ≤ ·) (valsOf h' (done ++ rest')) := by
  intro fuel
  induction fuel with
  | zero =>
    intro h hdr done rest _ hf _ _
    exact absurd hf (by simp)
  | succ fuel' ih =>
    intro h hdr done rest hrep hf hchain hmin
    cases hrest0 : rest with
    | nil =>
      subst hrest0
      exact ⟨h, hdr, [], rfl, hrep, List.Perm.refl _, fun a => rfl, rfl,
        by simpa using hchain⟩
    | cons sw rest2 =>
      subst hrest0
      have hcnt : hdr.numberOfNodes ≠ 0 := by
        rw [hrep.count]
        simp
      have hlenle := hrep.length_le
      have hfuelF : rest2.length < h.length + 1 := by
        simp only [List.length_append, List.length_cons] at hlenle
        omega
      have hch := hrep.chain
      rw [chainSeg_append] at hch
      simp only [Bool.and_eq_true] at hch
      obtain ⟨hcdone, hcrest⟩ := hch
      obtain ⟨r, rnd, hrunF, hgr, hmemr, hall⟩ :=
        findMinimum_spec hcrest hcnt hfuelF
      obtain ⟨swnd, hgsw, hpsw2, hnsw, hcrest2⟩ := chainSeg_cons.mp hcrest
      have hrval : rnd.data ∈ valsOf h (sw :: rest2) := mem_valsOf hmemr hgr
      have hchain2 : List.Chain' (· ≤ ·) (valsOf h (done ++ [r])) := by
        rw [valsOf_append]
        refine List.chain'_append.mpr ⟨hchain, ?_, ?_⟩
        · rw [valsOf_cons_live hgr, valsOf_nil]
          exact List.chain'_singleton _
        · intro x hx y hy
          rw [valsOf_cons_live hgr, valsOf_nil] at hy
          simp only [List.head?_cons, Option.mem_def, Option.some.injEq] at hy
          subst hy
          obtain ⟨hne2, heq⟩ := List.mem_getLast?_eq_getLast hx
          exact hmin x (heq ▸ List.getLast_mem hne2) rnd.data hrval
      by_cases hrsw : r = sw
      · subst hrsw
        have hswnd_rnd : swnd = rnd := by
          have hh := hgr
          rw [hgsw] at hh
          exact Option.some.inj hh
        have hnext : rnd.nextPtr = headO rest2 none := by
          rw [← hswnd_rnd]
          exact hnsw
        have hrepA : Rep h hdr ((done ++ [r]) ++ rest2) := by
          rw [List.append_assoc]
          simpa using hrep
        have hf2 : rest2.length < fuel' := by
          simp only [List.length_cons] at hf
          omega
        have hmin2 : ∀ d ∈ valsOf h (done ++ [r]), ∀ v ∈ valsOf h rest2,
            d ≤ v := by
          intro d hd v hv
          rw [valsOf_append] at hd
          rcases List.mem_append.mp hd with hdl | hdr2
          · refine hmin d hdl v ?_
            rw [valsOf_cons_live hgr]
            exact List.mem_cons_of_mem _ hv
          · rw [valsOf_cons_live hgr, valsOf_nil] at hdr2
            simp only [List.mem_singleton] at hdr2
            subst hdr2
            obtain ⟨addr, haddr, nd, hgnd, hndv⟩ := valsOf_mem_elim hv
            rw [← hndv]
            exact hall addr (List.mem_cons_of_mem _ haddr) nd hgnd
        obtain ⟨h', hdr', rest'', hrun2, hrep2, hperm2, hde2, hlen2, hchainF⟩ :=
          ih h hdr (done ++ [r]) rest2 hrepA hf2 hchain2 hmin2
        refine ⟨h', hdr', r :: rest'', ?_, ?_, List.Perm.cons r hperm2,
          hde2, hlen2, ?_⟩
        · rw [headO_cons]
          simp only [SortLoop, hrunF, ebind_ok, epure_ok, swapNodes_self,
            readPtr_some hgr, hnext]
          exact hrun2
        · rw [show done ++ r :: rest'' = (done ++ [r]) ++ rest'' by simp]
          exact hrep2
        · rw [show done ++ r :: rest'' = (done ++ [r]) ++ rest'' by simp]
          exact hchainF
      · have hrmem2 : r ∈ rest2 := by
          rcases List.mem_cons.mp hmemr with heq | hm
          · exact absurd heq hrsw
          · exact hm
        obtain ⟨ms, ys, hrest2eq⟩ := List.append_of_mem hrmem2
        subst hrest2eq
        obtain ⟨h1, hdr1, hrunSw, hrep1, hde1, hlen1⟩ := swapNodes_spec hrep hrsw
        have hch1 := hrep1.chain
        rw [chainSeg_append] at hch1
        simp only [Bool.and_eq_true] at hch1
        obtain ⟨_, hcrest1⟩ := hch1
        obtain ⟨rnd1, hgr1, hpr1, hnr1, _⟩ := chainSeg_cons.mp hcrest1
        have hrepA : Rep h1 hdr1 ((done ++ [r]) ++ (ms ++ sw :: ys)) := by
          rw [List.append_assoc]
          simpa using hrep1
        have hf2 : (ms ++ sw :: ys).length < fuel' := by
          simp only [List.length_cons, List.length_append] at hf ⊢
          omega
        have hchain2' : List.Chain' (· ≤ ·) (valsOf h1 (done ++ [r])) := by
          rw [valsOf_congr_dataEq hde1]
          exact hchain2
        have haddrsub : ∀ addr ∈ ms ++ sw :: ys, addr ∈ sw :: (ms ++ r :: ys) := by
          intro addr haddr
          rcases List.mem_append.mp haddr with hm | hm
          · exact List.mem_cons_of_mem _ (List.mem_append_left _ hm)
          · rcases List.mem_cons.mp hm with heq | hm2
            · rw [heq]
              exact List.mem_cons_self _ _
            · exact List.mem_cons_of_mem _
                (List.mem_append_right _ (List.mem_cons_of_mem _ hm2))
        have hmin2 : ∀ d ∈ valsOf h1 (done ++ [r]),
            ∀ v ∈ valsOf h1 (ms ++ sw :: ys), d ≤ v := by
          rw [valsOf_congr_dataEq hde1, valsOf_congr_dataEq hde1]
          intro d hd v hv
          obtain ⟨addr, haddr, nd, hgnd, hndv⟩ := valsOf_mem_elim hv
          rw [valsOf_append] at hd
          rcases List.mem_append.mp hd with hdl | hdr2
          · rw [← hndv]
            exact hmin d hdl nd.data (mem_valsOf (haddrsub addr haddr) hgnd)
          · rw [valsOf_cons_live hgr, valsOf_nil] at hdr2
            simp only [List.mem_singleton] at hdr2
            subst hdr2
            rw [← hndv]
            exact hall addr (haddrsub addr haddr) nd hgnd
        obtain ⟨h', hdr', rest'', hrun2, hrep2, hperm2, hde2, hlen2, hchainF⟩ :=
          ih h1 hdr1 (done ++ [r]) (ms ++ sw :: ys) hrepA hf2 hchain2' hmin2
        refine ⟨h', hdr', r :: rest'', ?_, ?_, ?_, ?_, ?_, ?_⟩
        · rw [headO_cons]
          simp only [SortLoop, hrunF, ebind_ok, epure_ok, hrunSw,
            readPtr_some hgr1, hnr1]
          exact hrun2
        · rw [show done ++ r :: rest'' = (done ++ [r]) ++ rest'' by simp]
          exact hrep2
        · refine (List.Perm.cons r hperm2).trans ?_
          exact (List.Perm.cons r List.perm_middle).trans
            ((List.Perm.swap sw r (ms ++ ys)).trans
              (List.Perm.cons sw List.perm_middle).symm)
        · exact fun a => (hde2 a).trans (hde1 a)
        · exact hlen2.trans hlen1
        · rw [show done ++ r :: rest'' = (done ++ [r]) ++ rest'' by simp]
          exact hchainF


/-- C5 (amended): under the representation invariant Sort() always returns
normally, the surviving chain carries a permutation of the original element
values (multiset unchanged), and for every NON-EMPTY list isSorted() on the
result returns true; the empty list is excluded because isSorted() reports
false on it (ListContainer.h line 102), as the separate counterexample shows. -/
theorem c5_sort_nonempty_sorted_multiset_preserved {T : Type} [LinearOrder T]
    {h : HeapT T} {hdr : ListHdr} {addrs : List Nat}
    (hrep : Rep h hdr addrs) :
    ∃ h' hdr' addrs', SortL (h, hdr) = .ok (h', hdr') ∧
      Rep h' hdr' addrs' ∧
      List.Perm (valsOf h' addrs') (valsOf h addrs) ∧
      (addrs ≠ [] → isSortedL (h', hdr') = .ok true) := by
  cases haddrs : addrs with
  | nil =>
    subst haddrs
    have hcnt0 : hdr.numberOfNodes = 0 := by simpa using hrep.count
    refine ⟨h, hdr, [], ?_, hrep, List.Perm.refl _, fun hne => absurd rfl hne⟩
    simp [SortL, isEmptyHdr, hcnt0]
  | cons a rest =>
    subst haddrs
    cases hrest : rest with
    | nil =>
      subst hrest
      have hfp : hdr.firstPtr = some a := by simpa using hrep.first
      have hlp : hdr.lastPtr = some a := by simpa using hrep.last
      obtain ⟨nd, hg⟩ := hrep.live (List.mem_cons_self a [])
      refine ⟨h, hdr, [a], ?_, hrep, List.Perm.refl _, fun _ => ?_⟩
      · simp [SortL, hfp, hlp]
      · rw [isSortedL_spec hrep]
        have hp : ([a] ≠ [] ∧ List.Chain' (· ≤ ·) (valsOf h [a])) := by
          refine ⟨by simp, ?_⟩
          rw [valsOf_cons_live hg, valsOf_nil]
          exact List.chain'_singleton _
        rw [decide_eq_true hp]
    | cons b rest2 =>
      subst hrest
      have hcnt : hdr.numberOfNodes ≠ 0 := by
        rw [hrep.count]
        simp
      have hfp : hdr.firstPtr = some a := by simpa using hrep.first
      obtain ⟨lst, hlst⟩ : ∃ z, (b :: rest2).getLast? = some z :=
        ⟨(b :: rest2).getLast (by simp), List.getLast?_eq_getLast _ (by simp)⟩
      have hlstmem : lst ∈ b :: rest2 := by
        obtain ⟨hne2, heq⟩ := List.mem_getLast?_eq_getLast (by rw [hlst]; rfl)
        exact heq ▸ List.getLast_mem hne2
      have hbeq : (hdr.firstPtr == hdr.lastPtr) = false := by
        rw [hfp, hrep.last, List.getLast?_cons_cons, hlst]
        simp only [beq_eq_false_iff_ne, ne_eq, Option.some.injEq]
        intro hc
        exact (List.nodup_cons.mp hrep.nodup).1 (by rw [hc]; exact hlstmem)
      have hrep0 : Rep h hdr ([] ++ (a :: b :: rest2)) := by simpa using hrep
      have hfl : (a :: b :: rest2).length < h.length + 1 :=
        Nat.lt_succ_of_le hrep.length_le
      obtain ⟨h', hdr', rest', hrun, hrep', hperm, hde, hlen, hchainF⟩ :=
        sortLoop_spec (h.length + 1) h hdr [] (a :: b :: rest2) hrep0 hfl
          List.chain'_nil
          (fun d hd => absurd hd (List.not_mem_nil d))
      have hrep2 : Rep h' hdr' rest' := by simpa using hrep'
      refine ⟨h', hdr', rest', ?_, hrep2, ?_, fun _ => ?_⟩
      · have hrun' := hrun
        rw [headO_cons] at hrun'
        have hbeq2 : ((some a : Option Nat) == hdr.lastPtr) = false := by
          rw [← hfp]
          exact hbeq
        simp only [SortL, isEmptyHdr_eq_false hcnt, hbeq, hbeq2, Bool.false_or,
          Bool.false_eq_true, if_false, hfp]
        exact hrun'
      · have hp1 : List.Perm (valsOf h' rest') (valsOf h' (a :: b :: rest2)) :=
          hperm.filterMap _
        rw [valsOf_congr_dataEq hde (a :: b :: rest2)] at hp1
        exact hp1
      · rw [isSortedL_spec hrep2]
        have hne' : rest' ≠ [] := by
          intro h0
          have hl := hperm.length_eq
          rw [h0] at hl
          simp at hl
        have hch2 : List.Chain' (· ≤ ·) (valsOf h' rest') := by
          simpa using hchainF
        rw [decide_eq_true ⟨hne', hch2⟩]

/-- C5 witness: sorting the concrete three-element list [3, 1, 2] succeeds,
keeps the multiset of values, and the sorted list reports isSorted = true. -/
theorem c5_sort_nonempty_sorted_multiset_preserved_witness :
    ∃ h' hdr' addrs',
      SortL (([some ⟨3, none, some 1⟩, some ⟨1, some 0, some 2⟩,
        some ⟨2, some 1, none⟩] : HeapT Int), ⟨some 0, some 2, 3⟩) =
        .ok (h', hdr') ∧
      Rep h' hdr' addrs' ∧
      List.Perm (valsOf h' addrs')
        (valsOf ([some ⟨3, none, some 1⟩, some ⟨1, some 0, some 2⟩,
          some ⟨2, some 1, none⟩] : HeapT Int) [0, 1, 2]) ∧
      (([0, 1, 2] : List Nat) ≠ [] → isSortedL (h', hdr') = .ok true) :=
  @c5_sort_nonempty_sorted_multiset_preserved Int _
    [some ⟨3, none, some 1⟩, some ⟨1, some 0, some 2⟩, some ⟨2, some 1, none⟩]
    ⟨some 0, some 2, 3⟩ [0, 1, 2] ⟨by decide, rfl, rfl, rfl, by decide⟩

end CppContainers
